import Mathlib

/-!
# Boson: page cache and leaf node

A shallow embedding of `src/io/CachedFileIO.cpp` (the paged read/write cache)
and of `src/index/LeafNode.cpp` / `src/index/Node.cpp` (B+tree nodes), followed
by the properties established about them.

Conventions of the embedding:

* `size_t` values (offsets, page numbers, ages, counters) are natural numbers.
  `read` and `write` are the functions on the calls whose sum
  `position + length` stays below `2 ^ 64`; `write64` takes that sum modulo
  `2 ^ 64`, for the property that the wrap-around decides.
* A store outside an allocated buffer is a result of its own
  (`ValueResult.overflow`), after which nothing is said about the program.
* An array is a function from indices to values; a byte is a natural number.
* The constants of `CachedFileIO.h` and `BalancedIndex.h`, which are not among
  the sources, are parameters (`CacheConstants`, `IndexConstants`).
* A sentinel result (`PAGE_NOT_FOUND` returned as a cache index) is `none`.
-/

namespace Boson

/-! ## The file underneath the cache -/

/-- The file behind a `FILE*`: its length, its bytes, and whether the device
refuses further writes (then `fwrite` writes nothing). -/
structure File where
  size : Nat
  byte : Nat → Nat
  diskFull : Bool

/-- Byte `i` as a reader sees it: the stored byte inside the file, zero in a
hole or past the end (where `loadPageToCache` zero-fills). -/
def File.byteAt (f : File) (i : Nat) : Nat :=
  if i < f.size then f.byte i else 0

/-- Result of `fread(buf, 1, n, f)` after seeking to `offset`: the number of
bytes delivered. -/
def File.fread (f : File) (offset n : Nat) : Nat :=
  min n (f.size - offset)

/-- Result of `fwrite(data, 1, n, f)` after seeking to `offset`: the file
afterwards and the number of bytes written. A write past the end extends the
file, the gap reading as zero. -/
def File.fwrite (f : File) (offset : Nat) (data : Nat → Nat) (n : Nat) : File × Nat :=
  if f.diskFull then (f, 0)
  else
    ({ f with
        size := max f.size (offset + n)
        byte := fun i =>
          if offset ≤ i ∧ i < offset + n then data (i - offset) else f.byteAt i },
     n)

/-! ## CachedFileIO -/

/-- Constants declared in `CachedFileIO.h`. -/
structure CacheConstants where
  DEFAULT_CACHE_PAGE_SIZE : Nat
  MINIMAL_CACHE_SIZE : Nat
  PAGE_NOT_FOUND : Nat

/-- Enumeration `PageState`. -/
inductive PageState where
  | FREE
  | CLEAN
  | DIRTY
  deriving DecidableEq, Repr

/-- Record `CachePageInfo`: description of one cache slot. -/
structure CachePageInfo where
  state : PageState
  filePageNo : Nat
  age : Nat
  availableDataLength : Nat
  deriving DecidableEq, Repr

/-- The object state of class `CachedFileIO`. `fileHandler = none` is the null
handle; slot `i` exists when `i < cachePagesCount`. -/
structure CachedFileIO where
  fileHandler : Option File
  cachePagesCount : Nat
  cachePagesInfo : Nat → CachePageInfo
  cachePagesData : Nat → Nat → Nat
  readOnly : Bool
  cacheRequests : Nat
  cacheMisses : Nat

/-- A slot as `memset(..., 0, ...)` leaves it; the zero enumerator is `FREE`. -/
def zeroPageInfo : CachePageInfo :=
  { state := PageState.FREE, filePageNo := 0, age := 0, availableDataLength := 0 }

/-- The constructor `CachedFileIO::CachedFileIO`. -/
def newCachedFile : CachedFileIO :=
  { fileHandler := none
    cachePagesCount := 0
    cachePagesInfo := fun _ => zeroPageInfo
    cachePagesData := fun _ _ => 0
    readOnly := false
    cacheRequests := 0
    cacheMisses := 0 }

/-- A counting loop `for (i = start; i < start + n; i++) if (p i) return i;`. -/
def scanSlots (p : Nat → Bool) : Nat → Nat → Option Nat
  | 0, _ => none
  | n + 1, i => if p i then some i else scanSlots p n (i + 1)

/-- The test of `searchPageInCache` on one slot. -/
def holdsPage (s : CachedFileIO) (requestedFilePageNo : Nat) (cacheIndex : Nat) : Bool :=
  decide ((s.cachePagesInfo cacheIndex).state ≠ PageState.FREE) &&
    decide ((s.cachePagesInfo cacheIndex).filePageNo = requestedFilePageNo)

/-- `CachedFileIO::searchPageInCache`. -/
def searchPageInCache (s : CachedFileIO) (requestedFilePageNo : Nat) :
    CachedFileIO × Option Nat :=
  let s1 := { s with cacheRequests := s.cacheRequests + 1 }
  match scanSlots (holdsPage s requestedFilePageNo) s.cachePagesCount 0 with
  | some cacheIndex => (s1, some cacheIndex)
  | none => ({ s1 with cacheMisses := s1.cacheMisses + 1 }, none)

/-- `CachedFileIO::persistCachePage`. -/
def persistCachePage (K : CacheConstants) (s : CachedFileIO) (cachePageIndex : Nat) :
    CachedFileIO × Bool :=
  match s.fileHandler with
  | none => (s, false)
  | some f =>
    let offset := (s.cachePagesInfo cachePageIndex).filePageNo * K.DEFAULT_CACHE_PAGE_SIZE
    let bytesToWrite := K.DEFAULT_CACHE_PAGE_SIZE
    let r := f.fwrite offset (s.cachePagesData cachePageIndex) bytesToWrite
    ({ s with fileHandler := some r.1 }, decide (r.2 = bytesToWrite))

/-- `CachedFileIO::freeCachePage`. -/
def freeCachePage (K : CacheConstants) (s : CachedFileIO) (cachePageIndex : Nat) :
    CachedFileIO × Bool :=
  let cleared (t : CachedFileIO) : CachedFileIO :=
    { t with
        cachePagesInfo := fun i =>
          if i = cachePageIndex then
            { state := PageState.FREE, age := 0, filePageNo := K.PAGE_NOT_FOUND,
              availableDataLength := 0 }
          else t.cachePagesInfo i }
  if (s.cachePagesInfo cachePageIndex).state = PageState.DIRTY then
    let r := persistCachePage K s cachePageIndex
    if r.2 then (cleared r.1, true) else (r.1, false)
  else (cleared s, true)

/-- The loop of `getFreeCachePageIndex`: `Sum.inl i` is the early return of a
`FREE` slot, `Sum.inr m` the most aged index when the loop ran to its end. -/
def mostAgedLoop (s : CachedFileIO) : Nat → Nat → Nat → Nat → Nat ⊕ Nat
  | 0, _, _, mostAgedPageIndex => Sum.inr mostAgedPageIndex
  | n + 1, cacheIndex, largestAge, mostAgedPageIndex =>
    if (s.cachePagesInfo cacheIndex).state = PageState.FREE then Sum.inl cacheIndex
    else if (s.cachePagesInfo cacheIndex).age > largestAge then
      mostAgedLoop s n (cacheIndex + 1) (s.cachePagesInfo cacheIndex).age cacheIndex
    else mostAgedLoop s n (cacheIndex + 1) largestAge mostAgedPageIndex

/-- `CachedFileIO::getFreeCachePageIndex`. The result of `freeCachePage` is
dropped, as in the source. -/
def getFreeCachePageIndex (K : CacheConstants) (s : CachedFileIO) : CachedFileIO × Nat :=
  match mostAgedLoop s s.cachePagesCount 0 0 0 with
  | Sum.inl cacheIndex => (s, cacheIndex)
  | Sum.inr mostAgedPageIndex => ((freeCachePage K s mostAgedPageIndex).1, mostAgedPageIndex)

/-- `CachedFileIO::ageCachePages`. -/
def ageCachePages (s : CachedFileIO) : CachedFileIO :=
  { s with
      cachePagesInfo := fun i =>
        if i < s.cachePagesCount then
          { s.cachePagesInfo i with age := (s.cachePagesInfo i).age + 1 }
        else s.cachePagesInfo i }

/-- `CachedFileIO::loadPageToCache`. -/
def loadPageToCache (K : CacheConstants) (s : CachedFileIO) (requestedFilePageNo : Nat) :
    CachedFileIO × Option Nat :=
  match s.fileHandler with
  | none => (s, none)
  | some _ =>
    let r := getFreeCachePageIndex K (ageCachePages s)
    let s2 := r.1
    let cachePageIndex := r.2
    match s2.fileHandler with
    | none => (s2, none)
    | some f =>
      let offset := requestedFilePageNo * K.DEFAULT_CACHE_PAGE_SIZE
      let bytesRead := f.fread offset K.DEFAULT_CACHE_PAGE_SIZE
      ({ s2 with
          cachePagesData := fun i =>
            if i = cachePageIndex then
              fun j =>
                if j < bytesRead then f.byte (offset + j)
                else if j < K.DEFAULT_CACHE_PAGE_SIZE then 0
                else s2.cachePagesData i j
            else s2.cachePagesData i
          cachePagesInfo := fun i =>
            if i = cachePageIndex then
              { state := PageState.CLEAN, filePageNo := requestedFilePageNo, age := 0,
                availableDataLength := bytesRead }
            else s2.cachePagesInfo i },
       some cachePageIndex)

/-- The lookup at the head of the page loops of `read` and `write`:
`searchPageInCache`, then `loadPageToCache` on a miss. -/
def lookupOrLoad (K : CacheConstants) (s : CachedFileIO) (filePage : Nat) :
    CachedFileIO × Option Nat :=
  match searchPageInCache s filePage with
  | (s1, some cacheIndex) => (s1, some cacheIndex)
  | (s1, none) => loadPageToCache K s1 filePage

/-- The destination offset in the page and the byte count of one step of the
`write` loop (cases 1 to 3). -/
def writeSpan (K : CacheConstants) (position length firstPageNo lastPageNo : Nat)
    (filePage bytesWritten : Nat) : Nat × Nat :=
  if filePage = firstPageNo then
    (position % K.DEFAULT_CACHE_PAGE_SIZE,
      min length (K.DEFAULT_CACHE_PAGE_SIZE - position % K.DEFAULT_CACHE_PAGE_SIZE))
  else if filePage = lastPageNo then (0, length - bytesWritten)
  else (0, K.DEFAULT_CACHE_PAGE_SIZE)

/-- The copy block of `write`: `memcpy` of `bytesToCopy` bytes from `src` (at
`srcOffset`) to the page at `dstOffset`, then the update of the slot's info. -/
def copyToCachePage (s : CachedFileIO) (cacheIndex dstOffset : Nat) (src : Nat → Nat)
    (srcOffset bytesToCopy : Nat) : CachedFileIO :=
  let pageDataLength := (s.cachePagesInfo cacheIndex).availableDataLength
  if bytesToCopy > 0 then
    { s with
        cachePagesData := fun i =>
          if i = cacheIndex then
            fun j =>
              if dstOffset ≤ j ∧ j < dstOffset + bytesToCopy then src (srcOffset + (j - dstOffset))
              else s.cachePagesData i j
          else s.cachePagesData i
        cachePagesInfo := fun i =>
          if i = cacheIndex then
            { s.cachePagesInfo i with
                age := 0
                state := PageState.DIRTY
                availableDataLength := max pageDataLength bytesToCopy }
          else s.cachePagesInfo i }
  else s

/-- One iteration of the page loop of `write`; `none` is the `return 0`. -/
def writePage (K : CacheConstants) (position length firstPageNo lastPageNo : Nat)
    (src : Nat → Nat) (filePage : Nat) (s : CachedFileIO) (bytesWritten : Nat) :
    CachedFileIO × Option Nat :=
  match lookupOrLoad K s filePage with
  | (s1, none) => (s1, none)
  | (s1, some cacheIndex) =>
    let span := writeSpan K position length firstPageNo lastPageNo filePage bytesWritten
    (copyToCachePage s1 cacheIndex span.1 src bytesWritten span.2, some (bytesWritten + span.2))

/-- The page loop of `write`, `n` pages from `filePage` on. -/
def writeLoop (K : CacheConstants) (position length firstPageNo lastPageNo : Nat)
    (src : Nat → Nat) : Nat → Nat → CachedFileIO → Nat → CachedFileIO × Nat
  | 0, _, s, bytesWritten => (s, bytesWritten)
  | n + 1, filePage, s, bytesWritten =>
    match writePage K position length firstPageNo lastPageNo src filePage s bytesWritten with
    | (s1, none) => (s1, 0)
    | (s1, some bw) => writeLoop K position length firstPageNo lastPageNo src n (filePage + 1) s1 bw

/-- `CachedFileIO::write`; `dataBuffer = none` is the null pointer. -/
def write (K : CacheConstants) (s : CachedFileIO) (position : Nat)
    (dataBuffer : Option (Nat → Nat)) (length : Nat) : CachedFileIO × Nat :=
  match s.fileHandler, dataBuffer with
  | some _, some src =>
    if s.readOnly ∨ length = 0 then (s, 0)
    else
      let firstPageNo := position / K.DEFAULT_CACHE_PAGE_SIZE
      let lastPageNo := (position + length) / K.DEFAULT_CACHE_PAGE_SIZE
      writeLoop K position length firstPageNo lastPageNo src
        (lastPageNo + 1 - firstPageNo) firstPageNo s 0
  | _, _ => (s, 0)

/-- The source offset in the page and the byte count of one step of the `read`
loop (cases 1 to 3). -/
def readSpan (K : CacheConstants) (position length firstPageNo lastPageNo : Nat)
    (filePage pageDataLength : Nat) : Nat × Nat :=
  if filePage = firstPageNo then
    let firstPageOffset := position % K.DEFAULT_CACHE_PAGE_SIZE
    (firstPageOffset,
      if firstPageOffset < pageDataLength then
        if firstPageOffset + length > pageDataLength then pageDataLength - firstPageOffset
        else length
      else 0)
  else if filePage = lastPageNo then
    let remainingBytes := (position + length) % K.DEFAULT_CACHE_PAGE_SIZE
    (0, if remainingBytes < pageDataLength then remainingBytes else pageDataLength)
  else (0, K.DEFAULT_CACHE_PAGE_SIZE)

/-- The page loop of `read`: the state, the caller's buffer and the bytes read
so far; `n` pages from `filePage` on. -/
def readLoop (K : CacheConstants) (position length firstPageNo lastPageNo : Nat) :
    Nat → Nat → CachedFileIO → (Nat → Nat) → Nat → CachedFileIO × (Nat → Nat) × Nat
  | 0, _, s, dst, bytesRead => (s, dst, bytesRead)
  | n + 1, filePage, s, dst, bytesRead =>
    match lookupOrLoad K s filePage with
    | (s1, none) => (s1, dst, 0)
    | (s1, some cacheIndex) =>
      let pageDataLength := (s1.cachePagesInfo cacheIndex).availableDataLength
      let span := readSpan K position length firstPageNo lastPageNo filePage pageDataLength
      let dst1 : Nat → Nat := fun j =>
        if bytesRead ≤ j ∧ j < bytesRead + span.2 then
          s1.cachePagesData cacheIndex (span.1 + (j - bytesRead))
        else dst j
      readLoop K position length firstPageNo lastPageNo n (filePage + 1) s1 dst1
        (bytesRead + span.2)

/-- `CachedFileIO::read`: the state, the caller's buffer afterwards and the
returned count; `dataBuffer = none` is the null pointer. -/
def read (K : CacheConstants) (s : CachedFileIO) (position : Nat)
    (dataBuffer : Option (Nat → Nat)) (length : Nat) :
    CachedFileIO × Option (Nat → Nat) × Nat :=
  match s.fileHandler, dataBuffer with
  | some _, some dst =>
    if length = 0 then (s, some dst, 0)
    else
      let firstPageNo := position / K.DEFAULT_CACHE_PAGE_SIZE
      let lastPageNo := (position + length) / K.DEFAULT_CACHE_PAGE_SIZE
      let r := readLoop K position length firstPageNo lastPageNo
        (lastPageNo + 1 - firstPageNo) firstPageNo s dst 0
      (r.1, some r.2.1, r.2.2)
  | _, _ => (s, dataBuffer, 0)

/-- The loop of `flush`, `n` slots from `cacheIndex` on. -/
def flushLoop (K : CacheConstants) : Nat → Nat → CachedFileIO → Nat → CachedFileIO × Nat
  | 0, _, s, bytesWritten => (s, bytesWritten)
  | n + 1, cacheIndex, s, bytesWritten =>
    if (s.cachePagesInfo cacheIndex).state = PageState.DIRTY then
      let r := persistCachePage K s cacheIndex
      flushLoop K n (cacheIndex + 1) r.1
        (if r.2 then bytesWritten + K.DEFAULT_CACHE_PAGE_SIZE else bytesWritten)
    else flushLoop K n (cacheIndex + 1) s bytesWritten

/-- `CachedFileIO::flush`. -/
def flush (K : CacheConstants) (s : CachedFileIO) : CachedFileIO × Nat :=
  flushLoop K s.cachePagesCount 0 s 0

/-- `CachedFileIO::close`. -/
def close (K : CacheConstants) (s : CachedFileIO) : CachedFileIO × Bool :=
  match s.fileHandler with
  | none => (s, false)
  | some _ => ({ (flush K s).1 with fileHandler := none }, true)

/-- `CachedFileIO::open`. `existing` is what `fopen(dbName, "r+b")` yields and
`created` what `fopen(dbName, "w+b")` yields (`none`: the call fails). -/
def openFile (K : CacheConstants) (s : CachedFileIO) (existing created : Option File)
    (cacheSize : Nat) (isReadOnly : Bool) : CachedFileIO × Bool :=
  let s0 := if s.fileHandler.isSome then (close K s).1 else s
  let handle : Option File :=
    match existing with
    | some f => some f
    | none => if isReadOnly then none else created
  match handle with
  | none => ({ s0 with fileHandler := none }, false)
  | some f =>
    let cacheSize1 := if cacheSize < K.MINIMAL_CACHE_SIZE then K.MINIMAL_CACHE_SIZE else cacheSize
    ({ fileHandler := some f
       cachePagesCount := cacheSize1 / K.DEFAULT_CACHE_PAGE_SIZE
       cachePagesInfo := fun _ => zeroPageInfo
       cachePagesData := fun _ _ => 0
       readOnly := isReadOnly
       cacheRequests := 0
       cacheMisses := 0 }, true)

/-! ## The record store under the index -/

/-- Constants declared in `BalancedIndex.h` and `RecordFileIO.h`: the degree
bounds and the sentinels `NOT_FOUND` (64 bit) and `NOT_FOUND_KEY` (32 bit). -/
structure IndexConstants where
  MAX_DEGREE : Nat
  MIN_DEGREE : Nat
  NOT_FOUND : Nat
  NOT_FOUND_KEY : Nat

/-- Modelled from the spec: a record of the record store (class `RecordFileIO`,
of which the sources hold no implementation): its allocated capacity and its
payload, whose length is the record's data length. -/
structure StoredRecord where
  capacity : Nat
  payload : List Nat

/-- Modelled from the spec: the record store `RecordFileIO` as the index sees
it: the cursor, the records by offset, and the end of the file where a
relocated record is appended. -/
structure RecordFileIO where
  position : Nat
  records : Nat → Option StoredRecord
  endOfFile : Nat

/-- Modelled from the spec: `RecordFileIO::setPosition` moves the cursor to a
record offset. -/
def setPosition (rf : RecordFileIO) (offset : Nat) : RecordFileIO :=
  { rf with position := offset }

/-- Modelled from the spec: `RecordFileIO::getDataLength` is the payload
length of the record under the cursor. -/
def getDataLength (rf : RecordFileIO) : Nat :=
  match rf.records rf.position with
  | some r => r.payload.length
  | none => 0

/-- Modelled from the spec: `RecordFileIO::getRecordData` reads the payload of
the record under the cursor into the buffer, at most `length` bytes, and
returns the record's offset, or `NOT_FOUND` when there is no record. -/
def getRecordData (C : IndexConstants) (rf : RecordFileIO) (buffer : Nat → Nat) (length : Nat) :
    (Nat → Nat) × Nat :=
  match rf.records rf.position with
  | none => (buffer, C.NOT_FOUND)
  | some r =>
    (fun j => if j < min length r.payload.length then r.payload.getD j 0 else buffer j,
     rf.position)

/-- Modelled from the spec: `RecordFileIO::setRecordData` writes `length` bytes
as the payload of the record under the cursor, in place when they fit the
record's capacity and into a new record at the end of the file otherwise, and
returns the offset of the record that holds them, or `NOT_FOUND` when there is
no record. -/
def setRecordData (C : IndexConstants) (rf : RecordFileIO) (data : Nat → Nat) (length : Nat) :
    RecordFileIO × Nat :=
  match rf.records rf.position with
  | none => (rf, C.NOT_FOUND)
  | some r =>
    let payload := (List.range length).map data
    if length ≤ r.capacity then
      ({ rf with
          records := fun o =>
            if o = rf.position then some { capacity := r.capacity, payload := payload }
            else rf.records o },
       rf.position)
    else
      ({ position := rf.endOfFile
         records := fun o =>
           if o = rf.endOfFile then some { capacity := length, payload := payload }
           else if o = rf.position then none
           else rf.records o
         endOfFile := rf.endOfFile + 40 + length },
       rf.endOfFile)

/-! ## Node and LeafNode -/

/-- Enumeration `NodeType`. -/
inductive NodeType where
  | INNER
  | LEAF
  deriving DecidableEq, Repr

/-- Record `NodeData`, the persisted part of a node, with the fields the
sources use. -/
structure NodeData where
  nodeType : NodeType
  keysCount : Nat
  keys : Nat → Nat
  values : Nat → Nat
  parent : Nat
  leftSibling : Nat
  rightSibling : Nat

/-- The object state of a `LeafNode` (members of `Node`). -/
structure LeafNode where
  data : NodeData
  position : Nat
  isPersisted : Bool

/-- Conversion of an integer to `uint32_t`. -/
def toUInt32 (x : Int) : Int := x % 2 ^ 32

/-- Conversion of an integer to `int32_t` (two's complement). -/
def toInt32 (x : Int) : Int := (x + 2 ^ 31) % 2 ^ 32 - 2 ^ 31

/-- The `while` loop of `LeafNode::search` with `fuel` iterations at hand;
`none` when they run out. `start` and `end` are `int32_t`, `mid` is
`uint32_t`; the quotient is taken of a value that is not negative. -/
def searchLoop (C : IndexConstants) (keys : Nat → Nat) (key : Nat) : Nat → Int → Int → Option Nat
  | 0, _, _ => none
  | fuel + 1, start, endIdx =>
    if start ≤ endIdx then
      let mid := toUInt32 (start + (endIdx - start) / 2)
      let entry := keys mid.toNat
      if entry = key then some mid.toNat
      else if key < entry then searchLoop C keys key fuel start (toInt32 (toUInt32 (mid - 1)))
      else if key > entry then searchLoop C keys key fuel (toInt32 (mid + 1)) endIdx
      else searchLoop C keys key fuel start endIdx
    else some C.NOT_FOUND_KEY

/-- `LeafNode::search`, the loop given one iteration more than there are
keys. -/
def search (C : IndexConstants) (node : LeafNode) (key : Nat) : Option Nat :=
  searchLoop C node.data.keys key (node.data.keysCount + 1) 0
    (toInt32 (toUInt32 ((node.data.keysCount : Int) - 1)))

/-- The string a `const char*` denotes: the bytes before the first zero byte,
looked for among the first `bound` bytes. -/
def cString (buffer : Nat → Nat) (bound : Nat) : List Nat :=
  ((List.range bound).map buffer).takeWhile (fun b => b ≠ 0)

/-- The bytes at `std::string::c_str()`: the string, then a zero byte. -/
def c_str (value : List Nat) : Nat → Nat :=
  fun j => (value ++ [0]).getD j 0

/-- The number of `char` objects `std::make_unique<char>(x)` allocates: one,
initialised to `x`. -/
def makeUniqueChar (_x : Nat) : Nat := 1

/-- What a call of `LeafNode::getValueAt` comes to: the string it returns, the
exception `std::ios_base::failure`, or a store past the end of the buffer it
allocated, after which the behaviour of the program is undefined. -/
inductive ValueResult where
  | value (s : List Nat)
  | failure
  | overflow
  deriving DecidableEq, Repr

/-- `LeafNode::getValueAt`. The buffer `cStr` has the `makeUniqueChar
valueLength` bytes that were allocated for it. `getRecordData` stores into it
the bytes the record delivers, at most `valueLength` of them, and the
terminator is stored at index `valueLength - 1`; a store at an index the
buffer does not have is `ValueResult.overflow`. -/
def getValueAt (C : IndexConstants) (node : LeafNode) (recordsFile : RecordFileIO)
    (index : Nat) : RecordFileIO × ValueResult :=
  let offsetInFile := node.data.values index
  let rf := setPosition recordsFile offsetInFile
  let valueLength := (getDataLength rf + 1) % 2 ^ 32
  let allocated := makeUniqueChar valueLength
  let cStr0 : Nat → Nat := fun _ => valueLength % 256
  let r := getRecordData C rf cStr0 valueLength
  if allocated < min valueLength (getDataLength rf) then (rf, ValueResult.overflow)
  else if r.2 = C.NOT_FOUND then (rf, ValueResult.failure)
  else
    let last := (valueLength + 2 ^ 32 - 1) % 2 ^ 32
    if allocated ≤ last then (rf, ValueResult.overflow)
    else
      let cStr : Nat → Nat := fun j => if j = last then 0 else r.1 j
      (rf, ValueResult.value (cString cStr allocated))

/-- `LeafNode::setValueAt`; `none` is the exception. -/
def setValueAt (C : IndexConstants) (node : LeafNode) (recordsFile : RecordFileIO)
    (index : Nat) (value : List Nat) : Option (LeafNode × RecordFileIO) :=
  let offsetInFile := node.data.values index
  let rf := setPosition recordsFile offsetInFile
  let valueLength := (value.length + 1) % 2 ^ 32
  let r := setRecordData C rf (c_str value) valueLength
  if r.2 = C.NOT_FOUND then none
  else
    some ({ node with
              data := { node.data with
                          values := fun i => if i = index then r.2 else node.data.values i }
              isPersisted := false },
          r.1)

/-- `LeafNode::searchPlaceFor`. -/
def searchPlaceFor (C : IndexConstants) (_node : LeafNode) (_key : Nat) : Nat :=
  C.NOT_FOUND_KEY

/-- `LeafNode::insertAt`. -/
def insertAt (node : LeafNode) (recordsFile : RecordFileIO) (_index : Nat) (_key : Nat)
    (_value : List Nat) : LeafNode × RecordFileIO :=
  (node, recordsFile)

/-- `LeafNode::insertKey`: the node and the store afterwards, and the result. -/
def insertKey (C : IndexConstants) (node : LeafNode) (recordsFile : RecordFileIO) (key : Nat)
    (value : List Nat) : (LeafNode × RecordFileIO) × Bool :=
  let insertIndex := searchPlaceFor C node key
  if insertIndex = C.NOT_FOUND then ((node, recordsFile), false)
  else (insertAt node recordsFile (insertIndex % 2 ^ 32) key value, true)

/-! ## Concrete inputs -/

/-- Values of the constants at which properties are evaluated on concrete
inputs: pages of 8192 bytes, a cache of at least 32 pages. -/
def sampleConstants : CacheConstants :=
  { DEFAULT_CACHE_PAGE_SIZE := 8192, MINIMAL_CACHE_SIZE := 262144, PAGE_NOT_FOUND := 2 ^ 64 - 1 }

/-- A file of length zero on a device that accepts writes. -/
def emptyFile : File :=
  { size := 0, byte := fun _ => 0, diskFull := false }

/-- The cache right after `open` created a new file, read-write. -/
def freshCache : CachedFileIO :=
  (openFile sampleConstants newCachedFile none (some emptyFile) 0 false).1

/-- The cache after `write(10, buffer, 5)` on `freshCache`, the buffer holding
sevens. -/
def writtenCache : CachedFileIO :=
  (write sampleConstants freshCache 10 (some (fun _ => 7)) 5).1

/-- A file of length zero on a device that accepts no write. -/
def fullDiskFile : File :=
  { size := 0, byte := fun _ => 0, diskFull := true }

/-- The cache opened on `file` and then filled by one `write` that covers the
pages 0 to 31: each of the 32 slots holds a `DIRTY` page. -/
def filledCacheOn (file : File) : CachedFileIO :=
  (write sampleConstants (openFile sampleConstants newCachedFile (some file) none 0 false).1 0
    (some (fun _ => 7)) 262143).1

/-- A file of four bytes 1, 2, 3, 4. -/
def sampleFile : File :=
  { size := 4, byte := fun i => i + 1, diskFull := false }

/-- The cache right after `open` on the existing `sampleFile`, read-write. -/
def openedCache : CachedFileIO :=
  (openFile sampleConstants newCachedFile (some sampleFile) none 0 false).1

/-! ## Notions the properties are stated with -/

/-- No two slots that are not `FREE` hold the same file page number. -/
def UniquePages (s : CachedFileIO) : Prop :=
  ∀ i j, i < s.cachePagesCount → j < s.cachePagesCount →
    (s.cachePagesInfo i).state ≠ PageState.FREE →
    (s.cachePagesInfo j).state ≠ PageState.FREE →
    (s.cachePagesInfo i).filePageNo = (s.cachePagesInfo j).filePageNo → i = j

/-- The states of the cache reachable from a successful `open` by calls of
`read`, `write` and `flush`. -/
inductive Reachable (K : CacheConstants) : CachedFileIO → Prop where
  | opened (s0 : CachedFileIO) (existing created : Option File) (cacheSize : Nat)
      (isReadOnly : Bool)
      (h : (openFile K s0 existing created cacheSize isReadOnly).2 = true) :
      Reachable K (openFile K s0 existing created cacheSize isReadOnly).1
  | read (s : CachedFileIO) (position : Nat) (dataBuffer : Option (Nat → Nat)) (length : Nat)
      (h : Reachable K s) : Reachable K (read K s position dataBuffer length).1
  | write (s : CachedFileIO) (position : Nat) (dataBuffer : Option (Nat → Nat)) (length : Nat)
      (h : Reachable K s) : Reachable K (write K s position dataBuffer length).1
  | flush (s : CachedFileIO) (h : Reachable K s) : Reachable K (flush K s).1

/-- The slot `searchPageInCache` finds for a page, if any. -/
def residentSlot (s : CachedFileIO) (filePageNo : Nat) : Option Nat :=
  scanSlots (holdsPage s filePageNo) s.cachePagesCount 0

/-- The byte at file offset `i` as the cache over the file `f` presents it:
the byte of the resident page when the page of `i` is in the cache, the byte
of the file otherwise. -/
def contentAt (K : CacheConstants) (s : CachedFileIO) (f : File) (i : Nat) : Nat :=
  match residentSlot s (i / K.DEFAULT_CACHE_PAGE_SIZE) with
  | some k => s.cachePagesData k (i % K.DEFAULT_CACHE_PAGE_SIZE)
  | none => f.byteAt i

/-- The cache `s` over the open file `f` stands for the byte array `m`, with
all writes to the device succeeding: resident pages are distinct, a `CLEAN`
page equals the file's page, the bytes presented are those of `m`, and every
offset of `W` is either on a resident `DIRTY` page or inside the file. -/
structure Refines (K : CacheConstants) (s : CachedFileIO) (f : File) (m : Nat → Nat)
    (W : Nat → Prop) : Prop where
  file : s.fileHandler = some f
  diskOk : f.diskFull = false
  pageSize : 0 < K.DEFAULT_CACHE_PAGE_SIZE
  slots : 0 < s.cachePagesCount
  unique : UniquePages s
  clean : ∀ k, k < s.cachePagesCount → (s.cachePagesInfo k).state = PageState.CLEAN →
    ∀ j, j < K.DEFAULT_CACHE_PAGE_SIZE →
      s.cachePagesData k j =
        f.byteAt ((s.cachePagesInfo k).filePageNo * K.DEFAULT_CACHE_PAGE_SIZE + j)
  content : ∀ i, contentAt K s f i = m i
  durable : ∀ i, W i →
    (∃ k, k < s.cachePagesCount ∧ holdsPage s (i / K.DEFAULT_CACHE_PAGE_SIZE) k = true ∧
      (s.cachePagesInfo k).state = PageState.DIRTY) ∨ i < f.size

/-- One call `write(position, buffer, length)`. -/
structure WriteCall where
  position : Nat
  buffer : Nat → Nat
  length : Nat

/-- The cache after a sequence of `write` calls. -/
def writeAll (K : CacheConstants) : CachedFileIO → List WriteCall → CachedFileIO
  | s, [] => s
  | s, c :: cs => writeAll K (write K s c.position (some c.buffer) c.length).1 cs

/-- The spec's plain byte-array file: a write of `length` bytes at `position`
replaces exactly the bytes of that range. -/
def plainWrite (m : Nat → Nat) (position : Nat) (src : Nat → Nat) (length : Nat) : Nat → Nat :=
  fun i => if position ≤ i ∧ i < position + length then src (i - position) else m i

/-- The plain byte-array file after a sequence of writes. -/
def plainWriteAll : (Nat → Nat) → List WriteCall → Nat → Nat
  | m, [] => m
  | m, c :: cs => plainWriteAll (plainWrite m c.position c.buffer c.length) cs

/-- The byte the most recent write covering offset `i` supplied for it, after
the calls in turn, `r` being the answer before them. -/
def lastWrittenFrom (r : Option Nat) : List WriteCall → Nat → Option Nat
  | [], _ => r
  | c :: cs, i =>
    lastWrittenFrom
      (if c.position ≤ i ∧ i < c.position + c.length then some (c.buffer (i - c.position))
        else r) cs i

/-- The byte the most recent write covering offset `i` supplied for it; `none`
when no write of the sequence covers `i`. -/
def lastWritten (calls : List WriteCall) (i : Nat) : Option Nat :=
  lastWrittenFrom none calls i

/-- The first `keysCount` keys are strictly ascending. -/
def StrictlyAscending (keys : Nat → Nat) (keysCount : Nat) : Prop :=
  ∀ j, j < keysCount → ∀ i, i < j → keys i < keys j

/-- A leaf that holds the keys 10, 20, 30, its values at the record offsets
100, 200, 300. -/
def sampleLeaf : LeafNode :=
  { data :=
      { nodeType := NodeType.LEAF
        keysCount := 3
        keys := fun i => 10 * (i + 1)
        values := fun i => 100 * (i + 1)
        parent := 0
        leftSibling := 0
        rightSibling := 0 }
    position := 64
    isPersisted := true }

/-- Values of the index constants at which properties are evaluated on
concrete inputs. -/
def sampleIndexConstants : IndexConstants :=
  { MAX_DEGREE := 4, MIN_DEGREE := 2, NOT_FOUND := 2 ^ 64 - 1, NOT_FOUND_KEY := 2 ^ 32 - 1 }

/-- A record store with three value records of capacity 16 at the offsets 100,
200 and 300, each holding the empty string. -/
def sampleRecords : RecordFileIO :=
  { position := 0
    records := fun o =>
      if o = 100 ∨ o = 200 ∨ o = 300 then some { capacity := 16, payload := [0] } else none
    endOfFile := 400 }

/-! ## Node: construction, accessors, persistence -/

/-- The object state of a `Node`: `LeafNode` adds no member to its base
class. -/
abbrev Node : Type := LeafNode

/-- The memory image of `NodeData`, whose declaration is in `BalancedIndex.h`:
`sizeof NodeData`, the bytes of a value in memory, and the value that bytes in
memory denote. -/
structure NodeLayout where
  sizeofNodeData : Nat
  toBytes : NodeData → Nat → Nat
  ofBytes : (Nat → Nat) → NodeData

/-- Modelled from the spec: `RecordFileIO::createRecord` makes a record with
the `length` bytes given as payload, here at the end of the file (no free
record being at hand), moves the cursor to it and returns its offset. -/
def createRecord (rf : RecordFileIO) (data : Nat → Nat) (length : Nat) : RecordFileIO × Nat :=
  ({ position := rf.endOfFile
     records := fun o =>
       if o = rf.endOfFile then
         some { capacity := length, payload := (List.range length).map data }
       else rf.records o
     endOfFile := rf.endOfFile + 40 + length },
   rf.endOfFile)

/-- The node data after `memset(&data, 0, sizeof NodeData)` and the setting of
the type. -/
def zeroNodeData (type : NodeType) : NodeData :=
  { nodeType := type, keysCount := 0, keys := fun _ => 0, values := fun _ => 0, parent := 0,
    leftSibling := 0, rightSibling := 0 }

/-- The constructor `Node::Node(BalancedIndex&, NodeType)`, which creates the
node's record; `none` is the exception. -/
def nodeCreate (C : IndexConstants) (L : NodeLayout) (recordFile : RecordFileIO)
    (type : NodeType) : Option (Node × RecordFileIO) :=
  let data := zeroNodeData type
  let r := createRecord recordFile (L.toBytes data) L.sizeofNodeData
  if r.2 = C.NOT_FOUND then none
  else some ({ data := data, position := r.2, isPersisted := true }, r.1)

/-- The constructor `Node::Node(BalancedIndex&, uint64_t)`, which loads the
node from its record; `none` is the exception. `memory` is what lies in the
member `data` before the read. -/
def nodeLoad (C : IndexConstants) (L : NodeLayout) (recordsFile : RecordFileIO)
    (memory : Nat → Nat) (offsetInFile : Nat) : Option (Node × RecordFileIO) :=
  let rf := setPosition recordsFile offsetInFile
  let r := getRecordData C rf memory L.sizeofNodeData
  if r.2 = C.NOT_FOUND then none
  else some ({ data := L.ofBytes r.1, position := offsetInFile, isPersisted := true }, rf)

/-- `Node::persist`; `none` is the exception. -/
def persist (C : IndexConstants) (L : NodeLayout) (node : Node) (recordsFile : RecordFileIO) :
    Option (Node × RecordFileIO) :=
  let rf := setPosition recordsFile node.position
  let r := setRecordData C rf (L.toBytes node.data) L.sizeofNodeData
  if r.2 = C.NOT_FOUND then none
  else some ({ node with position := r.2, isPersisted := true }, r.1)

/-- `Node::getNodeType`. -/
def getNodeType (node : Node) : NodeType := node.data.nodeType

/-- `Node::getKeyCount`. -/
def getKeyCount (node : Node) : Nat := node.data.keysCount

/-- `Node::isOverflow`. -/
def isOverflow (C : IndexConstants) (node : Node) : Bool :=
  decide (node.data.keysCount > C.MAX_DEGREE)

/-- `Node::isUnderflow`. -/
def isUnderflow (C : IndexConstants) (node : Node) : Bool :=
  decide (node.data.keysCount < C.MIN_DEGREE)

/-- `Node::canLendAKey`. -/
def canLendAKey (C : IndexConstants) (node : Node) : Bool :=
  decide (node.data.keysCount > C.MIN_DEGREE)

/-- `Node::getKeyAt`. -/
def getKeyAt (C : IndexConstants) (node : Node) (index : Nat) : Nat :=
  if index ≥ node.data.keysCount then C.NOT_FOUND else node.data.keys index

/-- `Node::setKeyAt`. -/
def setKeyAt (node : Node) (index key : Nat) : Node :=
  if index ≥ node.data.keysCount then node
  else
    { node with
        data := { node.data with keys := fun i => if i = index then key else node.data.keys i }
        isPersisted := false }

/-- `Node::getParent`. -/
def getParent (node : Node) : Nat := node.data.parent

/-- `Node::setParent`. -/
def setParent (node : Node) (parentPosition : Nat) : Node :=
  { node with data := { node.data with parent := parentPosition }, isPersisted := false }

/-- `Node::getLeftSibling`. -/
def getLeftSibling (node : Node) : Nat := node.data.leftSibling

/-- `Node::setLeftSibling`. -/
def setLeftSibling (node : Node) (siblingPosition : Nat) : Node :=
  { node with data := { node.data with leftSibling := siblingPosition }, isPersisted := false }

/-- `Node::getRightSibling`. -/
def getRightSibling (node : Node) : Nat := node.data.rightSibling

/-- `Node::setRightSibling`. -/
def setRightSibling (node : Node) (siblingPosition : Nat) : Node :=
  { node with data := { node.data with rightSibling := siblingPosition }, isPersisted := false }

/-- `Node::dealOverflow`: the node and the store afterwards, and the result. -/
def dealOverflow (C : IndexConstants) (node : Node) (recordsFile : RecordFileIO) :
    (Node × RecordFileIO) × Nat :=
  ((node, recordsFile), C.NOT_FOUND)

/-- `Node::dealUnderflow`: the node and the store afterwards, and the result. -/
def dealUnderflow (C : IndexConstants) (node : Node) (recordsFile : RecordFileIO) :
    (Node × RecordFileIO) × Nat :=
  ((node, recordsFile), C.NOT_FOUND)

/-- `LeafNode::deleteAt`. -/
def deleteAt (node : LeafNode) (recordsFile : RecordFileIO) (_index : Nat) :
    LeafNode × RecordFileIO :=
  (node, recordsFile)

/-- `LeafNode::deleteKey`: the node and the store afterwards, and the result. -/
def deleteKey (node : LeafNode) (recordsFile : RecordFileIO) (_key : Nat) :
    (LeafNode × RecordFileIO) × Bool :=
  ((node, recordsFile), false)

/-- `LeafNode::split`: the node and the store afterwards, and the result. -/
def split (C : IndexConstants) (node : LeafNode) (recordsFile : RecordFileIO) :
    (LeafNode × RecordFileIO) × Nat :=
  ((node, recordsFile), C.NOT_FOUND)

/-- One call on a node, among those that change it or write it back. -/
inductive NodeOp where
  | setKeyAt (index key : Nat)
  | setParent (parentPosition : Nat)
  | setLeftSibling (siblingPosition : Nat)
  | setRightSibling (siblingPosition : Nat)
  | setValueAt (index : Nat) (value : List Nat)
  | persist

/-- The node and the store after one call; a call that throws leaves the node
and the records as they were. -/
def applyNodeOp (C : IndexConstants) (L : NodeLayout) (st : Node × RecordFileIO) :
    NodeOp → Node × RecordFileIO
  | NodeOp.setKeyAt index key => (setKeyAt st.1 index key, st.2)
  | NodeOp.setParent parentPosition => (setParent st.1 parentPosition, st.2)
  | NodeOp.setLeftSibling siblingPosition => (setLeftSibling st.1 siblingPosition, st.2)
  | NodeOp.setRightSibling siblingPosition => (setRightSibling st.1 siblingPosition, st.2)
  | NodeOp.setValueAt index value => (setValueAt C st.1 st.2 index value).getD st
  | NodeOp.persist => (persist C L st.1 st.2).getD st

/-- The node and the store after a sequence of calls. -/
def applyNodeOps (C : IndexConstants) (L : NodeLayout) :
    Node × RecordFileIO → List NodeOp → Node × RecordFileIO
  | st, [] => st
  | st, op :: ops => applyNodeOps C L (applyNodeOp C L st op) ops

/-- The record at the node's position holds exactly the node's data whenever
the node is flagged as persisted. -/
def Synced (L : NodeLayout) (st : Node × RecordFileIO) : Prop :=
  st.1.isPersisted = true →
    (st.2.records st.1.position).map (fun r => r.payload) =
      some ((List.range L.sizeofNodeData).map (L.toBytes st.1.data))

/-! ## The layout of the headers -/

/-- The widths in bytes of the fields of `StorageHeader`, in the order of
declaration (`uint64_t` is 8 bytes wide, `uint32_t` 4). -/
def storageHeaderFields : List Nat := [8, 4, 4, 8, 8, 8, 8, 8, 8]

/-- The widths in bytes of the fields of `RecordHeader`, in the order of
declaration. -/
def recordHeaderFields : List Nat := [8, 8, 8, 4, 4, 4, 4]

/-- The least multiple of `alignment` that is at least `offset`. -/
def alignUp (offset alignment : Nat) : Nat :=
  (offset + alignment - 1) / alignment * alignment

/-- The offsets at which a compiler places the fields of a struct: each field
at the first offset past the previous field that is a multiple of the
alignment `alignOf` of its width. -/
def fieldOffsets (alignOf : Nat → Nat) : List Nat → Nat → List Nat
  | [], _ => []
  | width :: rest, offset =>
    alignUp offset (alignOf width) ::
      fieldOffsets alignOf rest (alignUp offset (alignOf width) + width)

/-- The offset at which the last field of a struct ends. -/
def fieldsEnd (alignOf : Nat → Nat) : List Nat → Nat → Nat
  | [], offset => offset
  | width :: rest, offset => fieldsEnd alignOf rest (alignUp offset (alignOf width) + width)

/-- The size of a struct: the end of its last field, rounded up to the
greatest alignment among its fields. -/
def structSize (alignOf : Nat → Nat) (fields : List Nat) : Nat :=
  alignUp (fieldsEnd alignOf fields 0) ((fields.map alignOf).foldl max 1)

/-! ## The byte counts of a write -/

/-- The values `bytesToCopy` takes in the page loop of `write`, page by page,
`n` pages from `filePage` on. -/
def writeCountsLoop (K : CacheConstants) (position length firstPageNo lastPageNo : Nat) :
    Nat → Nat → Nat → List Nat
  | 0, _, _ => []
  | n + 1, filePage, bytesWritten =>
    (writeSpan K position length firstPageNo lastPageNo filePage bytesWritten).2 ::
      writeCountsLoop K position length firstPageNo lastPageNo n (filePage + 1)
        (bytesWritten +
          (writeSpan K position length firstPageNo lastPageNo filePage bytesWritten).2)

/-- The byte counts `write(position, buffer, length)` copies, page by page. -/
def writeCounts (K : CacheConstants) (position length : Nat) : List Nat :=
  writeCountsLoop K position length (position / K.DEFAULT_CACHE_PAGE_SIZE)
    ((position + length) / K.DEFAULT_CACHE_PAGE_SIZE)
    ((position + length) / K.DEFAULT_CACHE_PAGE_SIZE + 1 -
      position / K.DEFAULT_CACHE_PAGE_SIZE)
    (position / K.DEFAULT_CACHE_PAGE_SIZE) 0

/-! ## More concrete inputs -/

/-- A file of 34 pages of ones on a device that accepts no write. -/
def fullDiskDataFile : File :=
  { size := 278528, byte := fun _ => 1, diskFull := true }

/-- A leaf with five keys 10 to 50, more than `MAX_DEGREE = 4`. -/
def overflowingLeaf : LeafNode :=
  { data :=
      { nodeType := NodeType.LEAF
        keysCount := 5
        keys := fun i => 10 * (i + 1)
        values := fun i => 100 * (i + 1)
        parent := 0
        leftSibling := 0
        rightSibling := 0 }
    position := 64
    isPersisted := true }

/-- A layout of `NodeData` in eight bytes, for nodes of at most two keys with
one-byte fields: type, key count, two keys, two values, parent, left sibling
(the right sibling is not stored). -/
def sampleLayout : NodeLayout :=
  { sizeofNodeData := 8
    toBytes := fun d j =>
      if j = 0 then (if d.nodeType = NodeType.LEAF then 1 else 0)
      else if j = 1 then d.keysCount
      else if j = 2 then d.keys 0
      else if j = 3 then d.keys 1
      else if j = 4 then d.values 0
      else if j = 5 then d.values 1
      else if j = 6 then d.parent
      else if j = 7 then d.leftSibling
      else 0
    ofBytes := fun b =>
      { nodeType := if b 0 = 1 then NodeType.LEAF else NodeType.INNER
        keysCount := b 1
        keys := fun i => if i = 0 then b 2 else if i = 1 then b 3 else 0
        values := fun i => if i = 0 then b 4 else if i = 1 then b 5 else 0
        parent := b 6
        leftSibling := b 7
        rightSibling := 0 } }

/-- The leaf and the record store right after the constructor created the
leaf in `sampleRecords`: its record lies at the offset 400. -/
def createdLeaf : Node × RecordFileIO :=
  ({ data := zeroNodeData NodeType.LEAF, position := 400, isPersisted := true },
   (createRecord sampleRecords (sampleLayout.toBytes (zeroNodeData NodeType.LEAF)) 8).1)

/-! ## Notions for the properties of read -/

/-- The states of the cache reachable from the state `s0` by calls of `read`,
`write` and `flush`. -/
inductive ReachableFrom (K : CacheConstants) (s0 : CachedFileIO) : CachedFileIO → Prop where
  | start : ReachableFrom K s0 s0
  | read (s : CachedFileIO) (position : Nat) (dataBuffer : Option (Nat → Nat)) (length : Nat)
      (h : ReachableFrom K s0 s) : ReachableFrom K s0 (read K s position dataBuffer length).1
  | write (s : CachedFileIO) (position : Nat) (dataBuffer : Option (Nat → Nat)) (length : Nat)
      (h : ReachableFrom K s0 s) : ReachableFrom K s0 (write K s position dataBuffer length).1
  | flush (s : CachedFileIO) (h : ReachableFrom K s0 s) : ReachableFrom K s0 (flush K s).1

/-- No slot claims more valid bytes than a page holds. -/
def BoundedLengths (K : CacheConstants) (s : CachedFileIO) : Prop :=
  ∀ i, (s.cachePagesInfo i).availableDataLength ≤ K.DEFAULT_CACHE_PAGE_SIZE

/-- The values `bytesToCopy` takes in the page loop of `read`, for the pages
on which `memcpy` is reached, `n` pages from `filePage` on. -/
def readCountsLoop (K : CacheConstants) (position length firstPageNo lastPageNo : Nat) :
    Nat → Nat → CachedFileIO → List Nat
  | 0, _, _ => []
  | n + 1, filePage, s =>
    match lookupOrLoad K s filePage with
    | (_, none) => []
    | (s1, some cacheIndex) =>
      (readSpan K position length firstPageNo lastPageNo filePage
          (s1.cachePagesInfo cacheIndex).availableDataLength).2 ::
        readCountsLoop K position length firstPageNo lastPageNo n (filePage + 1) s1

/-- The byte counts `read(position, buffer, length)` copies into the caller's
buffer, page by page. -/
def readCounts (K : CacheConstants) (s : CachedFileIO) (position : Nat)
    (dataBuffer : Option (Nat → Nat)) (length : Nat) : List Nat :=
  match s.fileHandler, dataBuffer with
  | some _, some _ =>
    if length = 0 then []
    else
      readCountsLoop K position length (position / K.DEFAULT_CACHE_PAGE_SIZE)
        ((position + length) / K.DEFAULT_CACHE_PAGE_SIZE)
        ((position + length) / K.DEFAULT_CACHE_PAGE_SIZE + 1 -
          position / K.DEFAULT_CACHE_PAGE_SIZE)
        (position / K.DEFAULT_CACHE_PAGE_SIZE) s
  | _, _ => []

/-! ## The buffer of getValueAt -/

/-- The buffer of `LeafNode::getValueAt` and its uses: the number of bytes
allocated, the number `valueLength` of bytes `getRecordData` is asked to read
into it, the number of bytes the record delivers, and the index at which the
terminator is written. -/
def getValueAtBuffer (node : LeafNode) (recordsFile : RecordFileIO) (index : Nat) :
    Nat × Nat × Nat × Nat :=
  let rf := setPosition recordsFile (node.data.values index)
  let valueLength := (getDataLength rf + 1) % 2 ^ 32
  (makeUniqueChar valueLength, valueLength, min valueLength (getDataLength rf),
    (valueLength + 2 ^ 32 - 1) % 2 ^ 32)

/-! ## Concrete inputs for read -/

/-- The cache over the four-byte file after `read(0, out, 2)`, which loads
page 0 into slot 0, and `read(8192, out, 2)`, which loads page 1 into slot
1. -/
def twoPagesCache : CachedFileIO :=
  (read sampleConstants (read sampleConstants openedCache 0 (some (fun _ => 0)) 2).1 8192
    (some (fun _ => 0)) 2).1

/-- The cache right after `open` on the existing four-byte file,
read-only. -/
def readOnlyCache : CachedFileIO :=
  (openFile sampleConstants newCachedFile (some sampleFile) none 0 true).1

/-! ## The call of write in 64-bit arithmetic, and the copies it makes -/

/-- `CachedFileIO::write` with the sum `position + length` of line 241 taken
in `size_t`, 64 bits wide. On the calls whose sum stays below `2 ^ 64` it is
`write`. -/
def write64 (K : CacheConstants) (s : CachedFileIO) (position : Nat)
    (dataBuffer : Option (Nat → Nat)) (length : Nat) : CachedFileIO × Nat :=
  match s.fileHandler, dataBuffer with
  | some _, some src =>
    if s.readOnly ∨ length = 0 then (s, 0)
    else
      let firstPageNo := position / K.DEFAULT_CACHE_PAGE_SIZE
      let lastPageNo := (position + length) % 2 ^ 64 / K.DEFAULT_CACHE_PAGE_SIZE
      writeLoop K position length firstPageNo lastPageNo src
        (lastPageNo + 1 - firstPageNo) firstPageNo s 0
  | _, _ => (s, 0)

/-- One pass of the page loop of `write` as it ran: the file page, the slot
found or loaded for it, the offset in the page and the offset in the caller's
buffer of the `memcpy`, its byte count, and the cache right after the copy
block. -/
structure PageCopy where
  filePage : Nat
  cacheIndex : Nat
  dstOffset : Nat
  srcOffset : Nat
  bytesToCopy : Nat
  after : CachedFileIO

/-- The passes of the page loop of `write`, `n` pages from `filePage` on: the
loop of `writeLoop`, each pass recorded. -/
def writeLoopCopies (K : CacheConstants) (position length firstPageNo lastPageNo : Nat)
    (src : Nat → Nat) : Nat → Nat → CachedFileIO → Nat → List PageCopy
  | 0, _, _, _ => []
  | n + 1, filePage, s, bytesWritten =>
    match lookupOrLoad K s filePage with
    | (_, none) => []
    | (s1, some cacheIndex) =>
      let span := writeSpan K position length firstPageNo lastPageNo filePage bytesWritten
      let s2 := copyToCachePage s1 cacheIndex span.1 src bytesWritten span.2
      { filePage := filePage, cacheIndex := cacheIndex, dstOffset := span.1,
        srcOffset := bytesWritten, bytesToCopy := span.2, after := s2 } ::
        writeLoopCopies K position length firstPageNo lastPageNo src n (filePage + 1) s2
          (bytesWritten + span.2)

/-- The passes of the page loop in the call `write(position, dataBuffer,
length)`, the sum `position + length` taken in 64 bits as in `write64`. -/
def writeCopies (K : CacheConstants) (s : CachedFileIO) (position : Nat)
    (dataBuffer : Option (Nat → Nat)) (length : Nat) : List PageCopy :=
  match s.fileHandler, dataBuffer with
  | some _, some src =>
    if s.readOnly ∨ length = 0 then []
    else
      let firstPageNo := position / K.DEFAULT_CACHE_PAGE_SIZE
      let lastPageNo := (position + length) % 2 ^ 64 / K.DEFAULT_CACHE_PAGE_SIZE
      writeLoopCopies K position length firstPageNo lastPageNo src
        (lastPageNo + 1 - firstPageNo) firstPageNo s 0
  | _, _ => []

/-! ## A cache whose evictions fail -/

/-- The cache opened on a new file on a device that accepts no write, after
`write(270336, buffer, 5)`, which puts page 33 into slot 0 with five valid
bytes, and `write(0, buffer, 253951)`, which fills the slots 1 to 31 with the
pages 0 to 30. Slot 0 is then the most aged. -/
def lossyCache : CachedFileIO :=
  (write sampleConstants
    (write sampleConstants
      (openFile sampleConstants newCachedFile none (some fullDiskFile) 0 false).1
      270336 (some (fun _ => 7)) 5).1
    0 (some (fun _ => 7)) 253951).1

/-! # Properties -/

/-! ### The scanning loop -/

theorem scanSlots_some {p : Nat → Bool} {n i k : Nat} (h : scanSlots p n i = some k) :
    i ≤ k ∧ k < i + n ∧ p k = true ∧ ∀ j, i ≤ j → j < k → p j = false := by
  induction n generalizing i with
  | zero => simp [scanSlots] at h
  | succ n ih =>
    unfold scanSlots at h
    by_cases hp : p i = true
    · simp [hp] at h
      subst h
      exact ⟨le_refl _, by omega, hp, fun j h1 h2 => by omega⟩
    · simp [hp] at h
      obtain ⟨h1, h2, h3, h4⟩ := ih h
      refine ⟨by omega, by omega, h3, fun j hj1 hj2 => ?_⟩
      by_cases hji : j = i
      · subst hji; simpa using hp
      · exact h4 j (by omega) hj2

theorem scanSlots_none {p : Nat → Bool} {n i : Nat} :
    scanSlots p n i = none ↔ ∀ j, i ≤ j → j < i + n → p j = false := by
  induction n generalizing i with
  | zero =>
    simp only [scanSlots, true_iff]
    intro j h1 h2
    omega
  | succ n ih =>
    unfold scanSlots
    by_cases hp : p i = true
    · simp only [hp, if_true]
      constructor
      · intro h; cases h
      · intro h
        have := h i (le_refl _) (by omega)
        rw [hp] at this
        cases this
    · simp only [hp]
      rw [if_neg (by simp), ih]
      constructor
      · intro h j h1 h2
        by_cases hji : j = i
        · subst hji; simpa using hp
        · exact h j (by omega) (by omega)
      · intro h j h1 h2
        exact h j (by omega) (by omega)

theorem scanSlots_congr {p q : Nat → Bool} {n i : Nat}
    (h : ∀ j, i ≤ j → j < i + n → p j = q j) : scanSlots p n i = scanSlots q n i := by
  induction n generalizing i with
  | zero => rfl
  | succ n ih =>
    unfold scanSlots
    rw [h i (le_refl _) (by omega), ih (fun j h1 h2 => h j (by omega) (by omega))]

theorem scanSlots_of_unique {p : Nat → Bool} {n k : Nat} (hk : k < n) (hp : p k = true)
    (hu : ∀ j, j < n → p j = true → j = k) : scanSlots p n 0 = some k := by
  cases h : scanSlots p n 0 with
  | none =>
    have := (scanSlots_none.mp h) k (Nat.zero_le _) (by omega)
    rw [hp] at this
    cases this
  | some k1 =>
    obtain ⟨_, h2, h3, _⟩ := scanSlots_some h
    rw [hu k1 (by omega) h3]

/-! ### The file -/

theorem fwrite_byteAt (f : File) (offset : Nat) (data : Nat → Nat) (n i : Nat)
    (hok : f.diskFull = false) :
    (f.fwrite offset data n).1.byteAt i =
      if offset ≤ i ∧ i < offset + n then data (i - offset) else f.byteAt i := by
  unfold File.fwrite
  simp only [hok, Bool.false_eq_true, if_false]
  unfold File.byteAt
  simp only
  by_cases h1 : offset ≤ i ∧ i < offset + n
  · have : i < max f.size (offset + n) := by
      have := h1.2
      omega
    simp [h1, this]
  · simp only [h1, if_false]
    by_cases h2 : i < f.size
    · have : i < max f.size (offset + n) := by omega
      simp [h2, this]
    · simp [h2]

theorem fwrite_diskFull (f : File) (offset : Nat) (data : Nat → Nat) (n : Nat) :
    (f.fwrite offset data n).1.diskFull = f.diskFull := by
  unfold File.fwrite
  cases h : f.diskFull <;> simp [h]

theorem fwrite_count (f : File) (offset : Nat) (data : Nat → Nat) (n : Nat)
    (hok : f.diskFull = false) : (f.fwrite offset data n).2 = n := by
  simp [File.fwrite, hok]

theorem fwrite_full (f : File) (offset : Nat) (data : Nat → Nat) (n : Nat)
    (hfull : f.diskFull = true) : f.fwrite offset data n = (f, 0) := by
  simp [File.fwrite, hfull]

theorem fwrite_byteAt_outside (f : File) (offset : Nat) (data : Nat → Nat) (n i : Nat)
    (hout : ¬(offset ≤ i ∧ i < offset + n)) :
    (f.fwrite offset data n).1.byteAt i = f.byteAt i := by
  cases hd : f.diskFull with
  | true => rw [fwrite_full f offset data n hd]
  | false => rw [fwrite_byteAt f offset data n i hd, if_neg hout]

/-! ### What each cache operation leaves alone -/

theorem persistCachePage_fields (K : CacheConstants) (s : CachedFileIO) (i : Nat) :
    (persistCachePage K s i).1.cachePagesInfo = s.cachePagesInfo ∧
    (persistCachePage K s i).1.cachePagesData = s.cachePagesData ∧
    (persistCachePage K s i).1.cachePagesCount = s.cachePagesCount ∧
    (persistCachePage K s i).1.readOnly = s.readOnly := by
  unfold persistCachePage
  cases s.fileHandler <;> simp

theorem persistCachePage_open (K : CacheConstants) (s : CachedFileIO) (i : Nat) (f : File)
    (hf : s.fileHandler = some f) :
    (persistCachePage K s i).1.fileHandler =
        some (f.fwrite ((s.cachePagesInfo i).filePageNo * K.DEFAULT_CACHE_PAGE_SIZE)
          (s.cachePagesData i) K.DEFAULT_CACHE_PAGE_SIZE).1 ∧
    (persistCachePage K s i).2 =
        decide ((f.fwrite ((s.cachePagesInfo i).filePageNo * K.DEFAULT_CACHE_PAGE_SIZE)
          (s.cachePagesData i) K.DEFAULT_CACHE_PAGE_SIZE).2 = K.DEFAULT_CACHE_PAGE_SIZE) := by
  unfold persistCachePage
  simp [hf]

theorem persistCachePage_closed (K : CacheConstants) (s : CachedFileIO) (i : Nat)
    (hf : s.fileHandler = none) : persistCachePage K s i = (s, false) := by
  unfold persistCachePage
  simp [hf]

theorem freeCachePage_fields (K : CacheConstants) (s : CachedFileIO) (m : Nat) :
    (freeCachePage K s m).1.cachePagesData = s.cachePagesData ∧
    (freeCachePage K s m).1.cachePagesCount = s.cachePagesCount ∧
    (freeCachePage K s m).1.readOnly = s.readOnly ∧
    (∀ i, i ≠ m → (freeCachePage K s m).1.cachePagesInfo i = s.cachePagesInfo i) ∧
    ((freeCachePage K s m).1.cachePagesInfo m = s.cachePagesInfo m ∨
      ((freeCachePage K s m).1.cachePagesInfo m).state = PageState.FREE) := by
  obtain ⟨h1, h2, h3, h4⟩ := persistCachePage_fields K s m
  simp only [freeCachePage]
  by_cases hd : (s.cachePagesInfo m).state = PageState.DIRTY
  · rw [if_pos hd]
    cases hp : (persistCachePage K s m).2 with
    | true =>
      simp only [if_true]
      refine ⟨h2, h3, h4, fun i hi => ?_, Or.inr ?_⟩
      · simp [hi, h1]
      · simp
    | false =>
      simp only [Bool.false_eq_true, if_false]
      exact ⟨h2, h3, h4, fun i _ => by rw [h1], Or.inl (by rw [h1])⟩
  · rw [if_neg hd]
    refine ⟨rfl, rfl, rfl, fun i hi => ?_, Or.inr ?_⟩
    · simp [hi]
    · simp

/-- What `freeCachePage` does to the file: nothing unless the slot is `DIRTY`
and the file open, in which case the slot's page is written at its offset. -/
theorem freeCachePage_file (K : CacheConstants) (s : CachedFileIO) (m : Nat) :
    ((s.cachePagesInfo m).state ≠ PageState.DIRTY →
      (freeCachePage K s m).1.fileHandler = s.fileHandler) ∧
    (s.fileHandler = none → (freeCachePage K s m).1.fileHandler = none) ∧
    (∀ f, (s.cachePagesInfo m).state = PageState.DIRTY → s.fileHandler = some f →
      (freeCachePage K s m).1.fileHandler =
        some (f.fwrite ((s.cachePagesInfo m).filePageNo * K.DEFAULT_CACHE_PAGE_SIZE)
          (s.cachePagesData m) K.DEFAULT_CACHE_PAGE_SIZE).1) := by
  refine ⟨fun hd => ?_, fun hn => ?_, fun f hd hf => ?_⟩
  · unfold freeCachePage
    simp [hd]
  · unfold freeCachePage
    rw [persistCachePage_closed K s m hn]
    by_cases hd : (s.cachePagesInfo m).state = PageState.DIRTY
    · simp [hd, hn]
    · simp [hd, hn]
  · obtain ⟨hp1, _⟩ := persistCachePage_open K s m f hf
    unfold freeCachePage
    simp only [hd, if_true]
    by_cases hp : (persistCachePage K s m).2 = true
    · simp only [hp, if_true]
      exact hp1
    · simp only [hp]
      exact hp1

/-- When the write goes through, or none is needed, the slot is `FREE`
afterwards. -/
theorem freeCachePage_freed (K : CacheConstants) (s : CachedFileIO) (m : Nat)
    (h : (s.cachePagesInfo m).state = PageState.DIRTY →
      ∃ f, s.fileHandler = some f ∧ f.diskFull = false) :
    ((freeCachePage K s m).1.cachePagesInfo m).state = PageState.FREE := by
  unfold freeCachePage
  by_cases hd : (s.cachePagesInfo m).state = PageState.DIRTY
  · obtain ⟨f, hf, hok⟩ := h hd
    obtain ⟨_, hp2⟩ := persistCachePage_open K s m f hf
    rw [fwrite_count f _ _ _ hok] at hp2
    simp only [hd, if_true]
    simp [hp2]
  · simp [hd]

theorem ageCachePages_fields (s : CachedFileIO) :
    (ageCachePages s).cachePagesData = s.cachePagesData ∧
    (ageCachePages s).cachePagesCount = s.cachePagesCount ∧
    (ageCachePages s).readOnly = s.readOnly ∧
    (ageCachePages s).fileHandler = s.fileHandler ∧
    (∀ i, ((ageCachePages s).cachePagesInfo i).state = (s.cachePagesInfo i).state) ∧
    (∀ i, ((ageCachePages s).cachePagesInfo i).filePageNo = (s.cachePagesInfo i).filePageNo) ∧
    (∀ i, ((ageCachePages s).cachePagesInfo i).availableDataLength =
      (s.cachePagesInfo i).availableDataLength) ∧
    (∀ i, i < s.cachePagesCount →
      ((ageCachePages s).cachePagesInfo i).age = (s.cachePagesInfo i).age + 1) := by
  unfold ageCachePages
  refine ⟨rfl, rfl, rfl, rfl, fun i => ?_, fun i => ?_, fun i => ?_, fun i hi => ?_⟩
  · by_cases h : i < s.cachePagesCount <;> simp [h]
  · by_cases h : i < s.cachePagesCount <;> simp [h]
  · by_cases h : i < s.cachePagesCount <;> simp [h]
  · simp [hi]

/-! ### The loop of getFreeCachePageIndex -/

theorem mostAgedLoop_inl {s : CachedFileIO} {n c la m i : Nat}
    (h : mostAgedLoop s n c la m = Sum.inl i) :
    c ≤ i ∧ i < c + n ∧ (s.cachePagesInfo i).state = PageState.FREE := by
  induction n generalizing c la m with
  | zero => simp [mostAgedLoop] at h
  | succ n ih =>
    unfold mostAgedLoop at h
    by_cases hf : (s.cachePagesInfo c).state = PageState.FREE
    · simp only [hf, if_true] at h
      have : c = i := by simpa using h
      subst this
      exact ⟨le_refl _, by omega, hf⟩
    · simp only [hf, if_false] at h
      by_cases ha : (s.cachePagesInfo c).age > la
      · simp only [ha, if_true] at h
        obtain ⟨h1, h2, h3⟩ := ih h
        exact ⟨by omega, by omega, h3⟩
      · simp only [ha, if_false] at h
        obtain ⟨h1, h2, h3⟩ := ih h
        exact ⟨by omega, by omega, h3⟩

theorem mostAgedLoop_inr {s : CachedFileIO} {n c la m r : Nat}
    (h : mostAgedLoop s n c la m = Sum.inr r)
    (hle : ∀ j, j < c → (s.cachePagesInfo j).age ≤ la)
    (hm : (m < c ∧ (s.cachePagesInfo m).age = la) ∨ (la = 0 ∧ m = 0)) :
    (∀ j, c ≤ j → j < c + n → (s.cachePagesInfo j).state ≠ PageState.FREE) ∧
    ∃ la1, (∀ j, j < c + n → (s.cachePagesInfo j).age ≤ la1) ∧
      ((r < c + n ∧ (s.cachePagesInfo r).age = la1) ∨ (la1 = 0 ∧ r = 0)) := by
  induction n generalizing c la m with
  | zero =>
    simp only [mostAgedLoop, Sum.inr.injEq] at h
    subst h
    exact ⟨fun j h1 h2 => by omega, la, hle, hm⟩
  | succ n ih =>
    unfold mostAgedLoop at h
    by_cases hf : (s.cachePagesInfo c).state = PageState.FREE
    · simp [hf] at h
    · simp only [hf, if_false] at h
      by_cases ha : (s.cachePagesInfo c).age > la
      · simp only [ha, if_true] at h
        obtain ⟨h1, la1, h2, h3⟩ := ih h
          (fun j hj => by
            by_cases hjc : j = c
            · subst hjc; exact le_refl _
            · have := hle j (by omega)
              omega)
          (Or.inl ⟨by omega, rfl⟩)
        refine ⟨fun j hj1 hj2 => ?_, la1, fun j hj => h2 j (by omega), ?_⟩
        · by_cases hjc : j = c
          · subst hjc; exact hf
          · exact h1 j (by omega) (by omega)
        · rcases h3 with h3 | h3
          · exact Or.inl ⟨by omega, h3.2⟩
          · exact Or.inr h3
      · simp only [ha, if_false] at h
        obtain ⟨h1, la1, h2, h3⟩ := ih h
          (fun j hj => by
            by_cases hjc : j = c
            · subst hjc; omega
            · exact hle j (by omega))
          (by
            rcases hm with hm | hm
            · exact Or.inl ⟨by omega, hm.2⟩
            · exact Or.inr hm)
        refine ⟨fun j hj1 hj2 => ?_, la1, fun j hj => h2 j (by omega), ?_⟩
        · by_cases hjc : j = c
          · subst hjc; exact hf
          · exact h1 j (by omega) (by omega)
        · rcases h3 with h3 | h3
          · exact Or.inl ⟨by omega, h3.2⟩
          · exact Or.inr h3

/-- The two outcomes of `getFreeCachePageIndex`: a `FREE` slot, returned with
the cache untouched, or, with no slot `FREE`, a slot of greatest age, handed
to `freeCachePage`. -/
theorem getFreeCachePageIndex_cases (K : CacheConstants) (s : CachedFileIO) :
    (∃ i, i < s.cachePagesCount ∧ (s.cachePagesInfo i).state = PageState.FREE ∧
      getFreeCachePageIndex K s = (s, i)) ∨
    ((∀ j, j < s.cachePagesCount → (s.cachePagesInfo j).state ≠ PageState.FREE) ∧
      ∃ m, getFreeCachePageIndex K s = ((freeCachePage K s m).1, m) ∧
        (∀ j, j < s.cachePagesCount → (s.cachePagesInfo j).age ≤ (s.cachePagesInfo m).age) ∧
        (0 < s.cachePagesCount → m < s.cachePagesCount)) := by
  unfold getFreeCachePageIndex
  cases h : mostAgedLoop s s.cachePagesCount 0 0 0 with
  | inl i =>
    obtain ⟨_, h2, h3⟩ := mostAgedLoop_inl h
    exact Or.inl ⟨i, by omega, h3, rfl⟩
  | inr m =>
    obtain ⟨h1, la1, h2, h3⟩ := mostAgedLoop_inr h (fun j hj => by omega) (Or.inr ⟨rfl, rfl⟩)
    refine Or.inr ⟨fun j hj => h1 j (Nat.zero_le _) (by omega), m, rfl, fun j hj => ?_, fun hc => ?_⟩
    · rcases h3 with h3 | h3
      · rw [h3.2]; exact h2 j (by omega)
      · have := h2 j (by omega)
        omega
    · rcases h3 with h3 | h3
      · omega
      · omega

/-! ### The valid length of a page on write (C2, C3) -/

/-- C2 (the code at the failing input): `write(10, buffer, 5)` on a cache just
opened on an empty file copies 5 bytes to the in-page offsets 10 to 14 of page
0 and returns 5, yet leaves `availableDataLength = 5`, the maximum of the old
length 0 and the byte count 5, not the high-water mark `10 + 5 = 15`. -/
theorem write_availableDataLength_ignores_offset :
    (write sampleConstants freshCache 10 (some (fun _ => 7)) 5).2 = 5 ∧
    (writtenCache.cachePagesInfo 0).filePageNo = 0 ∧
    (writtenCache.cachePagesInfo 0).state = PageState.DIRTY ∧
    writtenCache.cachePagesData 0 10 = 7 ∧
    writtenCache.cachePagesData 0 14 = 7 ∧
    (writtenCache.cachePagesInfo 0).availableDataLength = 5 ∧
    (writtenCache.cachePagesInfo 0).availableDataLength ≠ max 0 (10 + 5) := by
  decide

/-- C5 (the code at the failing input): after `write(10, buffer, 5)` and then
`flush()`, which writes the page (it returns one page size, and the file holds
the bytes), slot 0 is still `DIRTY`: `flush` never marks a page `CLEAN`. -/
theorem flush_leaves_slot_dirty :
    (writtenCache.cachePagesInfo 0).state = PageState.DIRTY ∧
    (flush sampleConstants writtenCache).2 = 8192 ∧
    ((flush sampleConstants writtenCache).1.fileHandler.map fun f => f.byteAt 10) = some 7 ∧
    ((flush sampleConstants writtenCache).1.cachePagesInfo 0).state = PageState.DIRTY := by
  decide

theorem copyToCachePage_info_le (s : CachedFileIO) (cacheIndex dstOffset : Nat) (src : Nat → Nat)
    (srcOffset bytesToCopy : Nat) (i : Nat) :
    (s.cachePagesInfo i).availableDataLength ≤
      ((copyToCachePage s cacheIndex dstOffset src srcOffset bytesToCopy).cachePagesInfo
        i).availableDataLength := by
  unfold copyToCachePage
  by_cases hn : bytesToCopy > 0
  · by_cases hi : i = cacheIndex
    · subst hi; simp [hn]
    · simp [hn, hi]
  · simp [hn]

theorem lookupOrLoad_hit (K : CacheConstants) (s : CachedFileIO) (p i : Nat)
    (h : scanSlots (holdsPage s p) s.cachePagesCount 0 = some i) :
    lookupOrLoad K s p = ({ s with cacheRequests := s.cacheRequests + 1 }, some i) := by
  simp [lookupOrLoad, searchPageInCache, h]

theorem lookupOrLoad_miss (K : CacheConstants) (s : CachedFileIO) (p : Nat)
    (h : scanSlots (holdsPage s p) s.cachePagesCount 0 = none) :
    lookupOrLoad K s p =
      loadPageToCache K
        { s with cacheRequests := s.cacheRequests + 1, cacheMisses := s.cacheMisses + 1 } p := by
  simp [lookupOrLoad, searchPageInCache, h]

theorem writePage_of_lookup (K : CacheConstants) (position length firstPageNo lastPageNo : Nat)
    (src : Nat → Nat) (filePage : Nat) (s : CachedFileIO) (bytesWritten : Nat)
    (cacheIndex : Nat)
    (h : (lookupOrLoad K s filePage).2 = some cacheIndex) :
    writePage K position length firstPageNo lastPageNo src filePage s bytesWritten =
      (copyToCachePage (lookupOrLoad K s filePage).1 cacheIndex
        (writeSpan K position length firstPageNo lastPageNo filePage bytesWritten).1 src
        bytesWritten
        (writeSpan K position length firstPageNo lastPageNo filePage bytesWritten).2,
       some (bytesWritten +
        (writeSpan K position length firstPageNo lastPageNo filePage bytesWritten).2)) := by
  unfold writePage
  rcases hl : lookupOrLoad K s filePage with ⟨s1, r⟩
  rw [hl] at h
  simp only at h
  subst h
  rfl

/-- One step of the page loop of `write`, on the page `filePage` found or loaded
in slot `cacheIndex`: no slot's `availableDataLength` is smaller after the step
than when the page was located; and when the page was resident beforehand, in
slot `cacheIndex`, the slot's `availableDataLength` after the step is at least
what it was before the step. The copy block alone never lowers it. -/
theorem writePage_availableDataLength_mono (K : CacheConstants)
    (position length firstPageNo lastPageNo : Nat) (src : Nat → Nat) (filePage : Nat)
    (s : CachedFileIO) (bytesWritten : Nat) (cacheIndex : Nat)
    (h : (lookupOrLoad K s filePage).2 = some cacheIndex) :
    (∀ i, ((lookupOrLoad K s filePage).1.cachePagesInfo i).availableDataLength ≤
      ((writePage K position length firstPageNo lastPageNo src filePage s
        bytesWritten).1.cachePagesInfo i).availableDataLength) ∧
    (scanSlots (holdsPage s filePage) s.cachePagesCount 0 = some cacheIndex →
      (s.cachePagesInfo cacheIndex).availableDataLength ≤
        ((writePage K position length firstPageNo lastPageNo src filePage s
          bytesWritten).1.cachePagesInfo cacheIndex).availableDataLength) := by
  rw [writePage_of_lookup K position length firstPageNo lastPageNo src filePage s bytesWritten
    cacheIndex h]
  refine ⟨fun i => copyToCachePage_info_le _ _ _ _ _ _ _, fun hhit => ?_⟩
  have h2 := copyToCachePage_info_le (lookupOrLoad K s filePage).1 cacheIndex
    (writeSpan K position length firstPageNo lastPageNo filePage bytesWritten).1 src
    bytesWritten
    (writeSpan K position length firstPageNo lastPageNo filePage bytesWritten).2 cacheIndex
  rw [lookupOrLoad_hit K s filePage cacheIndex hhit] at h2 ⊢
  exact h2

/-- The step at a concrete input: a second write, of 3 bytes at position 0, into
the resident page 0 whose valid length is 5. -/
theorem writePage_availableDataLength_mono_witness :
    (lookupOrLoad sampleConstants writtenCache 0).2 = some 0 ∧
    scanSlots (holdsPage writtenCache 0) writtenCache.cachePagesCount 0 = some 0 ∧
    (writtenCache.cachePagesInfo 0).availableDataLength ≤
      ((writePage sampleConstants 0 3 0 0 (fun _ => 9) 0 writtenCache
        0).1.cachePagesInfo 0).availableDataLength :=
  ⟨by decide, by decide,
    (writePage_availableDataLength_mono sampleConstants 0 3 0 0 (fun _ => 9) 0 writtenCache 0 0
      (by decide)).2 (by decide)⟩

/-! ### Eviction (C6) -/

/-- C6 (counterexample): with all 32 slots `DIRTY` and a device that accepts no
write, `getFreeCachePageIndex` returns slot 0, nothing reaches the file, and
slot 0 is still `DIRTY`, not `FREE`, on return. -/
theorem getFreeCachePageIndex_not_freed_on_failed_write :
    (filledCacheOn fullDiskFile).cachePagesCount = 32 ∧
    (∀ i, i < 32 → ((filledCacheOn fullDiskFile).cachePagesInfo i).state ≠ PageState.FREE) ∧
    (getFreeCachePageIndex sampleConstants (filledCacheOn fullDiskFile)).2 = 0 ∧
    ((getFreeCachePageIndex sampleConstants (filledCacheOn fullDiskFile)).1.fileHandler.map
      fun f => f.size) = some 0 ∧
    ((getFreeCachePageIndex sampleConstants (filledCacheOn fullDiskFile)).1.cachePagesInfo
      0).state ≠ PageState.FREE := by
  decide

/-- C6 (amended): when some slot is `FREE`, `getFreeCachePageIndex` returns a
`FREE` slot and changes nothing, neither cache nor file. When no slot is
`FREE` (and there is a slot), it returns a slot whose age is at least the age
of every slot; if that slot was not `DIRTY` the file is left alone and the
slot is `FREE` on return; if it was `DIRTY` and the file is open on a device
that accepts the write, the slot's page is written to the file at the page's
offset and the slot is `FREE` on return. The other slots and all page data
are unchanged. -/
theorem getFreeCachePageIndex_spec (K : CacheConstants) (s : CachedFileIO) :
    ((∃ i, i < s.cachePagesCount ∧ (s.cachePagesInfo i).state = PageState.FREE) →
      (getFreeCachePageIndex K s).2 < s.cachePagesCount ∧
      (s.cachePagesInfo (getFreeCachePageIndex K s).2).state = PageState.FREE ∧
      (getFreeCachePageIndex K s).1 = s) ∧
    ((∀ i, i < s.cachePagesCount → (s.cachePagesInfo i).state ≠ PageState.FREE) →
      0 < s.cachePagesCount →
      (getFreeCachePageIndex K s).2 < s.cachePagesCount ∧
      (∀ j, j < s.cachePagesCount →
        (s.cachePagesInfo j).age ≤ (s.cachePagesInfo (getFreeCachePageIndex K s).2).age) ∧
      (∀ i, i ≠ (getFreeCachePageIndex K s).2 →
        (getFreeCachePageIndex K s).1.cachePagesInfo i = s.cachePagesInfo i) ∧
      (getFreeCachePageIndex K s).1.cachePagesData = s.cachePagesData ∧
      ((s.cachePagesInfo (getFreeCachePageIndex K s).2).state ≠ PageState.DIRTY →
        (getFreeCachePageIndex K s).1.fileHandler = s.fileHandler ∧
        ((getFreeCachePageIndex K s).1.cachePagesInfo (getFreeCachePageIndex K s).2).state =
          PageState.FREE) ∧
      (∀ f, (s.cachePagesInfo (getFreeCachePageIndex K s).2).state = PageState.DIRTY →
        s.fileHandler = some f → f.diskFull = false →
        (getFreeCachePageIndex K s).1.fileHandler =
          some (f.fwrite
            ((s.cachePagesInfo (getFreeCachePageIndex K s).2).filePageNo *
              K.DEFAULT_CACHE_PAGE_SIZE)
            (s.cachePagesData (getFreeCachePageIndex K s).2) K.DEFAULT_CACHE_PAGE_SIZE).1 ∧
        ((getFreeCachePageIndex K s).1.cachePagesInfo (getFreeCachePageIndex K s).2).state =
          PageState.FREE)) := by
  rcases getFreeCachePageIndex_cases K s with ⟨i, hi, hfree, heq⟩ | ⟨hno, m, heq, hage, hm⟩
  · rw [heq]
    refine ⟨fun _ => ⟨hi, hfree, rfl⟩, fun hno _ => absurd hfree (hno i hi)⟩
  · rw [heq]
    refine ⟨fun ⟨i, hi, hfree⟩ => absurd hfree (hno i hi), fun _ hc => ?_⟩
    obtain ⟨hdata, _, _, hother, _⟩ := freeCachePage_fields K s m
    obtain ⟨hf1, _, hf3⟩ := freeCachePage_file K s m
    refine ⟨hm hc, hage, hother, hdata, fun hnd => ⟨hf1 hnd, ?_⟩, fun f hd hf hok => ⟨hf3 f hd hf, ?_⟩⟩
    · exact freeCachePage_freed K s m (fun hd => absurd hd hnd)
    · exact freeCachePage_freed K s m (fun _ => ⟨f, hf, hok⟩)

/-- C6 (amended) at a concrete input: all 32 slots `DIRTY` over a file that
accepts writes; slot 0 is chosen, its page reaches the file (whose length
becomes one page), and the slot is `FREE` on return. -/
theorem getFreeCachePageIndex_spec_witness :
    (∀ i, i < (filledCacheOn emptyFile).cachePagesCount →
      ((filledCacheOn emptyFile).cachePagesInfo i).state ≠ PageState.FREE) ∧
    0 < (filledCacheOn emptyFile).cachePagesCount ∧
    (getFreeCachePageIndex sampleConstants (filledCacheOn emptyFile)).2 <
      (filledCacheOn emptyFile).cachePagesCount ∧
    ((getFreeCachePageIndex sampleConstants (filledCacheOn emptyFile)).1.fileHandler.map
      fun f => f.size) = some 8192 :=
  ⟨by decide, by decide,
    ((getFreeCachePageIndex_spec sampleConstants (filledCacheOn emptyFile)).2
      (by decide) (by decide)).1,
    by decide⟩

/-! ### Loading a page -/

theorem getFreeCachePageIndex_fields (K : CacheConstants) (s : CachedFileIO) :
    (getFreeCachePageIndex K s).1.cachePagesData = s.cachePagesData ∧
    (getFreeCachePageIndex K s).1.cachePagesCount = s.cachePagesCount ∧
    (getFreeCachePageIndex K s).1.readOnly = s.readOnly ∧
    (∀ i, i ≠ (getFreeCachePageIndex K s).2 →
      (getFreeCachePageIndex K s).1.cachePagesInfo i = s.cachePagesInfo i) ∧
    ((getFreeCachePageIndex K s).1.cachePagesInfo (getFreeCachePageIndex K s).2 =
        s.cachePagesInfo (getFreeCachePageIndex K s).2 ∨
      ((getFreeCachePageIndex K s).1.cachePagesInfo (getFreeCachePageIndex K s).2).state =
        PageState.FREE) := by
  rcases getFreeCachePageIndex_cases K s with ⟨i, _, _, heq⟩ | ⟨_, m, heq, _, _⟩
  · rw [heq]
    exact ⟨rfl, rfl, rfl, fun _ _ => rfl, Or.inl rfl⟩
  · rw [heq]
    exact freeCachePage_fields K s m

/-- The file after `getFreeCachePageIndex`: the same, or, when no slot was
`FREE` and the slot chosen was `DIRTY`, the file after the write of that
slot's page. -/
theorem getFreeCachePageIndex_file (K : CacheConstants) (s : CachedFileIO) (f : File)
    (hf : s.fileHandler = some f) :
    (getFreeCachePageIndex K s).1.fileHandler = some f ∨
    ((∀ j, j < s.cachePagesCount → (s.cachePagesInfo j).state ≠ PageState.FREE) ∧
      (0 < s.cachePagesCount → (getFreeCachePageIndex K s).2 < s.cachePagesCount) ∧
      (s.cachePagesInfo (getFreeCachePageIndex K s).2).state = PageState.DIRTY ∧
      (getFreeCachePageIndex K s).1.fileHandler =
        some (f.fwrite
          ((s.cachePagesInfo (getFreeCachePageIndex K s).2).filePageNo *
            K.DEFAULT_CACHE_PAGE_SIZE)
          (s.cachePagesData (getFreeCachePageIndex K s).2) K.DEFAULT_CACHE_PAGE_SIZE).1) := by
  rcases getFreeCachePageIndex_cases K s with ⟨i, _, _, heq⟩ | ⟨hno, m, heq, _, hm⟩
  · rw [heq]
    exact Or.inl hf
  · rw [heq]
    obtain ⟨hf1, _, hf3⟩ := freeCachePage_file K s m
    by_cases hd : (s.cachePagesInfo m).state = PageState.DIRTY
    · exact Or.inr ⟨hno, hm, hd, hf3 f hd hf⟩
    · exact Or.inl ((hf1 hd).trans hf)

theorem getFreeCachePageIndex_open (K : CacheConstants) (s : CachedFileIO) (f : File)
    (hf : s.fileHandler = some f) :
    ∃ f1, (getFreeCachePageIndex K s).1.fileHandler = some f1 := by
  rcases getFreeCachePageIndex_file K s f hf with h | ⟨_, _, _, h⟩
  · exact ⟨_, h⟩
  · exact ⟨_, h⟩

/-- The page as `loadPageToCache` fills it from the file `f`. -/
theorem loadPageToCache_eq (K : CacheConstants) (s : CachedFileIO) (p : Nat) (f f1 : File)
    (hf : s.fileHandler = some f)
    (h1 : (getFreeCachePageIndex K (ageCachePages s)).1.fileHandler = some f1) :
    loadPageToCache K s p =
      ({ (getFreeCachePageIndex K (ageCachePages s)).1 with
          cachePagesData := fun i =>
            if i = (getFreeCachePageIndex K (ageCachePages s)).2 then
              fun j =>
                if j < f1.fread (p * K.DEFAULT_CACHE_PAGE_SIZE) K.DEFAULT_CACHE_PAGE_SIZE then
                  f1.byte (p * K.DEFAULT_CACHE_PAGE_SIZE + j)
                else if j < K.DEFAULT_CACHE_PAGE_SIZE then 0
                else (getFreeCachePageIndex K (ageCachePages s)).1.cachePagesData i j
            else (getFreeCachePageIndex K (ageCachePages s)).1.cachePagesData i
          cachePagesInfo := fun i =>
            if i = (getFreeCachePageIndex K (ageCachePages s)).2 then
              { state := PageState.CLEAN, filePageNo := p, age := 0,
                availableDataLength :=
                  f1.fread (p * K.DEFAULT_CACHE_PAGE_SIZE) K.DEFAULT_CACHE_PAGE_SIZE }
            else (getFreeCachePageIndex K (ageCachePages s)).1.cachePagesInfo i },
       some (getFreeCachePageIndex K (ageCachePages s)).2) := by
  unfold loadPageToCache
  simp only [hf, h1]

/-- A loaded byte is the byte of the file, zero past its end. -/
theorem loaded_byte (K : CacheConstants) (f : File) (p j : Nat)
    (hj : j < K.DEFAULT_CACHE_PAGE_SIZE) :
    (if j < f.fread (p * K.DEFAULT_CACHE_PAGE_SIZE) K.DEFAULT_CACHE_PAGE_SIZE then
        f.byte (p * K.DEFAULT_CACHE_PAGE_SIZE + j)
      else if j < K.DEFAULT_CACHE_PAGE_SIZE then 0 else 0) =
      f.byteAt (p * K.DEFAULT_CACHE_PAGE_SIZE + j) := by
  unfold File.fread File.byteAt
  by_cases h : p * K.DEFAULT_CACHE_PAGE_SIZE + j < f.size
  · have : j < min K.DEFAULT_CACHE_PAGE_SIZE (f.size - p * K.DEFAULT_CACHE_PAGE_SIZE) := by
      omega
    simp [h, this]
  · have : ¬ j < min K.DEFAULT_CACHE_PAGE_SIZE (f.size - p * K.DEFAULT_CACHE_PAGE_SIZE) := by
      omega
    simp [h, this]

/-- Two distinct pages do not overlap. -/
theorem page_disjoint (P p q j : Nat) (hpq : q ≠ p) (hj : j < P) :
    ¬(q * P ≤ p * P + j ∧ p * P + j < q * P + P) := by
  rcases Nat.lt_or_gt_of_ne hpq with h | h
  · have : (q + 1) * P ≤ p * P := Nat.mul_le_mul_right P h
    rw [Nat.add_mul] at this
    omega
  · have : (p + 1) * P ≤ q * P := Nat.mul_le_mul_right P h
    rw [Nat.add_mul] at this
    omega

/-! ### The frame of a write step (C4) -/

theorem copyToCachePage_data (s : CachedFileIO) (cacheIndex dstOffset : Nat) (src : Nat → Nat)
    (srcOffset bytesToCopy : Nat) (i j : Nat) :
    (copyToCachePage s cacheIndex dstOffset src srcOffset bytesToCopy).cachePagesData i j =
      if i = cacheIndex ∧ dstOffset ≤ j ∧ j < dstOffset + bytesToCopy then
        src (srcOffset + (j - dstOffset))
      else s.cachePagesData i j := by
  unfold copyToCachePage
  by_cases hn : bytesToCopy > 0
  · by_cases hi : i = cacheIndex
    · simp [hn, hi]
    · simp [hn, hi]
  · have : ¬(i = cacheIndex ∧ dstOffset ≤ j ∧ j < dstOffset + bytesToCopy) := by omega
    simp [hn, this]

theorem copyToCachePage_fields (s : CachedFileIO) (cacheIndex dstOffset : Nat) (src : Nat → Nat)
    (srcOffset bytesToCopy : Nat) :
    (copyToCachePage s cacheIndex dstOffset src srcOffset bytesToCopy).cachePagesCount =
      s.cachePagesCount ∧
    (copyToCachePage s cacheIndex dstOffset src srcOffset bytesToCopy).fileHandler =
      s.fileHandler ∧
    (copyToCachePage s cacheIndex dstOffset src srcOffset bytesToCopy).readOnly = s.readOnly ∧
    (∀ i, i ≠ cacheIndex →
      (copyToCachePage s cacheIndex dstOffset src srcOffset bytesToCopy).cachePagesInfo i =
        s.cachePagesInfo i) ∧
    ((copyToCachePage s cacheIndex dstOffset src srcOffset bytesToCopy).cachePagesInfo
      cacheIndex).filePageNo = (s.cachePagesInfo cacheIndex).filePageNo ∧
    ((copyToCachePage s cacheIndex dstOffset src srcOffset bytesToCopy).cachePagesInfo
        cacheIndex = s.cachePagesInfo cacheIndex ∨
      ((copyToCachePage s cacheIndex dstOffset src srcOffset bytesToCopy).cachePagesInfo
        cacheIndex).state = PageState.DIRTY) := by
  by_cases hn : bytesToCopy > 0
  · refine ⟨?_, ?_, ?_, fun i hi => ?_, ?_, Or.inr ?_⟩
    · simp [copyToCachePage, hn]
    · simp [copyToCachePage, hn]
    · simp [copyToCachePage, hn]
    · simp [copyToCachePage, hn, hi]
    · simp [copyToCachePage, hn]
    · simp [copyToCachePage, hn]
  · refine ⟨?_, ?_, ?_, fun i hi => ?_, ?_, Or.inl ?_⟩
    · simp [copyToCachePage, hn]
    · simp [copyToCachePage, hn]
    · simp [copyToCachePage, hn]
    · simp [copyToCachePage, hn]
    · simp [copyToCachePage, hn]
    · simp [copyToCachePage, hn]

/-- On a miss (with at least one slot) the slot returned holds the bytes of the
file's page as they were before the call, zero past the end of the file. -/
theorem loadPageToCache_data (K : CacheConstants) (s : CachedFileIO) (p : Nat) (f : File)
    (hf : s.fileHandler = some f) (hc : 0 < s.cachePagesCount)
    (hmiss : ∀ i, i < s.cachePagesCount → holdsPage s p i = false) :
    ∃ m, (loadPageToCache K s p).2 = some m ∧
      ∀ j, j < K.DEFAULT_CACHE_PAGE_SIZE →
        (loadPageToCache K s p).1.cachePagesData m j =
          f.byteAt (p * K.DEFAULT_CACHE_PAGE_SIZE + j) := by
  obtain ⟨_, hcount, _, hfa, hstate, hpage, _, _⟩ := ageCachePages_fields s
  have hfa' : (ageCachePages s).fileHandler = some f := hfa.trans hf
  obtain ⟨f1, hf1⟩ := getFreeCachePageIndex_open K (ageCachePages s) f hfa'
  rw [loadPageToCache_eq K s p f f1 hf hf1]
  refine ⟨_, rfl, fun j hj => ?_⟩
  have hb : f1.byteAt (p * K.DEFAULT_CACHE_PAGE_SIZE + j) =
      f.byteAt (p * K.DEFAULT_CACHE_PAGE_SIZE + j) := by
    rcases getFreeCachePageIndex_file K (ageCachePages s) f hfa' with h | ⟨_, hm, hd, h⟩
    · rw [hf1] at h
      cases h
      rfl
    · rw [hf1] at h
      cases h
      apply fwrite_byteAt_outside
      apply page_disjoint _ _ _ _ _ hj
      rw [hcount] at hm
      have hm' := hm hc
      have hmis := hmiss _ hm'
      rw [hstate] at hd
      rw [hpage]
      intro hq
      unfold holdsPage at hmis
      simp [hd, hq] at hmis
  simp only [if_true]
  rw [← hb, ← loaded_byte K f1 p j hj]
  by_cases h1 : j < f1.fread (p * K.DEFAULT_CACHE_PAGE_SIZE) K.DEFAULT_CACHE_PAGE_SIZE
  · simp [h1]
  · simp [h1, hj]

/-- C4: in one step of the page loop of `write`, on the page `filePage` found
or loaded in slot `cacheIndex`, the bytes of that slot's page outside the
written sub-range are those the page had when it was located; when the page
was resident beforehand they are the bytes it had before the step; when it
was not resident (and the cache has a slot) they are, within the page, the
bytes of the file's page before the step, zero past the end of the file. -/
theorem writePage_frame (K : CacheConstants) (position length firstPageNo lastPageNo : Nat)
    (src : Nat → Nat) (filePage : Nat) (s : CachedFileIO) (bytesWritten : Nat)
    (cacheIndex : Nat) (h : (lookupOrLoad K s filePage).2 = some cacheIndex) :
    (∀ j, ¬((writeSpan K position length firstPageNo lastPageNo filePage bytesWritten).1 ≤ j ∧
          j < (writeSpan K position length firstPageNo lastPageNo filePage bytesWritten).1 +
            (writeSpan K position length firstPageNo lastPageNo filePage bytesWritten).2) →
      (writePage K position length firstPageNo lastPageNo src filePage s
        bytesWritten).1.cachePagesData cacheIndex j =
        (lookupOrLoad K s filePage).1.cachePagesData cacheIndex j) ∧
    (scanSlots (holdsPage s filePage) s.cachePagesCount 0 = some cacheIndex →
      ∀ j, ¬((writeSpan K position length firstPageNo lastPageNo filePage bytesWritten).1 ≤ j ∧
          j < (writeSpan K position length firstPageNo lastPageNo filePage bytesWritten).1 +
            (writeSpan K position length firstPageNo lastPageNo filePage bytesWritten).2) →
      (writePage K position length firstPageNo lastPageNo src filePage s
        bytesWritten).1.cachePagesData cacheIndex j = s.cachePagesData cacheIndex j) ∧
    (scanSlots (holdsPage s filePage) s.cachePagesCount 0 = none →
      0 < s.cachePagesCount → ∀ f, s.fileHandler = some f →
      ∀ j, j < K.DEFAULT_CACHE_PAGE_SIZE →
        ¬((writeSpan K position length firstPageNo lastPageNo filePage bytesWritten).1 ≤ j ∧
          j < (writeSpan K position length firstPageNo lastPageNo filePage bytesWritten).1 +
            (writeSpan K position length firstPageNo lastPageNo filePage bytesWritten).2) →
      (writePage K position length firstPageNo lastPageNo src filePage s
        bytesWritten).1.cachePagesData cacheIndex j =
        f.byteAt (filePage * K.DEFAULT_CACHE_PAGE_SIZE + j)) := by
  rw [writePage_of_lookup K position length firstPageNo lastPageNo src filePage s bytesWritten
    cacheIndex h]
  have hout : ∀ j,
      ¬((writeSpan K position length firstPageNo lastPageNo filePage bytesWritten).1 ≤ j ∧
          j < (writeSpan K position length firstPageNo lastPageNo filePage bytesWritten).1 +
            (writeSpan K position length firstPageNo lastPageNo filePage bytesWritten).2) →
      (copyToCachePage (lookupOrLoad K s filePage).1 cacheIndex
        (writeSpan K position length firstPageNo lastPageNo filePage bytesWritten).1 src
        bytesWritten
        (writeSpan K position length firstPageNo lastPageNo filePage
          bytesWritten).2).cachePagesData cacheIndex j =
        (lookupOrLoad K s filePage).1.cachePagesData cacheIndex j := by
    intro j hj
    rw [copyToCachePage_data]
    rw [if_neg (fun hh => hj hh.2)]
  refine ⟨hout, fun hhit j hj => ?_, fun hmiss hc f hf j hjP hj => ?_⟩
  · have h3 := hout j hj
    simp only at h3 ⊢
    rw [h3, lookupOrLoad_hit K s filePage cacheIndex hhit]
  · have h3 := hout j hj
    simp only at h3 ⊢
    rw [h3]
    rw [lookupOrLoad_miss K s filePage hmiss] at h ⊢
    obtain ⟨m, hm1, hm2⟩ := loadPageToCache_data K
      { s with cacheRequests := s.cacheRequests + 1, cacheMisses := s.cacheMisses + 1 }
      filePage f hf hc
      (fun i hi => (scanSlots_none.mp hmiss) i (Nat.zero_le _) (by simpa using hi))
    rw [hm1] at h
    cases h
    exact hm2 j hjP

/-- C4 at a concrete input: `write(2, buffer, 1)` on a cache just opened on
the four-byte file 1, 2, 3, 4 loads page 0; after the step, byte 3 of the
page is the file's byte 4 and byte 5, past the end of the file, is zero. -/
theorem writePage_frame_witness :
    (lookupOrLoad sampleConstants openedCache 0).2 = some 0 ∧
    scanSlots (holdsPage openedCache 0) openedCache.cachePagesCount 0 = none ∧
    (writePage sampleConstants 2 1 0 0 (fun _ => 9) 0 openedCache 0).1.cachePagesData 0 3 =
      sampleFile.byteAt (0 * sampleConstants.DEFAULT_CACHE_PAGE_SIZE + 3) ∧
    sampleFile.byteAt (0 * sampleConstants.DEFAULT_CACHE_PAGE_SIZE + 3) = 4 ∧
    (writePage sampleConstants 2 1 0 0 (fun _ => 9) 0 openedCache 0).1.cachePagesData 0 5 =
      sampleFile.byteAt (0 * sampleConstants.DEFAULT_CACHE_PAGE_SIZE + 5) ∧
    sampleFile.byteAt (0 * sampleConstants.DEFAULT_CACHE_PAGE_SIZE + 5) = 0 :=
  ⟨by decide, by decide,
    (writePage_frame sampleConstants 2 1 0 0 (fun _ => 9) 0 openedCache 0 0 (by decide)).2.2
      (by decide) (by decide) sampleFile rfl 3 (by decide) (by decide),
    by decide,
    (writePage_frame sampleConstants 2 1 0 0 (fun _ => 9) 0 openedCache 0 0 (by decide)).2.2
      (by decide) (by decide) sampleFile rfl 5 (by decide) (by decide),
    by decide⟩

/-! ### One page number per slot (C7) -/

theorem UniquePages_congr {s t : CachedFileIO} (hc : t.cachePagesCount = s.cachePagesCount)
    (hs : ∀ i, (t.cachePagesInfo i).state = (s.cachePagesInfo i).state)
    (hp : ∀ i, (t.cachePagesInfo i).filePageNo = (s.cachePagesInfo i).filePageNo)
    (h : UniquePages s) : UniquePages t := by
  intro i j hi hj hsi hsj hpp
  rw [hc] at hi hj
  rw [hs] at hsi hsj
  rw [hp, hp] at hpp
  exact h i j hi hj hsi hsj hpp

theorem holdsPage_iff (s : CachedFileIO) (p i : Nat) :
    holdsPage s p i = true ↔
      (s.cachePagesInfo i).state ≠ PageState.FREE ∧ (s.cachePagesInfo i).filePageNo = p := by
  simp [holdsPage]

/-- The loaded page takes a slot without doubling a page number, provided the
page was not resident. -/
theorem loadPageToCache_unique (K : CacheConstants) (s : CachedFileIO) (p : Nat)
    (hmiss : ∀ i, i < s.cachePagesCount → holdsPage s p i = false) (hu : UniquePages s) :
    (loadPageToCache K s p).1.cachePagesCount = s.cachePagesCount ∧
    UniquePages (loadPageToCache K s p).1 ∧
    (∀ idx, (loadPageToCache K s p).2 = some idx →
      ((loadPageToCache K s p).1.cachePagesInfo idx).state ≠ PageState.FREE) := by
  cases hf : s.fileHandler with
  | none =>
    have : loadPageToCache K s p = (s, none) := by
      unfold loadPageToCache
      simp [hf]
    rw [this]
    exact ⟨rfl, hu, fun idx h => by cases h⟩
  | some f =>
    obtain ⟨_, hcount, _, hfa, hstate, hpage, _, _⟩ := ageCachePages_fields s
    have hfa' : (ageCachePages s).fileHandler = some f := hfa.trans hf
    obtain ⟨f1, hf1⟩ := getFreeCachePageIndex_open K (ageCachePages s) f hfa'
    obtain ⟨_, hgc, _, hgo, _⟩ := getFreeCachePageIndex_fields K (ageCachePages s)
    rw [loadPageToCache_eq K s p f f1 hf hf1]
    refine ⟨hgc.trans hcount, ?_, fun idx h => ?_⟩
    · intro i j hi hj hsi hsj hpp
      simp only at hi hj hsi hsj hpp
      rw [hgc, hcount] at hi hj
      by_cases him : i = (getFreeCachePageIndex K (ageCachePages s)).2
      · by_cases hjm : j = (getFreeCachePageIndex K (ageCachePages s)).2
        · rw [him, hjm]
        · exfalso
          rw [if_neg hjm, hgo j hjm, hstate] at hsj
          rw [if_pos him, if_neg hjm, hgo j hjm, hpage] at hpp
          have := hmiss j hj
          have h2 := (holdsPage_iff s p j).mpr ⟨hsj, hpp.symm⟩
          rw [this] at h2
          cases h2
      · by_cases hjm : j = (getFreeCachePageIndex K (ageCachePages s)).2
        · exfalso
          rw [if_neg him, hgo i him, hstate] at hsi
          rw [if_neg him, if_pos hjm, hgo i him, hpage] at hpp
          have := hmiss i hi
          have h2 := (holdsPage_iff s p i).mpr ⟨hsi, hpp⟩
          rw [this] at h2
          cases h2
        · rw [if_neg him, hgo i him, hstate] at hsi
          rw [if_neg hjm, hgo j hjm, hstate] at hsj
          rw [if_neg him, if_neg hjm, hgo i him, hgo j hjm, hpage, hpage] at hpp
          exact hu i j hi hj hsi hsj hpp
    · simp only [Option.some.injEq] at h
      subst h
      simp

theorem lookupOrLoad_unique (K : CacheConstants) (s : CachedFileIO) (p : Nat)
    (hu : UniquePages s) :
    (lookupOrLoad K s p).1.cachePagesCount = s.cachePagesCount ∧
    UniquePages (lookupOrLoad K s p).1 ∧
    (∀ idx, (lookupOrLoad K s p).2 = some idx →
      ((lookupOrLoad K s p).1.cachePagesInfo idx).state ≠ PageState.FREE) := by
  cases hscan : scanSlots (holdsPage s p) s.cachePagesCount 0 with
  | some i =>
    rw [lookupOrLoad_hit K s p i hscan]
    refine ⟨rfl, hu, fun idx h => ?_⟩
    simp only [Option.some.injEq] at h
    subst h
    obtain ⟨_, _, h3, _⟩ := scanSlots_some hscan
    exact ((holdsPage_iff s p i).mp h3).1
  | none =>
    rw [lookupOrLoad_miss K s p hscan]
    exact loadPageToCache_unique K _ p
      (fun i hi => (scanSlots_none.mp hscan) i (Nat.zero_le _) (by simpa using hi)) hu

theorem copyToCachePage_unique (s : CachedFileIO) (cacheIndex dstOffset : Nat)
    (src : Nat → Nat) (srcOffset bytesToCopy : Nat)
    (hidx : (s.cachePagesInfo cacheIndex).state ≠ PageState.FREE) (hu : UniquePages s) :
    UniquePages (copyToCachePage s cacheIndex dstOffset src srcOffset bytesToCopy) := by
  obtain ⟨hc, _, _, ho, hp, hst⟩ :=
    copyToCachePage_fields s cacheIndex dstOffset src srcOffset bytesToCopy
  intro i j hi hj hsi hsj hpp
  rw [hc] at hi hj
  have key : ∀ k,
      ((copyToCachePage s cacheIndex dstOffset src srcOffset bytesToCopy).cachePagesInfo
        k).state ≠ PageState.FREE →
      (s.cachePagesInfo k).state ≠ PageState.FREE ∧
      ((copyToCachePage s cacheIndex dstOffset src srcOffset bytesToCopy).cachePagesInfo
        k).filePageNo = (s.cachePagesInfo k).filePageNo := by
    intro k hk
    by_cases hkc : k = cacheIndex
    · subst hkc
      exact ⟨hidx, hp⟩
    · rw [ho k hkc] at hk ⊢
      exact ⟨hk, rfl⟩
  obtain ⟨h1, h2⟩ := key i hsi
  obtain ⟨h3, h4⟩ := key j hsj
  rw [h2, h4] at hpp
  exact hu i j hi hj h1 h3 hpp

theorem writeLoop_unique (K : CacheConstants) (position length firstPageNo lastPageNo : Nat)
    (src : Nat → Nat) (n filePage : Nat) (s : CachedFileIO) (bytesWritten : Nat)
    (hu : UniquePages s) :
    UniquePages
      (writeLoop K position length firstPageNo lastPageNo src n filePage s bytesWritten).1 := by
  induction n generalizing filePage s bytesWritten with
  | zero => exact hu
  | succ n ih =>
    obtain ⟨_, hu1, hne⟩ := lookupOrLoad_unique K s filePage hu
    unfold writeLoop
    cases hl : (lookupOrLoad K s filePage).2 with
    | none =>
      have : writePage K position length firstPageNo lastPageNo src filePage s bytesWritten =
          ((lookupOrLoad K s filePage).1, none) := by
        unfold writePage
        rcases hl2 : lookupOrLoad K s filePage with ⟨s1, r⟩
        rw [hl2] at hl
        simp only at hl
        subst hl
        rfl
      rw [this]
      exact hu1
    | some idx =>
      rw [writePage_of_lookup K position length firstPageNo lastPageNo src filePage s
        bytesWritten idx hl]
      exact ih _ _ _ (copyToCachePage_unique _ _ _ _ _ _ (hne idx hl) hu1)

theorem readLoop_unique (K : CacheConstants) (position length firstPageNo lastPageNo : Nat)
    (n filePage : Nat) (s : CachedFileIO) (dst : Nat → Nat) (bytesRead : Nat)
    (hu : UniquePages s) :
    UniquePages
      (readLoop K position length firstPageNo lastPageNo n filePage s dst bytesRead).1 := by
  induction n generalizing filePage s dst bytesRead with
  | zero => exact hu
  | succ n ih =>
    obtain ⟨_, hu1, _⟩ := lookupOrLoad_unique K s filePage hu
    unfold readLoop
    rcases hl : lookupOrLoad K s filePage with ⟨s1, r⟩
    rw [hl] at hu1
    cases r with
    | none => exact hu1
    | some idx => exact ih _ _ _ _ hu1

theorem flushLoop_fields (K : CacheConstants) (n cacheIndex : Nat) (s : CachedFileIO)
    (bytesWritten : Nat) :
    (flushLoop K n cacheIndex s bytesWritten).1.cachePagesInfo = s.cachePagesInfo ∧
    (flushLoop K n cacheIndex s bytesWritten).1.cachePagesData = s.cachePagesData ∧
    (flushLoop K n cacheIndex s bytesWritten).1.cachePagesCount = s.cachePagesCount ∧
    (flushLoop K n cacheIndex s bytesWritten).1.readOnly = s.readOnly := by
  induction n generalizing cacheIndex s bytesWritten with
  | zero => exact ⟨rfl, rfl, rfl, rfl⟩
  | succ n ih =>
    unfold flushLoop
    by_cases hd : (s.cachePagesInfo cacheIndex).state = PageState.DIRTY
    · rw [if_pos hd]
      obtain ⟨h1, h2, h3, h4⟩ := persistCachePage_fields K s cacheIndex
      obtain ⟨g1, g2, g3, g4⟩ := ih (cacheIndex + 1) (persistCachePage K s cacheIndex).1
        (if (persistCachePage K s cacheIndex).2 = true then
          bytesWritten + K.DEFAULT_CACHE_PAGE_SIZE else bytesWritten)
      exact ⟨g1.trans h1, g2.trans h2, g3.trans h3, g4.trans h4⟩
    · rw [if_neg hd]
      exact ih _ _ _

/-- C7: in every state reachable from a successful `open` by calls of `read`,
`write` and `flush`, no two slots that are not `FREE` hold the same file page
number. -/
theorem reachable_uniquePages (K : CacheConstants) (s : CachedFileIO) (h : Reachable K s) :
    UniquePages s := by
  induction h with
  | opened s0 existing created cacheSize isReadOnly hok =>
    intro i j _ _ hsi
    exfalso
    apply hsi
    revert hok
    unfold openFile
    cases existing with
    | some f => simp [zeroPageInfo]
    | none =>
      cases isReadOnly with
      | true => simp
      | false =>
        cases created with
        | none => simp
        | some f => simp [zeroPageInfo]
  | read s position dataBuffer length _ ih =>
    unfold read
    cases hf : s.fileHandler with
    | none => simpa using ih
    | some f =>
      cases dataBuffer with
      | none => simpa using ih
      | some dst =>
        simp only
        by_cases hl : length = 0
        · simpa [hl] using ih
        · rw [if_neg hl]
          exact readLoop_unique K _ _ _ _ _ _ _ _ _ ih
  | write s position dataBuffer length _ ih =>
    unfold write
    cases hf : s.fileHandler with
    | none => simpa using ih
    | some f =>
      cases dataBuffer with
      | none => simpa using ih
      | some src =>
        simp only
        by_cases hl : s.readOnly = true ∨ length = 0
        · rw [if_pos hl]
          exact ih
        · rw [if_neg hl]
          exact writeLoop_unique K _ _ _ _ _ _ _ _ _ ih
  | flush s _ ih =>
    obtain ⟨h1, _, h3, _⟩ := flushLoop_fields K s.cachePagesCount 0 s 0
    exact UniquePages_congr h3 (fun i => by rw [flush, h1]) (fun i => by rw [flush, h1]) ih

/-- C7 at a concrete input: the cache opened on an empty file and filled by one
`write` over 32 pages is reachable, and its 32 resident pages are distinct. -/
theorem reachable_uniquePages_witness :
    Reachable sampleConstants (filledCacheOn emptyFile) ∧
    UniquePages (filledCacheOn emptyFile) :=
  ⟨Reachable.write _ 0 (some (fun _ => 7)) 262143
      (Reachable.opened newCachedFile (some emptyFile) none 0 false (by decide)),
    reachable_uniquePages sampleConstants (filledCacheOn emptyFile)
      (Reachable.write _ 0 (some (fun _ => 7)) 262143
        (Reachable.opened newCachedFile (some emptyFile) none 0 false (by decide)))⟩

/-! ### The cache as a byte array (C1) -/

theorem residentSlot_some {s : CachedFileIO} {p k : Nat} (h : residentSlot s p = some k) :
    k < s.cachePagesCount ∧ holdsPage s p k = true := by
  obtain ⟨_, h2, h3, _⟩ := scanSlots_some h
  exact ⟨by omega, h3⟩

theorem residentSlot_none {s : CachedFileIO} {p : Nat} :
    residentSlot s p = none ↔ ∀ k, k < s.cachePagesCount → holdsPage s p k = false := by
  unfold residentSlot
  rw [scanSlots_none]
  constructor
  · intro h k hk
    exact h k (Nat.zero_le _) (by omega)
  · intro h k _ hk
    exact h k (by omega)

theorem residentSlot_of_holds {s : CachedFileIO} {p k : Nat} (hu : UniquePages s)
    (hk : k < s.cachePagesCount) (hp : holdsPage s p k = true) : residentSlot s p = some k := by
  apply scanSlots_of_unique hk hp
  intro j hj hpj
  obtain ⟨h1, h2⟩ := (holdsPage_iff s p j).mp hpj
  obtain ⟨h3, h4⟩ := (holdsPage_iff s p k).mp hp
  exact hu j k hj hk h1 h3 (h2.trans h4.symm)

theorem residentSlot_congr {s t : CachedFileIO} {p : Nat}
    (hc : t.cachePagesCount = s.cachePagesCount)
    (h : ∀ k, k < s.cachePagesCount → holdsPage t p k = holdsPage s p k) :
    residentSlot t p = residentSlot s p := by
  unfold residentSlot
  rw [hc]
  exact scanSlots_congr (fun j _ hj => h j (by omega))

theorem contentAt_resident (K : CacheConstants) {s : CachedFileIO} (f : File) {i k : Nat}
    (hu : UniquePages s) (hk : k < s.cachePagesCount)
    (hp : holdsPage s (i / K.DEFAULT_CACHE_PAGE_SIZE) k = true) :
    contentAt K s f i = s.cachePagesData k (i % K.DEFAULT_CACHE_PAGE_SIZE) := by
  unfold contentAt
  rw [residentSlot_of_holds hu hk hp]

theorem contentAt_absent (K : CacheConstants) {s : CachedFileIO} (f : File) {i : Nat}
    (h : ∀ k, k < s.cachePagesCount → holdsPage s (i / K.DEFAULT_CACHE_PAGE_SIZE) k = false) :
    contentAt K s f i = f.byteAt i := by
  unfold contentAt
  rw [residentSlot_none.mpr h]

/-- An offset lies on the page of its quotient. -/
theorem offset_split (P i : Nat) : i = i / P * P + i % P := by
  have := Nat.div_add_mod i P
  rw [Nat.mul_comm] at this
  omega

theorem offset_in_page (P i : Nat) (hP : 0 < P) : i / P * P ≤ i ∧ i < i / P * P + P := by
  have h1 := offset_split P i
  have h2 := Nat.mod_lt i hP
  omega

theorem page_of_offset (P p i : Nat) (h1 : p * P ≤ i) (h2 : i < p * P + P) :
    i / P = p ∧ i % P = i - p * P := by
  have hP : 0 < P := by omega
  have hd : i / P = p := by
    apply Nat.div_eq_of_lt_le
    · exact h1
    · rw [Nat.succ_mul]; exact h2
  refine ⟨hd, ?_⟩
  have := offset_split P i
  rw [hd] at this
  omega

theorem Refines.congr {K : CacheConstants} {s t : CachedFileIO} {f : File} {m : Nat → Nat}
    {W : Nat → Prop} (h : Refines K s f m W)
    (hf : t.fileHandler = s.fileHandler)
    (hc : t.cachePagesCount = s.cachePagesCount)
    (hd : t.cachePagesData = s.cachePagesData)
    (hs : ∀ i, (t.cachePagesInfo i).state = (s.cachePagesInfo i).state)
    (hp : ∀ i, (t.cachePagesInfo i).filePageNo = (s.cachePagesInfo i).filePageNo) :
    Refines K t f m W := by
  have hh : ∀ p k, holdsPage t p k = holdsPage s p k := by
    intro p k
    unfold holdsPage
    rw [hs, hp]
  have hr : ∀ p, residentSlot t p = residentSlot s p :=
    fun p => residentSlot_congr hc (fun k _ => hh p k)
  refine ⟨hf.trans h.file, h.diskOk, h.pageSize, hc ▸ h.slots,
    UniquePages_congr hc hs hp h.unique, ?_, ?_, ?_⟩
  · intro k hk hst j hj
    rw [hc] at hk
    rw [hs] at hst
    rw [hd, hp]
    exact h.clean k hk hst j hj
  · intro i
    rw [← h.content i]
    unfold contentAt
    rw [hr, hd]
  · intro i hi
    rcases h.durable i hi with ⟨k, hk, hk2, hk3⟩ | h2
    · exact Or.inl ⟨k, hc ▸ hk, by rw [hh]; exact hk2, by rw [hs]; exact hk3⟩
    · exact Or.inr h2

theorem fwrite_size (f : File) (offset : Nat) (data : Nat → Nat) (n : Nat)
    (hok : f.diskFull = false) : (f.fwrite offset data n).1.size = max f.size (offset + n) := by
  simp [File.fwrite, hok]

theorem Refines.mono {K : CacheConstants} {s : CachedFileIO} {f : File} {m n : Nat → Nat}
    {W V : Nat → Prop} (h : Refines K s f m W) (hm : ∀ i, m i = n i)
    (hW : ∀ i, V i → W i) : Refines K s f n V :=
  ⟨h.file, h.diskOk, h.pageSize, h.slots, h.unique, h.clean,
    fun i => (h.content i).trans (hm i), fun i hi => h.durable i (hW i hi)⟩

/-- Eviction keeps the byte array: slot `v` of `a` is emptied, its page having
gone to the file when it was `DIRTY`. -/
theorem evict_refines {K : CacheConstants} {a g : CachedFileIO} {f f1 : File} {m : Nat → Nat}
    {W : Nat → Prop} {v : Nat} (h : Refines K a f m W) (hv : v < a.cachePagesCount)
    (hnf : (a.cachePagesInfo v).state ≠ PageState.FREE)
    (hc : g.cachePagesCount = a.cachePagesCount) (hd : g.cachePagesData = a.cachePagesData)
    (ho : ∀ k, k ≠ v → g.cachePagesInfo k = a.cachePagesInfo k)
    (hfree : (g.cachePagesInfo v).state = PageState.FREE)
    (hfile : g.fileHandler = some f1)
    (hf1 : ((a.cachePagesInfo v).state ≠ PageState.DIRTY ∧ f1 = f) ∨
      ((a.cachePagesInfo v).state = PageState.DIRTY ∧
        f1 = (f.fwrite ((a.cachePagesInfo v).filePageNo * K.DEFAULT_CACHE_PAGE_SIZE)
          (a.cachePagesData v) K.DEFAULT_CACHE_PAGE_SIZE).1)) :
    Refines K g f1 m W := by
  have hP := h.pageSize
  -- slots of `g` that hold a page hold it in `a`
  have hg : ∀ p k, holdsPage g p k = true → k ≠ v ∧ holdsPage a p k = true := by
    intro p k hk
    have hkv : k ≠ v := by
      intro e
      subst e
      have := ((holdsPage_iff g p k).mp hk).1
      exact this hfree
    refine ⟨hkv, ?_⟩
    unfold holdsPage at hk ⊢
    rw [ho k hkv] at hk
    exact hk
  have ha : ∀ p k, k ≠ v → holdsPage a p k = true → holdsPage g p k = true := by
    intro p k hkv hk
    unfold holdsPage at hk ⊢
    rw [ho k hkv]
    exact hk
  have hug : UniquePages g := by
    intro i j hi hj hsi hsj hpp
    have hiv : i ≠ v := fun e => hsi (e ▸ hfree)
    have hjv : j ≠ v := fun e => hsj (e ▸ hfree)
    rw [ho i hiv] at hsi hpp
    rw [ho j hjv] at hsj hpp
    exact h.unique i j (hc ▸ hi) (hc ▸ hj) hsi hsj hpp
  -- outside the page of the victim the file reads the same
  have hout : ∀ i, i / K.DEFAULT_CACHE_PAGE_SIZE ≠ (a.cachePagesInfo v).filePageNo →
      f1.byteAt i = f.byteAt i := by
    intro i hi
    rcases hf1 with ⟨_, e⟩ | ⟨_, e⟩
    · rw [e]
    · rw [e]
      apply fwrite_byteAt_outside
      intro hr
      exact hi (page_of_offset _ _ _ hr.1 hr.2).1
  have hdisk : f1.diskFull = false := by
    rcases hf1 with ⟨_, e⟩ | ⟨_, e⟩
    · rw [e]; exact h.diskOk
    · rw [e, fwrite_diskFull]; exact h.diskOk
  have hsize : f.size ≤ f1.size := by
    rcases hf1 with ⟨_, e⟩ | ⟨_, e⟩
    · rw [e]
    · rw [e, fwrite_size _ _ _ _ h.diskOk]
      exact le_max_left _ _
  refine ⟨hfile, hdisk, hP, hc ▸ h.slots, hug, ?_, ?_, ?_⟩
  · intro k hk hst j hj
    have hkv : k ≠ v := fun e => by
      rw [e, hfree] at hst
      cases hst
    rw [ho k hkv] at hst ⊢
    rw [hd, h.clean k (hc ▸ hk) hst j hj]
    symm
    apply hout
    intro e
    have hq := (page_of_offset K.DEFAULT_CACHE_PAGE_SIZE (a.cachePagesInfo k).filePageNo
      ((a.cachePagesInfo k).filePageNo * K.DEFAULT_CACHE_PAGE_SIZE + j) (by omega)
      (by omega)).1
    rw [hq] at e
    have hne : (a.cachePagesInfo k).state ≠ PageState.FREE := by
      rw [hst]
      decide
    exact hkv (h.unique k v (hc ▸ hk) hv hne hnf e)
  · intro i
    rw [← h.content i]
    cases hr : residentSlot a (i / K.DEFAULT_CACHE_PAGE_SIZE) with
    | some k =>
      obtain ⟨hk, hkp⟩ := residentSlot_some hr
      rw [contentAt_resident K f h.unique hk hkp]
      by_cases hkv : k = v
      · subst hkv
        have hq : (a.cachePagesInfo k).filePageNo = i / K.DEFAULT_CACHE_PAGE_SIZE :=
          ((holdsPage_iff a _ k).mp hkp).2
        have habs : ∀ k1, k1 < g.cachePagesCount →
            holdsPage g (i / K.DEFAULT_CACHE_PAGE_SIZE) k1 = false := by
          intro k1 hk1
          cases hh : holdsPage g (i / K.DEFAULT_CACHE_PAGE_SIZE) k1 with
          | false => rfl
          | true =>
            exfalso
            obtain ⟨h1, h2⟩ := hg _ _ hh
            obtain ⟨h3, h4⟩ := (holdsPage_iff a _ k1).mp h2
            exact h1 (h.unique k1 k (hc ▸ hk1) hk h3 hnf (h4.trans hq.symm))
        rw [contentAt_absent K f1 habs]
        obtain ⟨hin1, hin2⟩ := offset_in_page K.DEFAULT_CACHE_PAGE_SIZE i hP
        rcases hf1 with ⟨hnd, e⟩ | ⟨_, e⟩
        · rw [e]
          have hcl : (a.cachePagesInfo k).state = PageState.CLEAN := by
            cases hs : (a.cachePagesInfo k).state with
            | FREE => exact absurd hs hnf
            | CLEAN => rfl
            | DIRTY => exact absurd hs hnd
          rw [h.clean k hk hcl _ (Nat.mod_lt _ hP), hq]
          congr 1
          exact offset_split _ _
        · rw [e, fwrite_byteAt _ _ _ _ _ h.diskOk, hq, if_pos ⟨hin1, hin2⟩]
          congr 1
          have := offset_split K.DEFAULT_CACHE_PAGE_SIZE i
          omega
      · rw [contentAt_resident K f1 hug (hc ▸ hk) (ha _ _ hkv hkp), hd]
    | none =>
      have hnone := residentSlot_none.mp hr
      have habs : ∀ k1, k1 < g.cachePagesCount →
          holdsPage g (i / K.DEFAULT_CACHE_PAGE_SIZE) k1 = false := by
        intro k1 hk1
        cases hh : holdsPage g (i / K.DEFAULT_CACHE_PAGE_SIZE) k1 with
        | false => rfl
        | true =>
          have := hnone k1 (hc ▸ hk1)
          rw [(hg _ _ hh).2] at this
          cases this
      rw [contentAt_absent K f1 habs, contentAt_absent K f hnone]
      apply hout
      intro e
      have := hnone v hv
      have h2 := (holdsPage_iff a (i / K.DEFAULT_CACHE_PAGE_SIZE) v).mpr ⟨hnf, e.symm⟩
      rw [this] at h2
      cases h2
  · intro i hi
    rcases h.durable i hi with ⟨k, hk, hk2, hk3⟩ | h2
    · by_cases hkv : k = v
      · subst hkv
        right
        rcases hf1 with ⟨hnd, _⟩ | ⟨_, e⟩
        · exact absurd hk3 hnd
        · rw [e, fwrite_size _ _ _ _ h.diskOk]
          have hq : (a.cachePagesInfo k).filePageNo = i / K.DEFAULT_CACHE_PAGE_SIZE :=
            ((holdsPage_iff a _ k).mp hk2).2
          rw [hq]
          have := (offset_in_page K.DEFAULT_CACHE_PAGE_SIZE i hP).2
          exact lt_of_lt_of_le this (le_max_right _ _)
      · left
        refine ⟨k, hc ▸ hk, ha _ _ hkv hk2, ?_⟩
        rw [ho k hkv]
        exact hk3
    · exact Or.inr (lt_of_lt_of_le h2 hsize)

/-- Loading keeps the byte array: the `FREE` slot `v` of `g` receives the page
`p` of the file, which was not resident. -/
theorem load_refines {K : CacheConstants} {g t : CachedFileIO} {f : File} {m : Nat → Nat}
    {W : Nat → Prop} {v p : Nat} (h : Refines K g f m W) (hv : v < g.cachePagesCount)
    (hfree : (g.cachePagesInfo v).state = PageState.FREE)
    (hmiss : ∀ k, k < g.cachePagesCount → holdsPage g p k = false)
    (hc : t.cachePagesCount = g.cachePagesCount) (hfile : t.fileHandler = g.fileHandler)
    (hdo : ∀ k, k ≠ v → t.cachePagesData k = g.cachePagesData k)
    (hdv : ∀ j, j < K.DEFAULT_CACHE_PAGE_SIZE →
      t.cachePagesData v j = f.byteAt (p * K.DEFAULT_CACHE_PAGE_SIZE + j))
    (hio : ∀ k, k ≠ v → t.cachePagesInfo k = g.cachePagesInfo k)
    (hst : (t.cachePagesInfo v).state = PageState.CLEAN)
    (hpg : (t.cachePagesInfo v).filePageNo = p) :
    Refines K t f m W := by
  have hP := h.pageSize
  have hvp : holdsPage t p v = true := by
    apply (holdsPage_iff t p v).mpr
    rw [hst]
    exact ⟨by decide, hpg⟩
  have hother : ∀ q k, k ≠ v → holdsPage t q k = holdsPage g q k := by
    intro q k hkv
    unfold holdsPage
    rw [hio k hkv]
  have hut : UniquePages t := by
    intro i j hi hj hsi hsj hpp
    by_cases hiv : i = v
    · by_cases hjv : j = v
      · rw [hiv, hjv]
      · exfalso
        rw [hiv, hpg] at hpp
        have h1 := hmiss j (hc ▸ hj)
        rw [← hother p j hjv, (holdsPage_iff t p j).mpr ⟨hsj, hpp.symm⟩] at h1
        cases h1
    · by_cases hjv : j = v
      · exfalso
        rw [hjv, hpg] at hpp
        have h1 := hmiss i (hc ▸ hi)
        rw [← hother p i hiv, (holdsPage_iff t p i).mpr ⟨hsi, hpp⟩] at h1
        cases h1
      · rw [hio i hiv] at hsi hpp
        rw [hio j hjv] at hsj hpp
        exact h.unique i j (hc ▸ hi) (hc ▸ hj) hsi hsj hpp
  have hgv : ∀ q, holdsPage g q v = false := by
    intro q
    cases hh : holdsPage g q v with
    | false => rfl
    | true => exact absurd hfree ((holdsPage_iff g q v).mp hh).1
  refine ⟨hfile.trans h.file, h.diskOk, hP, hc ▸ h.slots, hut, ?_, ?_, ?_⟩
  · intro k hk hs j hj
    by_cases hkv : k = v
    · subst hkv
      rw [hpg]
      exact hdv j hj
    · rw [hio k hkv] at hs ⊢
      rw [hdo k hkv]
      exact h.clean k (hc ▸ hk) hs j hj
  · intro i
    rw [← h.content i]
    by_cases hip : i / K.DEFAULT_CACHE_PAGE_SIZE = p
    · rw [contentAt_resident K f hut (hc ▸ hv) (hip ▸ hvp),
        contentAt_absent K f (fun k hk => hip ▸ hmiss k hk),
        hdv _ (Nat.mod_lt _ hP)]
      congr 1
      rw [← hip]
      exact (offset_split _ _).symm
    · have hvq : holdsPage t (i / K.DEFAULT_CACHE_PAGE_SIZE) v = false := by
        cases hh : holdsPage t (i / K.DEFAULT_CACHE_PAGE_SIZE) v with
        | false => rfl
        | true => exact absurd (hpg.symm.trans ((holdsPage_iff t _ v).mp hh).2) (Ne.symm hip)
      have hall : ∀ k, holdsPage t (i / K.DEFAULT_CACHE_PAGE_SIZE) k =
          holdsPage g (i / K.DEFAULT_CACHE_PAGE_SIZE) k := by
        intro k
        by_cases hkv : k = v
        · rw [hkv, hvq, hgv]
        · exact hother _ k hkv
      unfold contentAt
      rw [residentSlot_congr hc (fun k _ => hall k)]
      cases hr : residentSlot g (i / K.DEFAULT_CACHE_PAGE_SIZE) with
      | none => rfl
      | some k =>
        have hkv : k ≠ v := by
          intro e
          have := (residentSlot_some hr).2
          rw [e, hgv] at this
          cases this
        simp only
        rw [hdo k hkv]
  · intro i hi
    rcases h.durable i hi with ⟨k, hk, hk2, hk3⟩ | h2
    · have hkv : k ≠ v := by
        intro e
        rw [e, hgv] at hk2
        cases hk2
      exact Or.inl ⟨k, hc ▸ hk, (hother _ k hkv).trans hk2, by rw [hio k hkv]; exact hk3⟩
    · exact Or.inr h2

/-- The copy block of `write` on the resident page `p`, in slot `idx`, replaces
in the byte array the bytes of the range copied, and no other. -/
theorem copy_refines {K : CacheConstants} {s : CachedFileIO} {f : File} {m : Nat → Nat}
    {W : Nat → Prop} {idx p : Nat} (o cnt : Nat) (src : Nat → Nat) (so : Nat)
    (h : Refines K s f m W) (hidx : idx < s.cachePagesCount)
    (hp : holdsPage s p idx = true) (hrange : o + cnt ≤ K.DEFAULT_CACHE_PAGE_SIZE) :
    Refines K (copyToCachePage s idx o src so cnt) f
      (fun i =>
        if p * K.DEFAULT_CACHE_PAGE_SIZE + o ≤ i ∧ i < p * K.DEFAULT_CACHE_PAGE_SIZE + o + cnt
        then src (so + (i - (p * K.DEFAULT_CACHE_PAGE_SIZE + o))) else m i)
      (fun i => W i ∨
        (p * K.DEFAULT_CACHE_PAGE_SIZE + o ≤ i ∧
          i < p * K.DEFAULT_CACHE_PAGE_SIZE + o + cnt)) := by
  have hP := h.pageSize
  obtain ⟨hnf, hpage⟩ := (holdsPage_iff s p idx).mp hp
  obtain ⟨hc, hfile, _, ho, hpg, hst⟩ := copyToCachePage_fields s idx o src so cnt
  have hut := copyToCachePage_unique s idx o src so cnt hnf h.unique
  have hnf' : ((copyToCachePage s idx o src so cnt).cachePagesInfo idx).state ≠
      PageState.FREE := by
    rcases hst with e | e
    · rw [e]; exact hnf
    · rw [e]; decide
  have hall : ∀ q k, holdsPage (copyToCachePage s idx o src so cnt) q k = holdsPage s q k := by
    intro q k
    by_cases hk : k = idx
    · subst hk
      unfold holdsPage
      rw [hpg]
      simp [hnf, hnf']
    · unfold holdsPage
      rw [ho k hk]
  refine ⟨hfile.trans h.file, h.diskOk, hP, hc ▸ h.slots, hut, ?_, ?_, ?_⟩
  · intro k hk hs j hj
    by_cases hkc : k = idx
    · subst hkc
      rcases hst with e | e
      · rw [e] at hs ⊢
        have hcnt : cnt = 0 := by
          by_contra hne
          have : ((copyToCachePage s k o src so cnt).cachePagesInfo k).state =
              PageState.DIRTY := by
            simp [copyToCachePage, Nat.pos_of_ne_zero hne]
          rw [e, hs] at this
          cases this
        rw [copyToCachePage_data, if_neg (by omega)]
        exact h.clean k (hc ▸ hk) hs j hj
      · rw [e] at hs
        cases hs
    · rw [ho k hkc] at hs ⊢
      rw [copyToCachePage_data, if_neg (fun hh => hkc hh.1)]
      exact h.clean k (hc ▸ hk) hs j hj
  · intro i
    by_cases hip : i / K.DEFAULT_CACHE_PAGE_SIZE = p
    · rw [contentAt_resident K f hut (hc ▸ hidx) ((hall _ _).trans (hip ▸ hp)),
        copyToCachePage_data]
      have hsplit := offset_split K.DEFAULT_CACHE_PAGE_SIZE i
      rw [hip] at hsplit
      by_cases hin : o ≤ i % K.DEFAULT_CACHE_PAGE_SIZE ∧
          i % K.DEFAULT_CACHE_PAGE_SIZE < o + cnt
      · rw [if_pos ⟨rfl, hin⟩, if_pos (by omega)]
        congr 1
        omega
      · rw [if_neg (fun hh => hin hh.2), if_neg (by omega), ← h.content i,
          contentAt_resident K f h.unique hidx (hip ▸ hp)]
    · have hnot : ¬(p * K.DEFAULT_CACHE_PAGE_SIZE + o ≤ i ∧
          i < p * K.DEFAULT_CACHE_PAGE_SIZE + o + cnt) := by
        intro hr
        exact hip (page_of_offset _ _ _ (by omega) (by omega)).1
      rw [if_neg hnot, ← h.content i]
      unfold contentAt
      rw [residentSlot_congr hc (fun k _ => hall _ k)]
      cases hr : residentSlot s (i / K.DEFAULT_CACHE_PAGE_SIZE) with
      | none => rfl
      | some k =>
        have hkc : k ≠ idx := by
          intro e
          have := ((holdsPage_iff s _ k).mp (residentSlot_some hr).2).2
          rw [e, hpage] at this
          exact hip this.symm
        simp only
        rw [copyToCachePage_data, if_neg (fun hh => hkc hh.1)]
  · intro i hi
    rcases hi with hi | hi
    · rcases h.durable i hi with ⟨k, hk, hk2, hk3⟩ | h2
      · refine Or.inl ⟨k, hc ▸ hk, (hall _ _).trans hk2, ?_⟩
        by_cases hkc : k = idx
        · subst hkc
          rcases hst with e | e
          · rw [e]; exact hk3
          · exact e
        · rw [ho k hkc]; exact hk3
      · exact Or.inr h2
    · have hip : i / K.DEFAULT_CACHE_PAGE_SIZE = p :=
        (page_of_offset _ _ _ (by omega) (by omega)).1
      refine Or.inl ⟨idx, hc ▸ hidx, (hall _ _).trans (hip ▸ hp), ?_⟩
      have hcnt : cnt > 0 := by omega
      simp [copyToCachePage, hcnt]

theorem loaded_byte_or (K : CacheConstants) (f : File) (p j x : Nat)
    (hj : j < K.DEFAULT_CACHE_PAGE_SIZE) :
    (if j < f.fread (p * K.DEFAULT_CACHE_PAGE_SIZE) K.DEFAULT_CACHE_PAGE_SIZE then
        f.byte (p * K.DEFAULT_CACHE_PAGE_SIZE + j)
      else if j < K.DEFAULT_CACHE_PAGE_SIZE then 0 else x) =
      f.byteAt (p * K.DEFAULT_CACHE_PAGE_SIZE + j) := by
  rw [← loaded_byte K f p j hj]
  simp [hj]

/-- The slot `getFreeCachePageIndex` delivers is `FREE`, and the byte array is
kept, the file having received the page of a `DIRTY` victim. -/
theorem getFreeCachePageIndex_refines {K : CacheConstants} {a : CachedFileIO} {f : File}
    {m : Nat → Nat} {W : Nat → Prop} (h : Refines K a f m W) :
    ∃ f1, Refines K (getFreeCachePageIndex K a).1 f1 m W ∧
      (getFreeCachePageIndex K a).2 < a.cachePagesCount ∧
      ((getFreeCachePageIndex K a).1.cachePagesInfo (getFreeCachePageIndex K a).2).state =
        PageState.FREE ∧
      (∀ p k, holdsPage (getFreeCachePageIndex K a).1 p k = true → holdsPage a p k = true) := by
  rcases getFreeCachePageIndex_cases K a with ⟨i, hi, hfree, heq⟩ | ⟨hno, v, heq, _, hv⟩
  · rw [heq]
    exact ⟨f, h, hi, hfree, fun _ _ hh => hh⟩
  · rw [heq]
    have hv' := hv h.slots
    obtain ⟨hd, hc, _, ho, _⟩ := freeCachePage_fields K a v
    obtain ⟨hf1, _, hf3⟩ := freeCachePage_file K a v
    have hfreed := freeCachePage_freed K a v (fun _ => ⟨f, h.file, h.diskOk⟩)
    have hhold : ∀ p k, holdsPage (freeCachePage K a v).1 p k = true →
        holdsPage a p k = true := by
      intro p k hh
      have hkv : k ≠ v := by
        intro e
        rw [e] at hh
        exact ((holdsPage_iff _ p v).mp hh).1 hfreed
      unfold holdsPage at hh ⊢
      rw [ho k hkv] at hh
      exact hh
    by_cases hdirty : (a.cachePagesInfo v).state = PageState.DIRTY
    · exact ⟨_, evict_refines h hv' (hno v hv') hc hd ho hfreed (hf3 f hdirty h.file)
        (Or.inr ⟨hdirty, rfl⟩), hv', hfreed, hhold⟩
    · exact ⟨f, evict_refines h hv' (hno v hv') hc hd ho hfreed ((hf1 hdirty).trans h.file)
        (Or.inl ⟨hdirty, rfl⟩), hv', hfreed, hhold⟩

/-- A miss-driven load delivers a slot that holds the page and keeps the byte
array. -/
theorem loadPageToCache_refines {K : CacheConstants} {s : CachedFileIO} {f : File}
    {m : Nat → Nat} {W : Nat → Prop} (h : Refines K s f m W) (p : Nat)
    (hmiss : ∀ k, k < s.cachePagesCount → holdsPage s p k = false) :
    ∃ f1 idx, (loadPageToCache K s p).2 = some idx ∧
      idx < (loadPageToCache K s p).1.cachePagesCount ∧
      holdsPage (loadPageToCache K s p).1 p idx = true ∧
      Refines K (loadPageToCache K s p).1 f1 m W := by
  obtain ⟨hd, hc, _, hfa, hst, hpg, _, _⟩ := ageCachePages_fields s
  have h2 := h.congr hfa hc hd hst hpg
  obtain ⟨f1, h3, hv, hfree, hhold⟩ := getFreeCachePageIndex_refines h2
  have hgc := (getFreeCachePageIndex_fields K (ageCachePages s)).2.1
  rw [loadPageToCache_eq K s p f f1 h.file h3.file]
  refine ⟨f1, _, rfl, ?_, ?_, ?_⟩
  · simp only
    rw [hgc]
    exact hv
  · apply (holdsPage_iff _ _ _).mpr
    simp
  · refine load_refines (p := p) h3 (hgc ▸ hv) hfree ?_ rfl rfl ?_ ?_ ?_ ?_ ?_
    · intro k hk
      cases hh : holdsPage (getFreeCachePageIndex K (ageCachePages s)).1 p k with
      | false => rfl
      | true =>
        exfalso
        have ha := hhold p k hh
        have hs : holdsPage s p k = true := by
          unfold holdsPage at ha ⊢
          rw [hst, hpg] at ha
          exact ha
        rw [hgc, hc] at hk
        have := hmiss k hk
        rw [hs] at this
        cases this
    · intro k hk
      simp [hk]
    · intro j hj
      simp only [if_true]
      exact loaded_byte_or K f1 p j _ hj
    · intro k hk
      simp [hk]
    · simp
    · simp

/-- The lookup of `read` and `write` delivers a slot that holds the page and
keeps the byte array. -/
theorem lookupOrLoad_refines {K : CacheConstants} {s : CachedFileIO} {f : File}
    {m : Nat → Nat} {W : Nat → Prop} (h : Refines K s f m W) (p : Nat) :
    ∃ f1 idx, (lookupOrLoad K s p).2 = some idx ∧
      idx < (lookupOrLoad K s p).1.cachePagesCount ∧
      holdsPage (lookupOrLoad K s p).1 p idx = true ∧
      Refines K (lookupOrLoad K s p).1 f1 m W := by
  cases hscan : scanSlots (holdsPage s p) s.cachePagesCount 0 with
  | some i =>
    rw [lookupOrLoad_hit K s p i hscan]
    obtain ⟨_, h2, h3, _⟩ := scanSlots_some hscan
    exact ⟨f, i, rfl, by simpa using h2, h3,
      h.congr rfl rfl rfl (fun _ => rfl) (fun _ => rfl)⟩
  | none =>
    rw [lookupOrLoad_miss K s p hscan]
    have hmiss := scanSlots_none.mp hscan
    have h1 : Refines K
        { s with cacheRequests := s.cacheRequests + 1, cacheMisses := s.cacheMisses + 1 }
        f m W := h.congr rfl rfl rfl (fun _ => rfl) (fun _ => rfl)
    exact loadPageToCache_refines h1 p
      (fun k hk => hmiss k (Nat.zero_le _) (by simpa using hk))

/-- The arithmetic of the page loop of `write`: the span of page `filePage`
lies inside the page, starts in the file where the bytes written so far end,
and the spans of the pages add up to `length`. -/
theorem writeSpan_arith (K : CacheConstants) (position length filePage bytesWritten : Nat)
    (hP : 0 < K.DEFAULT_CACHE_PAGE_SIZE)
    (h1 : position / K.DEFAULT_CACHE_PAGE_SIZE ≤ filePage)
    (h2 : filePage ≤ (position + length) / K.DEFAULT_CACHE_PAGE_SIZE)
    (h3 : filePage = position / K.DEFAULT_CACHE_PAGE_SIZE → bytesWritten = 0)
    (h4 : position / K.DEFAULT_CACHE_PAGE_SIZE < filePage →
      position + bytesWritten = filePage * K.DEFAULT_CACHE_PAGE_SIZE) :
    (writeSpan K position length (position / K.DEFAULT_CACHE_PAGE_SIZE)
        ((position + length) / K.DEFAULT_CACHE_PAGE_SIZE) filePage bytesWritten).1 +
      (writeSpan K position length (position / K.DEFAULT_CACHE_PAGE_SIZE)
        ((position + length) / K.DEFAULT_CACHE_PAGE_SIZE) filePage bytesWritten).2 ≤
        K.DEFAULT_CACHE_PAGE_SIZE ∧
    filePage * K.DEFAULT_CACHE_PAGE_SIZE +
      (writeSpan K position length (position / K.DEFAULT_CACHE_PAGE_SIZE)
        ((position + length) / K.DEFAULT_CACHE_PAGE_SIZE) filePage bytesWritten).1 =
        position + bytesWritten ∧
    (filePage < (position + length) / K.DEFAULT_CACHE_PAGE_SIZE →
      position + (bytesWritten +
        (writeSpan K position length (position / K.DEFAULT_CACHE_PAGE_SIZE)
          ((position + length) / K.DEFAULT_CACHE_PAGE_SIZE) filePage bytesWritten).2) =
        (filePage + 1) * K.DEFAULT_CACHE_PAGE_SIZE) ∧
    (filePage = (position + length) / K.DEFAULT_CACHE_PAGE_SIZE →
      bytesWritten +
        (writeSpan K position length (position / K.DEFAULT_CACHE_PAGE_SIZE)
          ((position + length) / K.DEFAULT_CACHE_PAGE_SIZE) filePage bytesWritten).2 =
        length) := by
  have e1 := offset_split K.DEFAULT_CACHE_PAGE_SIZE position
  have e2 := offset_split K.DEFAULT_CACHE_PAGE_SIZE (position + length)
  have m1 := Nat.mod_lt position hP
  have m2 := Nat.mod_lt (position + length) hP
  have e3 : (filePage + 1) * K.DEFAULT_CACHE_PAGE_SIZE =
      filePage * K.DEFAULT_CACHE_PAGE_SIZE + K.DEFAULT_CACHE_PAGE_SIZE := Nat.succ_mul _ _
  have e4 : filePage < (position + length) / K.DEFAULT_CACHE_PAGE_SIZE →
      (filePage + 1) * K.DEFAULT_CACHE_PAGE_SIZE ≤
        (position + length) / K.DEFAULT_CACHE_PAGE_SIZE * K.DEFAULT_CACHE_PAGE_SIZE :=
    fun h => Nat.mul_le_mul_right _ h
  unfold writeSpan
  by_cases hf : filePage = position / K.DEFAULT_CACHE_PAGE_SIZE
  · have hb := h3 hf
    rw [if_pos hf]
    simp only
    subst hf
    refine ⟨by omega, by omega, fun hlt => ?_, fun heq => ?_⟩
    · have := e4 hlt
      omega
    · rw [← heq] at e2
      omega
  · rw [if_neg hf]
    have hb := h4 (by omega)
    by_cases hl : filePage = (position + length) / K.DEFAULT_CACHE_PAGE_SIZE
    · rw [if_pos hl]
      simp only
      subst hl
      refine ⟨by omega, by omega, fun hlt => by omega, fun _ => by omega⟩
    · rw [if_neg hl]
      simp only
      refine ⟨by omega, by omega, fun _ => by omega, fun heq => absurd heq hl⟩

theorem loadPageToCache_readOnly (K : CacheConstants) (s : CachedFileIO) (p : Nat) :
    (loadPageToCache K s p).1.readOnly = s.readOnly := by
  have h1 := (getFreeCachePageIndex_fields K (ageCachePages s)).2.2.1
  have h2 := (ageCachePages_fields s).2.2.1
  unfold loadPageToCache
  cases s.fileHandler with
  | none => rfl
  | some f =>
    simp only
    cases (getFreeCachePageIndex K (ageCachePages s)).1.fileHandler with
    | none => exact h1.trans h2
    | some f1 => exact h1.trans h2

theorem lookupOrLoad_readOnly (K : CacheConstants) (s : CachedFileIO) (p : Nat) :
    (lookupOrLoad K s p).1.readOnly = s.readOnly := by
  cases hscan : scanSlots (holdsPage s p) s.cachePagesCount 0 with
  | some i => rw [lookupOrLoad_hit K s p i hscan]
  | none =>
    rw [lookupOrLoad_miss K s p hscan]
    exact loadPageToCache_readOnly K _ p

theorem plainWrite_extend (m : Nat → Nat) (position : Nat) (src : Nat → Nat)
    (bytesWritten cnt start : Nat) (hs : start = position + bytesWritten) (i : Nat) :
    (if start ≤ i ∧ i < start + cnt then src (bytesWritten + (i - start))
      else plainWrite m position src bytesWritten i) =
      plainWrite m position src (bytesWritten + cnt) i := by
  unfold plainWrite
  subst hs
  by_cases h1 : position + bytesWritten ≤ i ∧ i < position + bytesWritten + cnt
  · rw [if_pos h1, if_pos (by omega)]
    congr 1
    omega
  · rw [if_neg h1]
    by_cases h2 : position ≤ i ∧ i < position + bytesWritten
    · rw [if_pos h2, if_pos (by omega)]
    · rw [if_neg h2, if_neg (by omega)]

/-- The page loop of `write` brings the byte array from the bytes written so
far to all `length` bytes, and returns `length`. -/
theorem writeLoop_refines (K : CacheConstants) (position length : Nat) (src : Nat → Nat)
    (m : Nat → Nat) (W : Nat → Prop) (n filePage : Nat) (s : CachedFileIO) (f : File)
    (bytesWritten : Nat)
    (h : Refines K s f (plainWrite m position src bytesWritten)
      (fun i => W i ∨ (position ≤ i ∧ i < position + bytesWritten)))
    (hn : filePage + n = (position + length) / K.DEFAULT_CACHE_PAGE_SIZE + 1)
    (h1 : position / K.DEFAULT_CACHE_PAGE_SIZE ≤ filePage)
    (h3 : filePage = position / K.DEFAULT_CACHE_PAGE_SIZE → bytesWritten = 0)
    (h4 : position / K.DEFAULT_CACHE_PAGE_SIZE < filePage →
      filePage ≤ (position + length) / K.DEFAULT_CACHE_PAGE_SIZE →
      position + bytesWritten = filePage * K.DEFAULT_CACHE_PAGE_SIZE)
    (h5 : filePage = (position + length) / K.DEFAULT_CACHE_PAGE_SIZE + 1 →
      bytesWritten = length) :
    ∃ f1,
      Refines K
        (writeLoop K position length (position / K.DEFAULT_CACHE_PAGE_SIZE)
          ((position + length) / K.DEFAULT_CACHE_PAGE_SIZE) src n filePage s bytesWritten).1
        f1 (plainWrite m position src length)
        (fun i => W i ∨ (position ≤ i ∧ i < position + length)) ∧
      (writeLoop K position length (position / K.DEFAULT_CACHE_PAGE_SIZE)
        ((position + length) / K.DEFAULT_CACHE_PAGE_SIZE) src n filePage s bytesWritten).2 =
        length ∧
      (writeLoop K position length (position / K.DEFAULT_CACHE_PAGE_SIZE)
        ((position + length) / K.DEFAULT_CACHE_PAGE_SIZE) src n filePage s
        bytesWritten).1.readOnly = s.readOnly := by
  induction n generalizing filePage s f bytesWritten with
  | zero =>
    have hb := h5 (by omega)
    subst hb
    exact ⟨f, h, rfl, rfl⟩
  | succ n ih =>
    have hle : filePage ≤ (position + length) / K.DEFAULT_CACHE_PAGE_SIZE := by omega
    obtain ⟨f1, idx, hl, hidx, hhold, hr⟩ := lookupOrLoad_refines h filePage
    obtain ⟨a1, a2, a3, a4⟩ := writeSpan_arith K position length filePage bytesWritten
      h.pageSize h1 hle h3 (fun hh => h4 hh hle)
    unfold writeLoop
    rw [writePage_of_lookup K position length _ _ src filePage s bytesWritten idx hl]
    simp only
    have hcopy := copy_refines
      (writeSpan K position length (position / K.DEFAULT_CACHE_PAGE_SIZE)
        ((position + length) / K.DEFAULT_CACHE_PAGE_SIZE) filePage bytesWritten).1
      (writeSpan K position length (position / K.DEFAULT_CACHE_PAGE_SIZE)
        ((position + length) / K.DEFAULT_CACHE_PAGE_SIZE) filePage bytesWritten).2
      src bytesWritten hr hidx hhold a1
    have hnext := hcopy.mono
      (n := plainWrite m position src (bytesWritten +
        (writeSpan K position length (position / K.DEFAULT_CACHE_PAGE_SIZE)
          ((position + length) / K.DEFAULT_CACHE_PAGE_SIZE) filePage bytesWritten).2))
      (V := fun i => W i ∨ (position ≤ i ∧ i < position + (bytesWritten +
        (writeSpan K position length (position / K.DEFAULT_CACHE_PAGE_SIZE)
          ((position + length) / K.DEFAULT_CACHE_PAGE_SIZE) filePage bytesWritten).2)))
      (fun i => plainWrite_extend m position src bytesWritten _ _ a2 i)
      (fun i hi => by
        rcases hi with hi | hi
        · exact Or.inl (Or.inl hi)
        · by_cases hlt : i < position + bytesWritten
          · exact Or.inl (Or.inr ⟨hi.1, hlt⟩)
          · exact Or.inr (by omega))
    obtain ⟨f2, r1, r2, r3⟩ := ih (filePage + 1) _ f1 _ hnext (by omega) (by omega)
      (fun hh => by omega)
      (fun _ hh => a3 (by omega))
      (fun hh => a4 (by omega))
    refine ⟨f2, r1, r2, r3.trans ?_⟩
    rw [(copyToCachePage_fields _ _ _ _ _ _).2.2.1]
    exact lookupOrLoad_readOnly K s filePage

/-- One `write` replaces in the byte array the bytes of its range, and returns
`length`. -/
theorem write_refines {K : CacheConstants} {s : CachedFileIO} {f : File} {m : Nat → Nat}
    {W : Nat → Prop} (h : Refines K s f m W) (hro : s.readOnly = false) (position : Nat)
    (src : Nat → Nat) (length : Nat) :
    ∃ f1,
      Refines K (write K s position (some src) length).1 f1 (plainWrite m position src length)
        (fun i => W i ∨ (position ≤ i ∧ i < position + length)) ∧
      (write K s position (some src) length).2 = length ∧
      (write K s position (some src) length).1.readOnly = false := by
  unfold write
  rw [h.file]
  simp only [hro, Bool.false_eq_true, false_or]
  by_cases hl : length = 0
  · subst hl
    rw [if_pos rfl]
    refine ⟨f, h.mono (fun i => ?_) (fun i hi => ?_), rfl, hro⟩
    · unfold plainWrite
      rw [if_neg (by omega)]
    · rcases hi with hi | hi
      · exact hi
      · omega
  · rw [if_neg hl]
    have h0 : Refines K s f (plainWrite m position src 0)
        (fun i => W i ∨ (position ≤ i ∧ i < position + 0)) := by
      refine h.mono (fun i => ?_) (fun i hi => ?_)
      · unfold plainWrite
        rw [if_neg (by omega)]
      · rcases hi with hi | hi
        · exact hi
        · omega
    have hfl : position / K.DEFAULT_CACHE_PAGE_SIZE ≤
        (position + length) / K.DEFAULT_CACHE_PAGE_SIZE :=
      Nat.div_le_div_right (Nat.le_add_right _ _)
    obtain ⟨f1, r1, r2, r3⟩ := writeLoop_refines K position length src m W
      ((position + length) / K.DEFAULT_CACHE_PAGE_SIZE + 1 -
        position / K.DEFAULT_CACHE_PAGE_SIZE)
      (position / K.DEFAULT_CACHE_PAGE_SIZE) s f 0 h0 (by omega) (le_refl _) (fun _ => rfl)
      (fun hh => absurd hh (lt_irrefl _)) (fun hh => by omega)
    exact ⟨f1, r1, r2, r3.trans hro⟩

/-- Persisting a resident page keeps the byte array; afterwards the file holds
the page. -/
theorem persist_refines {K : CacheConstants} {t : CachedFileIO} {g : File} {m : Nat → Nat}
    {W : Nat → Prop} (h : Refines K t g m W) (k : Nat) (hk : k < t.cachePagesCount)
    (hd : (t.cachePagesInfo k).state = PageState.DIRTY) :
    Refines K (persistCachePage K t k).1
      (g.fwrite ((t.cachePagesInfo k).filePageNo * K.DEFAULT_CACHE_PAGE_SIZE)
        (t.cachePagesData k) K.DEFAULT_CACHE_PAGE_SIZE).1 m W := by
  have hP := h.pageSize
  obtain ⟨hi, hdat, hc, _⟩ := persistCachePage_fields K t k
  obtain ⟨hfile, _⟩ := persistCachePage_open K t k g h.file
  have hnf : (t.cachePagesInfo k).state ≠ PageState.FREE := by
    rw [hd]
    decide
  have hhold : ∀ p j, holdsPage (persistCachePage K t k).1 p j = holdsPage t p j := by
    intro p j
    unfold holdsPage
    rw [hi]
  have hut : UniquePages (persistCachePage K t k).1 :=
    UniquePages_congr hc (fun i => by rw [hi]) (fun i => by rw [hi]) h.unique
  have hout : ∀ i, i / K.DEFAULT_CACHE_PAGE_SIZE ≠ (t.cachePagesInfo k).filePageNo →
      (g.fwrite ((t.cachePagesInfo k).filePageNo * K.DEFAULT_CACHE_PAGE_SIZE)
        (t.cachePagesData k) K.DEFAULT_CACHE_PAGE_SIZE).1.byteAt i = g.byteAt i := by
    intro i hne
    apply fwrite_byteAt_outside
    intro hr
    exact hne (page_of_offset _ _ _ hr.1 hr.2).1
  refine ⟨hfile, (fwrite_diskFull _ _ _ _).trans h.diskOk, hP, hc ▸ h.slots, hut, ?_, ?_, ?_⟩
  · intro k1 hk1 hs j hj
    rw [hi] at hs ⊢
    rw [hdat, h.clean k1 (hc ▸ hk1) hs j hj]
    symm
    apply hout
    rw [(page_of_offset K.DEFAULT_CACHE_PAGE_SIZE (t.cachePagesInfo k1).filePageNo
      ((t.cachePagesInfo k1).filePageNo * K.DEFAULT_CACHE_PAGE_SIZE + j) (by omega)
      (by omega)).1]
    intro e
    have hne1 : (t.cachePagesInfo k1).state ≠ PageState.FREE := by
      rw [hs]
      decide
    have := h.unique k1 k (hc ▸ hk1) hk hne1 hnf e
    rw [this, hd] at hs
    cases hs
  · intro i
    rw [← h.content i]
    unfold contentAt
    rw [residentSlot_congr hc (fun j _ => hhold _ j), hdat]
    cases hr : residentSlot t (i / K.DEFAULT_CACHE_PAGE_SIZE) with
    | some k1 => rfl
    | none =>
      simp only
      apply hout
      intro e
      have := (residentSlot_none.mp hr) k hk
      rw [(holdsPage_iff t _ k).mpr ⟨hnf, e.symm⟩] at this
      cases this
  · intro i hiW
    rcases h.durable i hiW with ⟨k1, hk1, hk2, hk3⟩ | h2
    · exact Or.inl ⟨k1, hc ▸ hk1, (hhold _ _).trans hk2, by rw [hi]; exact hk3⟩
    · right
      rw [fwrite_size _ _ _ _ h.diskOk]
      exact lt_of_lt_of_le h2 (le_max_left _ _)

/-- The loop of `flush` keeps the byte array and leaves in the file the page
of every `DIRTY` slot it has passed. -/
theorem flushLoop_refines {K : CacheConstants} {m : Nat → Nat} {W : Nat → Prop}
    (n c : Nat) (t : CachedFileIO) (g : File) (bytesWritten : Nat) (h : Refines K t g m W)
    (hn : c + n = t.cachePagesCount)
    (hD : ∀ k, k < c → (t.cachePagesInfo k).state = PageState.DIRTY →
      (∀ j, j < K.DEFAULT_CACHE_PAGE_SIZE →
        t.cachePagesData k j =
          g.byteAt ((t.cachePagesInfo k).filePageNo * K.DEFAULT_CACHE_PAGE_SIZE + j)) ∧
      (t.cachePagesInfo k).filePageNo * K.DEFAULT_CACHE_PAGE_SIZE +
        K.DEFAULT_CACHE_PAGE_SIZE ≤ g.size) :
    ∃ g1, Refines K (flushLoop K n c t bytesWritten).1 g1 m W ∧
      ∀ k, k < t.cachePagesCount → (t.cachePagesInfo k).state = PageState.DIRTY →
        (∀ j, j < K.DEFAULT_CACHE_PAGE_SIZE →
          t.cachePagesData k j =
            g1.byteAt ((t.cachePagesInfo k).filePageNo * K.DEFAULT_CACHE_PAGE_SIZE + j)) ∧
        (t.cachePagesInfo k).filePageNo * K.DEFAULT_CACHE_PAGE_SIZE +
          K.DEFAULT_CACHE_PAGE_SIZE ≤ g1.size := by
  induction n generalizing c t g bytesWritten with
  | zero =>
    refine ⟨g, h, fun k hk hs => hD k (by omega) hs⟩
  | succ n ih =>
    unfold flushLoop
    by_cases hd : (t.cachePagesInfo c).state = PageState.DIRTY
    · rw [if_pos hd]
      have hc : c < t.cachePagesCount := by omega
      have hp := persist_refines h c hc hd
      obtain ⟨hi, hdat, hcnt, _⟩ := persistCachePage_fields K t c
      have hnf : (t.cachePagesInfo c).state ≠ PageState.FREE := by
        rw [hd]
        decide
      obtain ⟨g1, r1, r2⟩ := ih (c + 1) (persistCachePage K t c).1 _
        (if (persistCachePage K t c).2 = true then bytesWritten + K.DEFAULT_CACHE_PAGE_SIZE
          else bytesWritten) hp (by rw [hcnt]; omega)
        (by
          intro k hk hs
          rw [hi] at hs ⊢
          rw [hdat]
          by_cases hkc : k = c
          · subst hkc
            refine ⟨fun j hj => ?_, ?_⟩
            · rw [fwrite_byteAt _ _ _ _ _ h.diskOk, if_pos (by omega)]
              congr 1
              omega
            · rw [fwrite_size _ _ _ _ h.diskOk]
              exact le_max_right _ _
          · obtain ⟨d1, d2⟩ := hD k (by omega) hs
            refine ⟨fun j hj => ?_, ?_⟩
            · rw [d1 j hj]
              symm
              apply fwrite_byteAt_outside
              apply page_disjoint _ _ _ _ _ hj
              intro e
              have hnk : (t.cachePagesInfo k).state ≠ PageState.FREE := by
                rw [hs]
                decide
              exact hkc (h.unique k c (by omega) hc hnk hnf e.symm)
            · rw [fwrite_size _ _ _ _ h.diskOk]
              exact le_trans d2 (le_max_left _ _))
      refine ⟨g1, r1, fun k hk hs => ?_⟩
      have := r2 k (by rw [hcnt]; exact hk) (by rw [hi]; exact hs)
      rw [hi, hdat] at this
      exact this
    · rw [if_neg hd]
      exact ih (c + 1) t g bytesWritten h (by omega) (fun k hk hs => by
        by_cases hkc : k = c
        · subst hkc
          exact absurd hs hd
        · exact hD k (by omega) hs)

/-- After `flush` the file itself is the byte array, and every offset of `W`
lies inside the file. -/
theorem flush_refines {K : CacheConstants} {s : CachedFileIO} {f : File} {m : Nat → Nat}
    {W : Nat → Prop} (h : Refines K s f m W) :
    ∃ f1, (flush K s).1.fileHandler = some f1 ∧ (∀ i, f1.byteAt i = m i) ∧
      ∀ i, W i → i < f1.size := by
  have hP := h.pageSize
  obtain ⟨g1, r1, r2⟩ := flushLoop_refines s.cachePagesCount 0 s f 0 h (by omega)
    (fun k hk => by omega)
  obtain ⟨hi, hdat, hc, _⟩ := flushLoop_fields K s.cachePagesCount 0 s 0
  have hsync : ∀ k, k < s.cachePagesCount → (s.cachePagesInfo k).state ≠ PageState.FREE →
      ∀ j, j < K.DEFAULT_CACHE_PAGE_SIZE →
        s.cachePagesData k j =
          g1.byteAt ((s.cachePagesInfo k).filePageNo * K.DEFAULT_CACHE_PAGE_SIZE + j) := by
    intro k hk hnf j hj
    cases hs : (s.cachePagesInfo k).state with
    | FREE => exact absurd hs hnf
    | CLEAN =>
      have := r1.clean k (by rw [hc]; exact hk) (by rw [hi]; exact hs) j hj
      rw [hi, hdat] at this
      exact this
    | DIRTY => exact (r2 k hk hs).1 j hj
  refine ⟨g1, r1.file, fun i => ?_, fun i hiW => ?_⟩
  · rw [← h.content i]
    unfold contentAt
    cases hr : residentSlot s (i / K.DEFAULT_CACHE_PAGE_SIZE) with
    | none =>
      have := r1.content i
      rw [← h.content i] at this
      unfold contentAt at this
      rw [residentSlot_congr hc (fun j _ => by unfold holdsPage; rw [hi]), hr] at this
      simp only at this
      rw [this]
    | some k =>
      obtain ⟨hk, hkp⟩ := residentSlot_some hr
      obtain ⟨hnf, hpg⟩ := (holdsPage_iff s _ k).mp hkp
      simp only
      rw [hsync k hk hnf _ (Nat.mod_lt _ hP), hpg]
      congr 1
      exact offset_split _ _
  · rcases r1.durable i hiW with ⟨k, hk, hk2, hk3⟩ | h2
    · rw [hc] at hk
      rw [hi] at hk3
      have hpg : (s.cachePagesInfo k).filePageNo = i / K.DEFAULT_CACHE_PAGE_SIZE := by
        have := ((holdsPage_iff _ _ k).mp hk2).2
        rw [hi] at this
        exact this
      have := (r2 k hk hk3).2
      rw [hpg] at this
      have h3 := (offset_in_page K.DEFAULT_CACHE_PAGE_SIZE i hP).2
      omega
    · exact h2

theorem writeAll_refines {K : CacheConstants} (calls : List WriteCall) (s : CachedFileIO)
    (f : File) (m : Nat → Nat) (W : Nat → Prop) (h : Refines K s f m W)
    (hro : s.readOnly = false) :
    ∃ f1 W1, Refines K (writeAll K s calls) f1 (plainWriteAll m calls) W1 ∧
      (∀ i, W i → W1 i) ∧
      (∀ i c, c ∈ calls → c.position ≤ i → i < c.position + c.length → W1 i) := by
  induction calls generalizing s f m W with
  | nil =>
    exact ⟨f, W, h, fun _ hi => hi, fun i c hc => by cases hc⟩
  | cons c cs ih =>
    obtain ⟨f1, r1, _, r3⟩ := write_refines h hro c.position c.buffer c.length
    obtain ⟨f2, W2, q1, q2, q3⟩ := ih _ f1 _ _ r1 r3
    refine ⟨f2, W2, q1, fun i hi => q2 i (Or.inl hi), fun i c1 hc1 h1 h2 => ?_⟩
    rcases List.mem_cons.mp hc1 with e | e
    · subst e
      exact q2 i (Or.inr ⟨h1, h2⟩)
    · exact q3 i c1 e h1 h2

theorem lastWrittenFrom_plain (calls : List WriteCall) (r : Option Nat) (m : Nat → Nat)
    (i b : Nat) (h : lastWrittenFrom r calls i = some b) (hr : ∀ b0, r = some b0 → m i = b0) :
    plainWriteAll m calls i = b := by
  induction calls generalizing r m with
  | nil => exact hr b h
  | cons c cs ih =>
    unfold lastWrittenFrom at h
    unfold plainWriteAll
    apply ih _ _ h
    intro b0 hb0
    unfold plainWrite
    by_cases hc : c.position ≤ i ∧ i < c.position + c.length
    · rw [if_pos hc] at hb0 ⊢
      cases hb0
      rfl
    · rw [if_neg hc] at hb0 ⊢
      exact hr b0 hb0

theorem lastWrittenFrom_covered (calls : List WriteCall) (r : Option Nat) (i b : Nat)
    (h : lastWrittenFrom r calls i = some b) :
    r = some b ∨ ∃ c, c ∈ calls ∧ c.position ≤ i ∧ i < c.position + c.length := by
  induction calls generalizing r with
  | nil => exact Or.inl h
  | cons c cs ih =>
    unfold lastWrittenFrom at h
    rcases ih _ h with e | ⟨c1, h1, h2⟩
    · by_cases hc : c.position ≤ i ∧ i < c.position + c.length
      · exact Or.inr ⟨c, List.mem_cons_self _ _, hc⟩
      · rw [if_neg hc] at e
        exact Or.inl e
    · exact Or.inr ⟨c1, List.mem_cons_of_mem _ h1, h2⟩

/-- The cache that `open` delivers has every slot `FREE`. -/
theorem openFile_slots (K : CacheConstants) (s0 : CachedFileIO) (existing created : Option File)
    (cacheSize : Nat) (isReadOnly : Bool) (f : File)
    (h : (openFile K s0 existing created cacheSize isReadOnly).1.fileHandler = some f) :
    (openFile K s0 existing created cacheSize isReadOnly).1.cachePagesInfo =
      (fun _ => zeroPageInfo) ∧
    (openFile K s0 existing created cacheSize isReadOnly).1.readOnly = isReadOnly := by
  revert h
  unfold openFile
  cases existing with
  | some f0 => simp
  | none =>
    cases isReadOnly with
    | true => simp
    | false =>
      cases created with
      | none => simp
      | some f0 => simp

theorem openFile_refines (K : CacheConstants) (s0 : CachedFileIO)
    (existing created : Option File) (cacheSize : Nat) (isReadOnly : Bool) (f : File)
    (hP : 0 < K.DEFAULT_CACHE_PAGE_SIZE)
    (hopen : (openFile K s0 existing created cacheSize isReadOnly).1.fileHandler = some f)
    (hslots : 0 < (openFile K s0 existing created cacheSize isReadOnly).1.cachePagesCount)
    (hok : f.diskFull = false) :
    Refines K (openFile K s0 existing created cacheSize isReadOnly).1 f f.byteAt
      (fun _ => False) := by
  obtain ⟨hinfo, _⟩ := openFile_slots K s0 existing created cacheSize isReadOnly f hopen
  have hno : ∀ p k, holdsPage (openFile K s0 existing created cacheSize isReadOnly).1 p k =
      false := by
    intro p k
    unfold holdsPage
    rw [hinfo]
    simp [zeroPageInfo]
  refine ⟨hopen, hok, hP, hslots, ?_, ?_, ?_, ?_⟩
  · intro i j _ _ hsi
    rw [hinfo] at hsi
    exact absurd rfl hsi
  · intro k _ hs
    rw [hinfo] at hs
    cases hs
  · intro i
    exact contentAt_absent K f (fun k _ => hno _ k)
  · intro i hi
    exact absurd hi id

/-! ### The device flag and the slot count through the operations -/

/-- Whether the device of the open file is full. -/
theorem persistCachePage_full (K : CacheConstants) (s : CachedFileIO) (i : Nat) :
    (persistCachePage K s i).1.fileHandler.map File.diskFull =
      s.fileHandler.map File.diskFull := by
  cases hf : s.fileHandler with
  | none => rw [persistCachePage_closed K s i hf, hf]
  | some f =>
    rw [(persistCachePage_open K s i f hf).1]
    simp [fwrite_diskFull]

theorem freeCachePage_full (K : CacheConstants) (s : CachedFileIO) (m : Nat) :
    (freeCachePage K s m).1.fileHandler.map File.diskFull =
      s.fileHandler.map File.diskFull := by
  obtain ⟨h1, h2, h3⟩ := freeCachePage_file K s m
  by_cases hd : (s.cachePagesInfo m).state = PageState.DIRTY
  · cases hf : s.fileHandler with
    | none => rw [h2 hf]
    | some f =>
      rw [h3 f hd hf]
      simp [fwrite_diskFull]
  · rw [h1 hd]

theorem getFreeCachePageIndex_full (K : CacheConstants) (s : CachedFileIO) :
    (getFreeCachePageIndex K s).1.fileHandler.map File.diskFull =
      s.fileHandler.map File.diskFull := by
  rcases getFreeCachePageIndex_cases K s with ⟨i, _, _, heq⟩ | ⟨_, m, heq, _, _⟩
  · rw [heq]
  · rw [heq]
    exact freeCachePage_full K s m

theorem loadPageToCache_full (K : CacheConstants) (s : CachedFileIO) (p : Nat) :
    (loadPageToCache K s p).1.fileHandler.map File.diskFull =
      s.fileHandler.map File.diskFull ∧
    (loadPageToCache K s p).1.cachePagesCount = s.cachePagesCount := by
  have h1 := getFreeCachePageIndex_full K (ageCachePages s)
  have h2 := (getFreeCachePageIndex_fields K (ageCachePages s)).2.1
  have h3 : (ageCachePages s).fileHandler = s.fileHandler := rfl
  have h4 : (ageCachePages s).cachePagesCount = s.cachePagesCount := rfl
  rw [h3] at h1
  rw [h4] at h2
  cases hf : s.fileHandler with
  | none =>
    have : loadPageToCache K s p = (s, none) := by
      unfold loadPageToCache
      simp [hf]
    rw [this]
    exact ⟨by simp [hf], rfl⟩
  | some f =>
    obtain ⟨f1, hf1⟩ := getFreeCachePageIndex_open K (ageCachePages s) f (h3.trans hf)
    rw [loadPageToCache_eq K s p f f1 hf hf1]
    rw [hf] at h1
    exact ⟨h1, h2⟩

theorem lookupOrLoad_full (K : CacheConstants) (s : CachedFileIO) (p : Nat) :
    (lookupOrLoad K s p).1.fileHandler.map File.diskFull =
      s.fileHandler.map File.diskFull ∧
    (lookupOrLoad K s p).1.cachePagesCount = s.cachePagesCount := by
  cases hscan : scanSlots (holdsPage s p) s.cachePagesCount 0 with
  | some i =>
    rw [lookupOrLoad_hit K s p i hscan]
    exact ⟨rfl, rfl⟩
  | none =>
    rw [lookupOrLoad_miss K s p hscan]
    exact loadPageToCache_full K _ p

theorem writePage_none (K : CacheConstants) (position length firstPageNo lastPageNo : Nat)
    (src : Nat → Nat) (filePage : Nat) (s : CachedFileIO) (bytesWritten : Nat)
    (h : (lookupOrLoad K s filePage).2 = none) :
    writePage K position length firstPageNo lastPageNo src filePage s bytesWritten =
      ((lookupOrLoad K s filePage).1, none) := by
  unfold writePage
  rcases hl : lookupOrLoad K s filePage with ⟨s1, r⟩
  rw [hl] at h
  simp only at h
  subst h
  rfl

theorem writeLoop_full (K : CacheConstants) (position length firstPageNo lastPageNo : Nat)
    (src : Nat → Nat) (n filePage : Nat) (s : CachedFileIO) (bytesWritten : Nat) :
    (writeLoop K position length firstPageNo lastPageNo src n filePage s
        bytesWritten).1.fileHandler.map File.diskFull = s.fileHandler.map File.diskFull ∧
    (writeLoop K position length firstPageNo lastPageNo src n filePage s
        bytesWritten).1.cachePagesCount = s.cachePagesCount := by
  induction n generalizing filePage s bytesWritten with
  | zero => exact ⟨rfl, rfl⟩
  | succ n ih =>
    obtain ⟨h1, h2⟩ := lookupOrLoad_full K s filePage
    unfold writeLoop
    cases hl : (lookupOrLoad K s filePage).2 with
    | none =>
      rw [writePage_none K position length firstPageNo lastPageNo src filePage s bytesWritten
        hl]
      exact ⟨h1, h2⟩
    | some idx =>
      rw [writePage_of_lookup K position length firstPageNo lastPageNo src filePage s
        bytesWritten idx hl]
      obtain ⟨g1, g2⟩ := ih (filePage + 1)
        (copyToCachePage (lookupOrLoad K s filePage).1 idx
          (writeSpan K position length firstPageNo lastPageNo filePage bytesWritten).1 src
          bytesWritten
          (writeSpan K position length firstPageNo lastPageNo filePage bytesWritten).2)
        (bytesWritten +
          (writeSpan K position length firstPageNo lastPageNo filePage bytesWritten).2)
      obtain ⟨c1, c2, _⟩ := copyToCachePage_fields (lookupOrLoad K s filePage).1 idx
        (writeSpan K position length firstPageNo lastPageNo filePage bytesWritten).1 src
        bytesWritten
        (writeSpan K position length firstPageNo lastPageNo filePage bytesWritten).2
      rw [c2] at g1
      rw [c1] at g2
      exact ⟨g1.trans h1, g2.trans h2⟩

theorem write_full (K : CacheConstants) (s : CachedFileIO) (position : Nat)
    (dataBuffer : Option (Nat → Nat)) (length : Nat) :
    (write K s position dataBuffer length).1.fileHandler.map File.diskFull =
      s.fileHandler.map File.diskFull ∧
    (write K s position dataBuffer length).1.cachePagesCount = s.cachePagesCount := by
  unfold write
  cases hf : s.fileHandler with
  | none => exact ⟨by rw [hf], rfl⟩
  | some f =>
    cases dataBuffer with
    | none => exact ⟨by rw [hf], rfl⟩
    | some src =>
      simp only
      by_cases hl : s.readOnly = true ∨ length = 0
      · rw [if_pos hl]
        exact ⟨by rw [hf], rfl⟩
      · rw [if_neg hl, ← hf]
        exact writeLoop_full K _ _ _ _ _ _ _ _ _

theorem readLoop_full (K : CacheConstants) (position length firstPageNo lastPageNo : Nat)
    (n filePage : Nat) (s : CachedFileIO) (dst : Nat → Nat) (bytesRead : Nat) :
    (readLoop K position length firstPageNo lastPageNo n filePage s dst
        bytesRead).1.fileHandler.map File.diskFull = s.fileHandler.map File.diskFull ∧
    (readLoop K position length firstPageNo lastPageNo n filePage s dst
        bytesRead).1.cachePagesCount = s.cachePagesCount := by
  induction n generalizing filePage s dst bytesRead with
  | zero => exact ⟨rfl, rfl⟩
  | succ n ih =>
    obtain ⟨h1, h2⟩ := lookupOrLoad_full K s filePage
    unfold readLoop
    rcases hl : lookupOrLoad K s filePage with ⟨s1, r⟩
    rw [hl] at h1 h2
    cases r with
    | none => exact ⟨h1, h2⟩
    | some idx =>
      simp only
      obtain ⟨g1, g2⟩ := ih (filePage + 1) s1
        (fun j =>
          if bytesRead ≤ j ∧ j < bytesRead +
              (readSpan K position length firstPageNo lastPageNo filePage
                (s1.cachePagesInfo idx).availableDataLength).2 then
            s1.cachePagesData idx
              ((readSpan K position length firstPageNo lastPageNo filePage
                (s1.cachePagesInfo idx).availableDataLength).1 + (j - bytesRead))
          else dst j)
        (bytesRead +
          (readSpan K position length firstPageNo lastPageNo filePage
            (s1.cachePagesInfo idx).availableDataLength).2)
      exact ⟨g1.trans h1, g2.trans h2⟩

theorem read_full (K : CacheConstants) (s : CachedFileIO) (position : Nat)
    (dataBuffer : Option (Nat → Nat)) (length : Nat) :
    (read K s position dataBuffer length).1.fileHandler.map File.diskFull =
      s.fileHandler.map File.diskFull ∧
    (read K s position dataBuffer length).1.cachePagesCount = s.cachePagesCount := by
  unfold read
  cases hf : s.fileHandler with
  | none => exact ⟨by rw [hf], rfl⟩
  | some f =>
    cases dataBuffer with
    | none => exact ⟨by rw [hf], rfl⟩
    | some dst =>
      simp only
      by_cases hl : length = 0
      · rw [if_pos hl]
        exact ⟨by rw [hf], rfl⟩
      · rw [if_neg hl, ← hf]
        exact readLoop_full K _ _ _ _ _ _ _ _ _

theorem flushLoop_full (K : CacheConstants) (n cacheIndex : Nat) (s : CachedFileIO)
    (bytesWritten : Nat) :
    (flushLoop K n cacheIndex s bytesWritten).1.fileHandler.map File.diskFull =
      s.fileHandler.map File.diskFull := by
  induction n generalizing cacheIndex s bytesWritten with
  | zero => rfl
  | succ n ih =>
    unfold flushLoop
    by_cases hd : (s.cachePagesInfo cacheIndex).state = PageState.DIRTY
    · rw [if_pos hd]
      exact (ih _ _ _).trans (persistCachePage_full K s cacheIndex)
    · rw [if_neg hd]
      exact ih _ _ _

/-! ### Reachable states stand for byte arrays -/

theorem readLoop_refines {K : CacheConstants} {m : Nat → Nat} {W : Nat → Prop}
    (position length firstPageNo lastPageNo : Nat) (n filePage : Nat) (s : CachedFileIO)
    (f : File) (dst : Nat → Nat) (bytesRead : Nat) (h : Refines K s f m W) :
    ∃ f1, Refines K
      (readLoop K position length firstPageNo lastPageNo n filePage s dst bytesRead).1 f1 m
      W := by
  induction n generalizing filePage s f dst bytesRead with
  | zero => exact ⟨f, h⟩
  | succ n ih =>
    obtain ⟨f1, idx, hl, _, _, hr⟩ := lookupOrLoad_refines h filePage
    unfold readLoop
    rcases hl2 : lookupOrLoad K s filePage with ⟨s1, r⟩
    rw [hl2] at hl hr
    simp only at hl
    subst hl
    exact ih _ _ f1 _ _ hr

theorem flush_keeps_refines {K : CacheConstants} {s : CachedFileIO} {f : File}
    {m : Nat → Nat} {W : Nat → Prop} (h : Refines K s f m W) :
    ∃ f1, Refines K (flush K s).1 f1 m W := by
  obtain ⟨g1, r1, _⟩ := flushLoop_refines s.cachePagesCount 0 s f 0 h (by omega)
    (fun k hk => by omega)
  exact ⟨g1, r1⟩

theorem file_of_full {a b : Option File} {f : File}
    (h : a.map File.diskFull = b.map File.diskFull) (ha : a = some f) :
    ∃ g, b = some g ∧ g.diskFull = f.diskFull := by
  subst ha
  cases b with
  | none => simp at h
  | some g =>
    refine ⟨g, rfl, ?_⟩
    simp at h
    exact h.symm

/-- In every reachable state whose file is open on a device that is not full,
the cache with at least one slot stands for a byte array. -/
theorem reachable_refines (K : CacheConstants) (s : CachedFileIO) (h : Reachable K s)
    (f : File) (hf : s.fileHandler = some f) (hok : f.diskFull = false)
    (hP : 0 < K.DEFAULT_CACHE_PAGE_SIZE) (hc : 0 < s.cachePagesCount) :
    ∃ m, Refines K s f m (fun _ => False) := by
  induction h generalizing f with
  | opened s0 existing created cacheSize isReadOnly _ =>
    exact ⟨_, openFile_refines K s0 existing created cacheSize isReadOnly f hP hf hc hok⟩
  | read s position dataBuffer length _ ih =>
    obtain ⟨h1, h2⟩ := read_full K s position dataBuffer length
    obtain ⟨g, hg, hgd⟩ := file_of_full h1 hf
    obtain ⟨m, hm⟩ := ih g hg (hgd.trans hok) (h2 ▸ hc)
    refine ⟨m, ?_⟩
    have key : ∃ f1, Refines K (read K s position dataBuffer length).1 f1 m
        (fun _ => False) := by
      unfold read
      rw [hg]
      cases dataBuffer with
      | none => exact ⟨g, hm⟩
      | some dst =>
        simp only
        by_cases hl : length = 0
        · rw [if_pos hl]
          exact ⟨g, hm⟩
        · rw [if_neg hl]
          exact readLoop_refines _ _ _ _ _ _ s g dst 0 hm
    obtain ⟨f1, hr⟩ := key
    have := hr.file
    rw [hf] at this
    cases this
    exact hr
  | write s position dataBuffer length _ ih =>
    obtain ⟨h1, h2⟩ := write_full K s position dataBuffer length
    obtain ⟨g, hg, hgd⟩ := file_of_full h1 hf
    obtain ⟨m, hm⟩ := ih g hg (hgd.trans hok) (h2 ▸ hc)
    have key : ∃ f1 m1, Refines K (write K s position dataBuffer length).1 f1 m1
        (fun _ => False) := by
      cases dataBuffer with
      | none =>
        unfold write
        rw [hg]
        exact ⟨g, m, hm⟩
      | some src =>
        by_cases hro : s.readOnly = true
        · unfold write
          rw [hg]
          simp only [hro, true_or, if_true]
          exact ⟨g, m, hm⟩
        · have hro' : s.readOnly = false := by
            cases hh : s.readOnly with
            | true => exact absurd hh hro
            | false => rfl
          obtain ⟨f1, r1, _, _⟩ := write_refines hm hro' position src length
          exact ⟨f1, _, r1.mono (fun _ => rfl) (fun _ hi => absurd hi id)⟩
    obtain ⟨f1, m1, hr⟩ := key
    have := hr.file
    rw [hf] at this
    cases this
    exact ⟨m1, hr⟩
  | flush s _ ih =>
    have h1 := flushLoop_full K s.cachePagesCount 0 s 0
    have h2 := (flushLoop_fields K s.cachePagesCount 0 s 0).2.2.1
    obtain ⟨g, hg, hgd⟩ := file_of_full h1 hf
    obtain ⟨m, hm⟩ := ih g hg (hgd.trans hok) (h2 ▸ hc)
    obtain ⟨f1, hr⟩ := flush_keeps_refines hm
    have := hr.file
    rw [hf] at this
    cases this
    exact ⟨m, hr⟩

/-- C1: in every state reachable from a successful `open` whose cache is
writable and has at least one slot, the file `f` open on a device that accepts
every write: any sequence of `write` calls followed by `flush()` leaves a file
that reads, at every offset, as the plain byte array obtained by the same
writes from the bytes the cache presented beforehand; and every offset covered
by some write lies inside the file and holds the byte supplied by the most
recent write covering it. -/
theorem write_flush_refines (K : CacheConstants) (s : CachedFileIO) (f : File)
    (hreach : Reachable K s) (hP : 0 < K.DEFAULT_CACHE_PAGE_SIZE)
    (hopen : s.fileHandler = some f) (hwritable : s.readOnly = false)
    (hslots : 0 < s.cachePagesCount) (hok : f.diskFull = false) (calls : List WriteCall) :
    ∃ f1,
      (flush K (writeAll K s calls)).1.fileHandler = some f1 ∧
      (∀ j, f1.byteAt j = plainWriteAll (contentAt K s f) calls j) ∧
      (∀ i b, lastWritten calls i = some b → i < f1.size ∧ f1.byte i = b) := by
  obtain ⟨m, hm⟩ := reachable_refines K s hreach f hopen hok hP hslots
  have h0 : Refines K s f (contentAt K s f) (fun _ => False) :=
    hm.mono (fun i => (hm.content i).symm) (fun _ hi => hi)
  obtain ⟨f1, W1, r1, _, r3⟩ := writeAll_refines calls s f _ _ h0 hwritable
  obtain ⟨f2, q1, q2, q3⟩ := flush_refines r1
  refine ⟨f2, q1, q2, fun i b hb => ?_⟩
  have hval := lastWrittenFrom_plain calls none (contentAt K s f) i b hb
    (fun b0 e => by cases e)
  have hin : i < f2.size := by
    rcases lastWrittenFrom_covered calls none i b hb with e | ⟨c, hc, h1, h2⟩
    · cases e
    · exact q3 i (r3 i c hc h1 h2)
  refine ⟨hin, ?_⟩
  have := q2 i
  rw [hval] at this
  unfold File.byteAt at this
  rw [if_pos hin] at this
  exact this

/-- C1 at a concrete input: a new file, `write(10, sevens, 5)` then
`write(12, nines, 1)`; after `flush()` offset 12 lies inside the file and
holds 9, offset 13 holds 7. -/
theorem write_flush_refines_witness :
    (Reachable sampleConstants freshCache ∧
      0 < sampleConstants.DEFAULT_CACHE_PAGE_SIZE ∧
      freshCache.fileHandler = some emptyFile ∧
      freshCache.readOnly = false ∧
      0 < freshCache.cachePagesCount ∧
      emptyFile.diskFull = false ∧
      lastWritten [⟨10, fun _ => 7, 5⟩, ⟨12, fun _ => 9, 1⟩] 12 = some 9 ∧
      lastWritten [⟨10, fun _ => 7, 5⟩, ⟨12, fun _ => 9, 1⟩] 13 = some 7) ∧
    ∃ f1,
      (flush sampleConstants (writeAll sampleConstants freshCache
        [⟨10, fun _ => 7, 5⟩, ⟨12, fun _ => 9, 1⟩])).1.fileHandler = some f1 ∧
      (12 < f1.size ∧ f1.byte 12 = 9) ∧ (13 < f1.size ∧ f1.byte 13 = 7) := by
  refine ⟨⟨Reachable.opened newCachedFile none (some emptyFile) 0 false (by decide),
    by decide, rfl, rfl, by decide, rfl, by decide, by decide⟩, ?_⟩
  obtain ⟨f1, h1, _, h3⟩ := write_flush_refines sampleConstants freshCache emptyFile
    (Reachable.opened newCachedFile none (some emptyFile) 0 false (by decide))
    (by decide) rfl rfl (by decide) rfl [⟨10, fun _ => 7, 5⟩, ⟨12, fun _ => 9, 1⟩]
  exact ⟨f1, h1, h3 12 9 (by decide), h3 13 7 (by decide)⟩

/-! ### Binary search in a leaf (C8) -/

theorem searchLoop_spec (C : IndexConstants) (keys : Nat → Nat) (key n : Nat)
    (hs : StrictlyAscending keys n) (hn : n < 2 ^ 31) (fuel : Nat) (start endIdx : Int)
    (h0 : 0 ≤ start) (h1 : -1 ≤ endIdx) (h2 : endIdx < n) (h3 : start ≤ endIdx + 1)
    (hfuel : endIdx - start + 1 < fuel)
    (hlo : ∀ i : Nat, i < n → (i : Int) < start → keys i < key)
    (hhi : ∀ i : Nat, i < n → endIdx < (i : Int) → key < keys i) :
    (∃ i, searchLoop C keys key fuel start endIdx = some i ∧ i < n ∧ keys i = key) ∨
    (searchLoop C keys key fuel start endIdx = some C.NOT_FOUND_KEY ∧
      ∀ i, i < n → keys i ≠ key) := by
  induction fuel generalizing start endIdx with
  | zero => omega
  | succ fuel ih =>
    unfold searchLoop
    by_cases hle : start ≤ endIdx
    · rw [if_pos hle]
      simp only
      have hmid : toUInt32 (start + (endIdx - start) / 2) = start + (endIdx - start) / 2 := by
        unfold toUInt32
        omega
      rw [hmid]
      obtain ⟨k, hk⟩ : ∃ k : Nat, (k : Int) = start + (endIdx - start) / 2 :=
        ⟨(start + (endIdx - start) / 2).toNat, by omega⟩
      rw [← hk]
      simp only [Int.toNat_ofNat]
      have hkn : k < n := by omega
      by_cases he : keys k = key
      · rw [if_pos he]
        exact Or.inl ⟨k, rfl, hkn, he⟩
      · rw [if_neg he]
        by_cases hlt : key < keys k
        · rw [if_pos hlt]
          have hend : toInt32 (toUInt32 ((k : Int) - 1)) = (k : Int) - 1 := by
            unfold toInt32 toUInt32
            omega
          rw [hend]
          apply ih
          · exact h0
          · omega
          · omega
          · omega
          · omega
          · exact hlo
          · intro i hi hik
            by_cases hik2 : i = k
            · subst hik2; exact hlt
            · exact lt_trans hlt (hs i hi k (by omega))
        · rw [if_neg hlt]
          have hgt : key > keys k := by omega
          rw [if_pos hgt]
          have hst : toInt32 ((k : Int) + 1) = (k : Int) + 1 := by
            unfold toInt32
            omega
          rw [hst]
          apply ih
          · omega
          · exact h1
          · exact h2
          · omega
          · omega
          · intro i hi hik
            by_cases hik2 : i = k
            · subst hik2; exact hgt
            · exact lt_trans (hs k hkn i (by omega)) hgt
          · exact hhi
    · rw [if_neg hle]
      refine Or.inr ⟨rfl, fun i hi he => ?_⟩
      by_cases hc : (i : Int) < start
      · have := hlo i hi hc
        omega
      · have := hhi i hi (by omega)
        omega

/-- C8: on a leaf whose first `keysCount` keys are strictly ascending (the
count below 2^31, so that it fits `int32_t`), `search` ends within
`keysCount + 1` iterations; it returns an index `i < keysCount` with
`keys[i] = key` when the key is among the keys, and `NOT_FOUND_KEY` when it is
absent. -/
theorem search_spec (C : IndexConstants) (node : LeafNode) (key : Nat)
    (hs : StrictlyAscending node.data.keys node.data.keysCount)
    (hn : node.data.keysCount < 2 ^ 31) :
    ((∃ i, i < node.data.keysCount ∧ node.data.keys i = key) →
      ∃ i, search C node key = some i ∧ i < node.data.keysCount ∧ node.data.keys i = key) ∧
    ((∀ i, i < node.data.keysCount → node.data.keys i ≠ key) →
      search C node key = some C.NOT_FOUND_KEY) := by
  have hend : toInt32 (toUInt32 ((node.data.keysCount : Int) - 1)) =
      (node.data.keysCount : Int) - 1 := by
    unfold toInt32 toUInt32
    omega
  have hmain := searchLoop_spec C node.data.keys key node.data.keysCount hs hn
    (node.data.keysCount + 1) 0 ((node.data.keysCount : Int) - 1) (le_refl _) (by omega)
    (by omega) (by omega) (by push_cast; omega) (fun i _ hi => by omega)
    (fun i hi hik => by omega)
  unfold search
  rw [hend]
  refine ⟨fun ⟨i, hi, he⟩ => ?_, fun habs => ?_⟩
  · rcases hmain with h | ⟨_, h⟩
    · exact h
    · exact absurd he (h i hi)
  · rcases hmain with ⟨i, _, hi, he⟩ | ⟨h, _⟩
    · exact absurd he (habs i hi)
    · exact h

/-- C8 at a concrete input: the leaf with keys 10, 20, 30; key 20 is found,
key 25 is reported absent. -/
theorem search_spec_witness :
    StrictlyAscending sampleLeaf.data.keys sampleLeaf.data.keysCount ∧
    sampleLeaf.data.keysCount < 2 ^ 31 ∧
    (∃ i, search sampleIndexConstants sampleLeaf 20 = some i ∧ i < sampleLeaf.data.keysCount ∧
      sampleLeaf.data.keys i = 20) ∧
    search sampleIndexConstants sampleLeaf 25 = some sampleIndexConstants.NOT_FOUND_KEY :=
  ⟨by unfold StrictlyAscending; decide, by decide,
    (search_spec sampleIndexConstants sampleLeaf 20 (by unfold StrictlyAscending; decide)
      (by decide)).1 ⟨1, by decide, by decide⟩,
    (search_spec sampleIndexConstants sampleLeaf 25 (by unfold StrictlyAscending; decide)
      (by decide)).2 (by decide)⟩

/-! ### Values of a leaf (C9) -/

theorem cString_cons (buffer : Nat → Nat) (k : Nat) :
    cString buffer (k + 1) =
      if buffer 0 ≠ 0 then buffer 0 :: cString (fun j => buffer (j + 1)) k else [] := by
  unfold cString
  rw [List.range_succ_eq_map, List.map_cons, List.map_map, List.takeWhile_cons]
  by_cases h : buffer 0 = 0
  · simp [h]
  · simp [h, Function.comp_def]

/-- A buffer that holds the bytes of `value`, none of them zero, and then a
zero byte, denotes `value`. -/
theorem cString_eq (value : List Nat) (buffer : Nat → Nat) (k : Nat)
    (h1 : ∀ j, j < value.length → buffer j = value.getD j 0)
    (h2 : buffer value.length = 0) (hk : value.length < k)
    (hnz : ∀ b, b ∈ value → b ≠ 0) : cString buffer k = value := by
  induction value generalizing buffer k with
  | nil =>
    obtain ⟨k1, rfl⟩ : ∃ k1, k = k1 + 1 := ⟨k - 1, by
      have : 0 < k := hk
      omega⟩
    rw [cString_cons]
    simp at h2
    simp [h2]
  | cons b vs ih =>
    obtain ⟨k1, rfl⟩ : ∃ k1, k = k1 + 1 := ⟨k - 1, by
      have : 0 < k := by
        have := hk
        simp at this
        omega
      omega⟩
    rw [cString_cons]
    have hb : buffer 0 = b := by
      have := h1 0 (by simp)
      simpa using this
    have hbnz : b ≠ 0 := hnz b (by simp)
    rw [hb, if_pos hbnz]
    congr 1
    apply ih
    · intro j hj
      have := h1 (j + 1) (by simp; omega)
      simpa using this
    · simpa using h2
    · simp at hk
      omega
    · intro x hx
      exact hnz x (by simp [hx])

theorem map_c_str_range (value : List Nat) :
    (List.range (value.length + 1)).map (c_str value) = value ++ [0] := by
  apply List.ext_getElem
  · simp
  · intro n h1 h2
    simp [c_str, List.getD_eq_getElem?_getD]
    rw [List.getElem?_eq_getElem h2]
    rfl

theorem getDataLength_eq (rf : RecordFileIO) (r : StoredRecord)
    (h : rf.records rf.position = some r) : getDataLength rf = r.payload.length := by
  unfold getDataLength
  rw [h]

theorem getRecordData_eq (C : IndexConstants) (rf : RecordFileIO) (buffer : Nat → Nat)
    (length : Nat) (r : StoredRecord) (h : rf.records rf.position = some r) :
    getRecordData C rf buffer length =
      (fun j => if j < min length r.payload.length then r.payload.getD j 0 else buffer j,
       rf.position) := by
  unfold getRecordData
  rw [h]

theorem getValueAt_overflow (C : IndexConstants) (node : LeafNode) (rf : RecordFileIO)
    (index : Nat) (r : StoredRecord)
    (hrec : rf.records (node.data.values index) = some r) (hpos : 0 < r.payload.length)
    (hlen : r.payload.length + 1 < 2 ^ 32) (hv : node.data.values index ≠ C.NOT_FOUND) :
    (getValueAt C node rf index).2 = ValueResult.overflow := by
  have hrec1 : (setPosition rf (node.data.values index)).records
      (setPosition rf (node.data.values index)).position = some r := hrec
  have hl := getDataLength_eq _ _ hrec1
  have e1 : (r.payload.length + 1) % 2 ^ 32 = r.payload.length + 1 := by
    apply Nat.mod_eq_of_lt
    omega
  have e2 : (r.payload.length + 1 + 2 ^ 32 - 1) % 2 ^ 32 = r.payload.length := by
    omega
  have hp : (setPosition rf (node.data.values index)).position = node.data.values index := rfl
  unfold getValueAt makeUniqueChar
  simp only
  rw [hl, e1, e2, getRecordData_eq C _ _ _ _ hrec1, hp]
  by_cases h1 : 1 < min (r.payload.length + 1) r.payload.length
  · rw [if_pos h1]
  · rw [if_neg h1, if_neg hv, if_pos (by omega)]

/-- C9 (the code at the failing input): for every string (its length below
2^32 - 2) and every index of a leaf whose value record exists in the record
store, `setValueAt` succeeds and stores the string with its terminator, and the
`getValueAt` that follows stores past the end of its one-byte buffer instead of
returning the string; the offsets are taken to differ from the sentinel
`NOT_FOUND`. Concretely, after `setValueAt(0, "a")` the call `getValueAt(0)`
overflows its buffer. -/
theorem setValueAt_getValueAt_overflows :
    (∀ (C : IndexConstants) (node : LeafNode) (rf : RecordFileIO) (index : Nat)
        (value : List Nat) (r : StoredRecord),
      rf.records (node.data.values index) = some r → value.length + 2 < 2 ^ 32 →
      node.data.values index ≠ C.NOT_FOUND → rf.endOfFile ≠ C.NOT_FOUND →
      ∃ node1 rf1, setValueAt C node rf index value = some (node1, rf1) ∧
        (rf1.records (node1.data.values index)).map (fun x => x.payload) =
          some (value ++ [0]) ∧
        (getValueAt C node1 rf1 index).2 = ValueResult.overflow) ∧
    (setValueAt sampleIndexConstants sampleLeaf sampleRecords 0 [97]).map
        (fun st => ((st.2.records (st.1.data.values 0)).map (fun x => x.payload),
          (getValueAt sampleIndexConstants st.1 st.2 0).2)) =
      some (some [97, 0], ValueResult.overflow) := by
  refine ⟨?_, by decide⟩
  intro C node rf index value r hrec hlen hv heof
  have e1 : (value.length + 1) % 2 ^ 32 = value.length + 1 := by
    apply Nat.mod_eq_of_lt
    omega
  unfold setValueAt
  simp only [setPosition, setRecordData, hrec, e1, map_c_str_range]
  by_cases hfit : value.length + 1 ≤ r.capacity
  · simp only [hfit, if_true]
    rw [if_neg hv]
    refine ⟨_, _, rfl, by simp, ?_⟩
    apply getValueAt_overflow C _ _ index { capacity := r.capacity, payload := value ++ [0] }
    · simp
    · simp
    · simp
      omega
    · simpa using hv
  · simp only [hfit, if_false]
    rw [if_neg heof]
    refine ⟨_, _, rfl, by simp, ?_⟩
    apply getValueAt_overflow C _ _ index
      { capacity := value.length + 1, payload := value ++ [0] }
    · simp
    · simp
    · simp
      omega
    · simpa using heof

/-! ### Insertion into a leaf (C10) -/

/-- C10 (the code at the failing input): `insertKey` changes neither the leaf
nor the record store, whatever the constants, the leaf, the key and the value:
`searchPlaceFor` is a stub returning `NOT_FOUND_KEY` and `insertAt` has an
empty body. On the leaf with keys 10, 20, 30 and key 15 it returns `true`,
yet the key count is still 3 and `search(15)` still reports the key absent. -/
theorem insertKey_inserts_nothing :
    (∀ (C : IndexConstants) (node : LeafNode) (recordsFile : RecordFileIO) (key : Nat)
        (value : List Nat),
      (insertKey C node recordsFile key value).1 = (node, recordsFile)) ∧
    (insertKey sampleIndexConstants sampleLeaf sampleRecords 15 [97]).2 = true ∧
    (insertKey sampleIndexConstants sampleLeaf sampleRecords 15 [97]).1.1.data.keysCount = 3 ∧
    search sampleIndexConstants
        (insertKey sampleIndexConstants sampleLeaf sampleRecords 15 [97]).1.1 15 =
      some sampleIndexConstants.NOT_FOUND_KEY := by
  refine ⟨fun C node recordsFile key value => ?_, by decide, by decide, by decide⟩
  unfold insertKey insertAt
  by_cases h : searchPlaceFor C node key = C.NOT_FOUND
  · simp [h]
  · simp [h]

/-! ### Deletion and split in a leaf (C11, C12) -/

/-- C11 (the code at the failing input): `deleteKey` returns `false` and
changes neither the leaf nor the record store, whatever the leaf and the key:
its body is `return false` and `deleteAt` has an empty body. On the leaf with
keys 10, 20, 30 and key 20, which the leaf contains at index 1, it returns
`false`, the key count is still 3 and `search(20)` still finds the key. -/
theorem deleteKey_deletes_nothing :
    (∀ (node : LeafNode) (recordsFile : RecordFileIO) (key : Nat),
      deleteKey node recordsFile key = ((node, recordsFile), false)) ∧
    search sampleIndexConstants sampleLeaf 20 = some 1 ∧
    (deleteKey sampleLeaf sampleRecords 20).2 = false ∧
    (deleteKey sampleLeaf sampleRecords 20).1.1.data.keysCount = 3 ∧
    search sampleIndexConstants (deleteKey sampleLeaf sampleRecords 20).1.1 20 = some 1 := by
  refine ⟨fun _ _ _ => rfl, by decide, by decide, by decide, by decide⟩

/-- C12 (the code at the failing input): `split` and `dealOverflow` return
`NOT_FOUND` and change neither the node nor the record store, whatever the
node: their bodies are `return NOT_FOUND`. On a leaf with five keys, more than
`MAX_DEGREE = 4`, `split` returns `NOT_FOUND`, no record is created, and the
leaf still overflows after `split` and after `dealOverflow`. -/
theorem split_splits_nothing :
    (∀ (C : IndexConstants) (node : LeafNode) (recordsFile : RecordFileIO),
      split C node recordsFile = ((node, recordsFile), C.NOT_FOUND) ∧
      dealOverflow C node recordsFile = ((node, recordsFile), C.NOT_FOUND)) ∧
    isOverflow sampleIndexConstants overflowingLeaf = true ∧
    (split sampleIndexConstants overflowingLeaf sampleRecords).2 =
      sampleIndexConstants.NOT_FOUND ∧
    (split sampleIndexConstants overflowingLeaf sampleRecords).1.2.endOfFile =
      sampleRecords.endOfFile ∧
    (split sampleIndexConstants overflowingLeaf sampleRecords).1.1.data.rightSibling = 0 ∧
    isOverflow sampleIndexConstants
      (split sampleIndexConstants overflowingLeaf sampleRecords).1.1 = true ∧
    isOverflow sampleIndexConstants
      (dealOverflow sampleIndexConstants overflowingLeaf sampleRecords).1.1 = true := by
  refine ⟨fun _ _ _ => ⟨rfl, rfl⟩, by decide, by decide, by decide, by decide, by decide,
    by decide⟩

/-! ### Occupancy of a node (C18, C19) -/

/-- C18: `canLendAKey` is true exactly when `keysCount > MIN_DEGREE`; and a
node that can lend a key does not underflow once its key count is one less. -/
theorem canLendAKey_spec (C : IndexConstants) (node : Node) :
    (canLendAKey C node = true ↔ node.data.keysCount > C.MIN_DEGREE) ∧
    (canLendAKey C node = true →
      isUnderflow C
        { node with data := { node.data with keysCount := node.data.keysCount - 1 } } =
        false) := by
  unfold canLendAKey isUnderflow
  refine ⟨by simp, fun h => ?_⟩
  have h1 : node.data.keysCount > C.MIN_DEGREE := by simpa using h
  have h2 : ¬ node.data.keysCount - 1 < C.MIN_DEGREE := by omega
  simp [h2]

/-- C18 at a concrete input: the leaf of three keys, with `MIN_DEGREE = 2`, can
lend a key and does not underflow with two keys. -/
theorem canLendAKey_spec_witness :
    canLendAKey sampleIndexConstants sampleLeaf = true ∧
    isUnderflow sampleIndexConstants
      { sampleLeaf with
          data := { sampleLeaf.data with keysCount := sampleLeaf.data.keysCount - 1 } } =
      false :=
  ⟨by decide, (canLendAKey_spec sampleIndexConstants sampleLeaf).2 (by decide)⟩

/-- C19: provided `MIN_DEGREE <= MAX_DEGREE`, a node is in exactly one of the
three states underflowing, overflowing, within bounds (neither); in
particular `isOverflow` and `isUnderflow` are never both true. -/
theorem occupancy_states (C : IndexConstants) (node : Node)
    (h : C.MIN_DEGREE ≤ C.MAX_DEGREE) :
    ¬(isOverflow C node = true ∧ isUnderflow C node = true) ∧
    ((isUnderflow C node = true ∧ isOverflow C node = false) ∨
      (isUnderflow C node = false ∧ isOverflow C node = true) ∨
      (isUnderflow C node = false ∧ isOverflow C node = false)) := by
  unfold isOverflow isUnderflow
  by_cases h1 : node.data.keysCount > C.MAX_DEGREE
  · have h2 : ¬ node.data.keysCount < C.MIN_DEGREE := by omega
    simp [h1, h2]
  · by_cases h2 : node.data.keysCount < C.MIN_DEGREE
    · simp [h1, h2]
    · simp [h1, h2]

/-- C19 at concrete inputs: with `MIN_DEGREE = 2` and `MAX_DEGREE = 4` the
leaf of three keys is within bounds and the leaf of five keys overflows. -/
theorem occupancy_states_witness :
    sampleIndexConstants.MIN_DEGREE ≤ sampleIndexConstants.MAX_DEGREE ∧
    ¬(isOverflow sampleIndexConstants sampleLeaf = true ∧
      isUnderflow sampleIndexConstants sampleLeaf = true) ∧
    (isUnderflow sampleIndexConstants sampleLeaf = false ∧
      isOverflow sampleIndexConstants sampleLeaf = false) ∧
    (isUnderflow sampleIndexConstants overflowingLeaf = false ∧
      isOverflow sampleIndexConstants overflowingLeaf = true) :=
  ⟨by decide, (occupancy_states sampleIndexConstants sampleLeaf (by decide)).1, by decide,
    by decide⟩

/-! ### The number of slots (C15) -/

/-- C15: after a successful `open` the number of cache slots is
`max(cacheSize, MINIMAL_CACHE_SIZE) / DEFAULT_CACHE_PAGE_SIZE`, the quotient
of the division of natural numbers. -/
theorem openFile_slot_count (K : CacheConstants) (s0 : CachedFileIO)
    (existing created : Option File) (cacheSize : Nat) (isReadOnly : Bool)
    (h : (openFile K s0 existing created cacheSize isReadOnly).2 = true) :
    (openFile K s0 existing created cacheSize isReadOnly).1.cachePagesCount =
      max cacheSize K.MINIMAL_CACHE_SIZE / K.DEFAULT_CACHE_PAGE_SIZE := by
  have key : (if cacheSize < K.MINIMAL_CACHE_SIZE then K.MINIMAL_CACHE_SIZE else cacheSize) =
      max cacheSize K.MINIMAL_CACHE_SIZE := by
    by_cases hc : cacheSize < K.MINIMAL_CACHE_SIZE
    · rw [if_pos hc]; omega
    · rw [if_neg hc]; omega
  revert h
  unfold openFile
  cases existing with
  | some f => simp [key]
  | none =>
    cases isReadOnly with
    | true => simp
    | false =>
      cases created with
      | none => simp
      | some f => simp [key]

/-- C15 at concrete inputs: with pages of 8192 bytes and a minimal cache of
262144 bytes, a request for no cache gives 32 slots and a request for one
million bytes gives 122. -/
theorem openFile_slot_count_witness :
    (openFile sampleConstants newCachedFile none (some emptyFile) 0 false).2 = true ∧
    (openFile sampleConstants newCachedFile none (some emptyFile) 0 false).1.cachePagesCount =
      max 0 sampleConstants.MINIMAL_CACHE_SIZE / sampleConstants.DEFAULT_CACHE_PAGE_SIZE ∧
    (openFile sampleConstants newCachedFile none (some emptyFile) 0 false).1.cachePagesCount =
      32 ∧
    (openFile sampleConstants newCachedFile (some sampleFile) none 1000000
      true).1.cachePagesCount = 122 :=
  ⟨by decide,
    openFile_slot_count sampleConstants newCachedFile none (some emptyFile) 0 false
      (by decide),
    by decide, by decide⟩

/-! ### A failed write on eviction (C14) -/

/-- C14 (the code at the failing input): all 32 slots hold `DIRTY` pages of
sevens over a 34-page file of ones on a device that accepts no write. A
`write` of 5 bytes to page 32 must evict page 0; the write of that page
fails, yet the call returns 5, the slot is reused, and the sevens of page 0
are neither in the cache nor in the file. A `read` of 4 bytes of page 32
returns 4 in the same way. -/
theorem eviction_failure_not_reported :
    (∀ i, i < 32 →
      ((filledCacheOn fullDiskDataFile).cachePagesInfo i).state = PageState.DIRTY) ∧
    residentSlot (filledCacheOn fullDiskDataFile) 0 = some 0 ∧
    (filledCacheOn fullDiskDataFile).cachePagesData 0 0 = 7 ∧
    (write sampleConstants (filledCacheOn fullDiskDataFile) 262144 (some (fun _ => 9)) 5).2 =
      5 ∧
    residentSlot
      (write sampleConstants (filledCacheOn fullDiskDataFile) 262144 (some (fun _ => 9))
        5).1 0 = none ∧
    ((write sampleConstants (filledCacheOn fullDiskDataFile) 262144 (some (fun _ => 9))
      5).1.fileHandler.map fun f => f.byteAt 0) = some 1 ∧
    ((write sampleConstants (filledCacheOn fullDiskDataFile) 262144 (some (fun _ => 9))
      5).1.cachePagesInfo 0).filePageNo = 32 ∧
    (read sampleConstants (filledCacheOn fullDiskDataFile) 262144 (some (fun _ => 0)) 4).2.2 =
      4 := by
  decide

/-! ### The count a write returns (C16) -/

theorem isSome_of_full {a b : Option File}
    (h : a.map File.diskFull = b.map File.diskFull) (hb : b.isSome = true) :
    a.isSome = true := by
  cases a with
  | some f => rfl
  | none =>
    cases b with
    | none => cases hb
    | some g => simp at h

/-- With the file open, the lookup of `read` and `write` delivers a slot and
leaves the file open. -/
theorem lookupOrLoad_open (K : CacheConstants) (s : CachedFileIO) (p : Nat)
    (h : s.fileHandler.isSome = true) :
    (∃ idx, (lookupOrLoad K s p).2 = some idx) ∧
    (lookupOrLoad K s p).1.fileHandler.isSome = true := by
  refine ⟨?_, isSome_of_full (lookupOrLoad_full K s p).1 h⟩
  cases hscan : scanSlots (holdsPage s p) s.cachePagesCount 0 with
  | some i =>
    rw [lookupOrLoad_hit K s p i hscan]
    exact ⟨i, rfl⟩
  | none =>
    rw [lookupOrLoad_miss K s p hscan]
    obtain ⟨f, hf⟩ := Option.isSome_iff_exists.mp h
    have hf' : ({ s with cacheRequests := s.cacheRequests + 1,
                         cacheMisses := s.cacheMisses + 1 } : CachedFileIO).fileHandler =
        some f := hf
    obtain ⟨f1, hf1⟩ := getFreeCachePageIndex_open K
      (ageCachePages { s with cacheRequests := s.cacheRequests + 1,
                              cacheMisses := s.cacheMisses + 1 }) f hf'
    rw [loadPageToCache_eq K _ p f f1 hf' hf1]
    exact ⟨_, rfl⟩

/-- With the file open, the page loop of `write` returns `length`, and the
byte counts of the pages still to come add up to what is left of `length`. -/
theorem writeLoop_count (K : CacheConstants) (position length : Nat) (src : Nat → Nat)
    (hP : 0 < K.DEFAULT_CACHE_PAGE_SIZE) (n filePage : Nat) (s : CachedFileIO)
    (bytesWritten : Nat) (hopen : s.fileHandler.isSome = true)
    (hn : filePage + n = (position + length) / K.DEFAULT_CACHE_PAGE_SIZE + 1)
    (h1 : position / K.DEFAULT_CACHE_PAGE_SIZE ≤ filePage)
    (h3 : filePage = position / K.DEFAULT_CACHE_PAGE_SIZE → bytesWritten = 0)
    (h4 : position / K.DEFAULT_CACHE_PAGE_SIZE < filePage →
      filePage ≤ (position + length) / K.DEFAULT_CACHE_PAGE_SIZE →
      position + bytesWritten = filePage * K.DEFAULT_CACHE_PAGE_SIZE)
    (h5 : filePage = (position + length) / K.DEFAULT_CACHE_PAGE_SIZE + 1 →
      bytesWritten = length) :
    (writeLoop K position length (position / K.DEFAULT_CACHE_PAGE_SIZE)
      ((position + length) / K.DEFAULT_CACHE_PAGE_SIZE) src n filePage s bytesWritten).2 =
      length ∧
    bytesWritten +
      (writeCountsLoop K position length (position / K.DEFAULT_CACHE_PAGE_SIZE)
        ((position + length) / K.DEFAULT_CACHE_PAGE_SIZE) n filePage bytesWritten).sum =
      length := by
  induction n generalizing filePage s bytesWritten with
  | zero =>
    have hb := h5 (by omega)
    subst hb
    exact ⟨rfl, by simp [writeCountsLoop]⟩
  | succ n ih =>
    have hle : filePage ≤ (position + length) / K.DEFAULT_CACHE_PAGE_SIZE := by omega
    obtain ⟨⟨idx, hl⟩, hopen1⟩ := lookupOrLoad_open K s filePage hopen
    obtain ⟨_, _, a3, a4⟩ := writeSpan_arith K position length filePage bytesWritten
      hP h1 hle h3 (fun hh => h4 hh hle)
    unfold writeLoop writeCountsLoop
    rw [writePage_of_lookup K position length _ _ src filePage s bytesWritten idx hl]
    simp only
    obtain ⟨r1, r2⟩ := ih (filePage + 1)
      (copyToCachePage (lookupOrLoad K s filePage).1 idx
        (writeSpan K position length (position / K.DEFAULT_CACHE_PAGE_SIZE)
          ((position + length) / K.DEFAULT_CACHE_PAGE_SIZE) filePage bytesWritten).1 src
        bytesWritten
        (writeSpan K position length (position / K.DEFAULT_CACHE_PAGE_SIZE)
          ((position + length) / K.DEFAULT_CACHE_PAGE_SIZE) filePage bytesWritten).2)
      (bytesWritten +
        (writeSpan K position length (position / K.DEFAULT_CACHE_PAGE_SIZE)
          ((position + length) / K.DEFAULT_CACHE_PAGE_SIZE) filePage bytesWritten).2)
      (by rw [(copyToCachePage_fields _ _ _ _ _ _).2.1]; exact hopen1)
      (by omega) (by omega) (fun hh => by omega) (fun _ hh => a3 (by omega))
      (fun hh => a4 (by omega))
    refine ⟨r1, ?_⟩
    rw [List.sum_cons]
    omega

/-- The byte count of a page that is neither the first nor the last of the
write is the page size. -/
theorem writeCountsLoop_middle (K : CacheConstants)
    (position length firstPageNo lastPageNo : Nat) (n filePage bytesWritten k : Nat)
    (hk : k < n) (hf : filePage + k ≠ firstPageNo) (hl : filePage + k ≠ lastPageNo) :
    (writeCountsLoop K position length firstPageNo lastPageNo n filePage bytesWritten).getD k
      0 = K.DEFAULT_CACHE_PAGE_SIZE := by
  induction n generalizing filePage bytesWritten k with
  | zero => omega
  | succ n ih =>
    unfold writeCountsLoop
    cases k with
    | zero =>
      simp only [List.getD_cons_zero]
      unfold writeSpan
      rw [if_neg (by simpa using hf), if_neg (by simpa using hl)]
    | succ k =>
      simp only [List.getD_cons_succ]
      exact ih (filePage + 1) _ k (by omega) (by omega) (by omega)

theorem writeCountsLoop_length (K : CacheConstants)
    (position length firstPageNo lastPageNo : Nat) (n filePage bytesWritten : Nat) :
    (writeCountsLoop K position length firstPageNo lastPageNo n filePage bytesWritten).length =
      n := by
  induction n generalizing filePage bytesWritten with
  | zero => rfl
  | succ n ih =>
    unfold writeCountsLoop
    rw [List.length_cons, ih]

/-! ### The layout of the headers (C17) -/

theorem dvd_four_cases (a : Nat) (h : a ∣ 4) : a = 1 ∨ a = 2 ∨ a = 4 := by
  have hle : a ≤ 4 := Nat.le_of_dvd (by decide) h
  interval_cases a
  · simp at h
  · exact Or.inl rfl
  · exact Or.inr (Or.inl rfl)
  · exfalso
    revert h
    decide
  · exact Or.inr (Or.inr rfl)

theorem dvd_eight_cases (a : Nat) (h : a ∣ 8) : a = 1 ∨ a = 2 ∨ a = 4 ∨ a = 8 := by
  have hle : a ≤ 8 := Nat.le_of_dvd (by decide) h
  interval_cases a
  · simp at h
  · exact Or.inl rfl
  · exact Or.inr (Or.inl rfl)
  · exfalso; revert h; decide
  · exact Or.inr (Or.inr (Or.inl rfl))
  · exfalso; revert h; decide
  · exfalso; revert h; decide
  · exfalso; revert h; decide
  · exact Or.inr (Or.inr (Or.inr rfl))

/-- C17: whatever alignment the compiler gives the 4-byte and the 8-byte
integers, as long as it divides their width, the fields of `StorageHeader`
lie at the offsets 0, 8, 12, 16, 24, 32, 40, 48, 56 and the struct is 64
bytes, the sum of the widths of its fields, so that it has no padding; the
fields of `RecordHeader` lie at 0, 8, 16, 24, 28, 32, 36 and the struct is 40
bytes, again the sum of the widths. -/
theorem header_layout (alignOf : Nat → Nat) (h4 : alignOf 4 ∣ 4) (h8 : alignOf 8 ∣ 8) :
    fieldOffsets alignOf storageHeaderFields 0 = [0, 8, 12, 16, 24, 32, 40, 48, 56] ∧
    structSize alignOf storageHeaderFields = 64 ∧
    storageHeaderFields.sum = 64 ∧
    fieldOffsets alignOf recordHeaderFields 0 = [0, 8, 16, 24, 28, 32, 36] ∧
    structSize alignOf recordHeaderFields = 40 ∧
    recordHeaderFields.sum = 40 := by
  have e4 := dvd_four_cases _ h4
  have e8 := dvd_eight_cases _ h8
  simp only [storageHeaderFields, recordHeaderFields, fieldOffsets, fieldsEnd, structSize,
    List.map_cons, List.map_nil, List.foldl_cons, List.foldl_nil, List.sum_cons, List.sum_nil]
  rcases e4 with e4 | e4 | e4 <;> rcases e8 with e8 | e8 | e8 | e8 <;> rw [e4, e8] <;> decide

/-- C17 at a concrete input: every integer aligned to its own width. -/
theorem header_layout_witness :
    ((fun w : Nat => w) 4 ∣ 4 ∧ (fun w : Nat => w) 8 ∣ 8) ∧
    structSize (fun w => w) storageHeaderFields = 64 ∧
    structSize (fun w => w) recordHeaderFields = 40 :=
  ⟨⟨by decide, by decide⟩, (header_layout (fun w => w) (by decide) (by decide)).2.1,
    (header_layout (fun w => w) (by decide) (by decide)).2.2.2.2.1⟩

/-! ### A value too long for the length field (C13) -/

theorem setRecordData_eq (C : IndexConstants) (rf : RecordFileIO) (data : Nat → Nat)
    (length : Nat) (r : StoredRecord) (h : rf.records rf.position = some r)
    (hfit : length ≤ r.capacity) :
    setRecordData C rf data length =
      ({ rf with
          records := fun o =>
            if o = rf.position then
              some { capacity := r.capacity, payload := (List.range length).map data }
            else rf.records o },
       rf.position) := by
  unfold setRecordData
  rw [h]
  simp only
  rw [if_pos hfit]

/-- A value of 2^32 bytes is stored as a record of one byte, the first byte of
the value: the length `2^32 + 1` is reduced modulo 2^32. -/
theorem setValueAt_wraps (C : IndexConstants) (node : LeafNode) (rf : RecordFileIO)
    (index : Nat) (value : List Nat) (r : StoredRecord)
    (hrec : rf.records (node.data.values index) = some r) (hlen : value.length = 2 ^ 32)
    (hcap : 1 ≤ r.capacity) (hv : node.data.values index ≠ C.NOT_FOUND) :
    ∃ node1 rf1, setValueAt C node rf index value = some (node1, rf1) ∧
      node1.isPersisted = false ∧
      (rf1.records (node.data.values index)).map (fun x => x.payload) =
        some [value.getD 0 0] := by
  have hrec1 : (setPosition rf (node.data.values index)).records
      (setPosition rf (node.data.values index)).position = some r := hrec
  have hmod : (value.length + 1) % 2 ^ 32 = 1 := by
    rw [hlen]
    decide
  have hp : (setPosition rf (node.data.values index)).position = node.data.values index := rfl
  have hc : c_str value 0 = value.getD 0 0 := by
    unfold c_str
    cases value with
    | nil => simp at hlen
    | cons b vs => simp
  unfold setValueAt
  simp only
  rw [hmod, setRecordData_eq C _ _ 1 r hrec1 hcap, hp, if_neg hv]
  refine ⟨_, _, rfl, rfl, ?_⟩
  have hr : (List.range 1).map (c_str value) = [value.getD 0 0] := by
    rw [← hc]
    rfl
  simp only [if_true, Option.map_some']
  rw [hr]

/-- C13 (the code at the failing input): a value of 2^32 bytes 65, whose
length with the terminator does not fit 32 bits, is not rejected: `setValueAt`
succeeds, stores a record of the single byte 65 (the length `2^32 + 1` reduced
modulo 2^32 is 1) and marks the node as changed. -/
theorem setValueAt_stores_wrapped_length :
    (List.replicate (2 ^ 32) 65).length + 1 > 2 ^ 32 - 1 ∧
    sampleLeaf.isPersisted = true ∧
    (sampleRecords.records (sampleLeaf.data.values 0)).map (fun x => x.payload) = some [0] ∧
    ∃ node1 rf1,
      setValueAt sampleIndexConstants sampleLeaf sampleRecords 0 (List.replicate (2 ^ 32) 65) =
        some (node1, rf1) ∧
      node1.isPersisted = false ∧
      (rf1.records (sampleLeaf.data.values 0)).map (fun x => x.payload) = some [65] := by
  have hlen : (List.replicate (2 ^ 32) 65).length = 2 ^ 32 := List.length_replicate _ _
  refine ⟨by rw [hlen]; decide, rfl, by decide, ?_⟩
  obtain ⟨node1, rf1, h1, h2, h3⟩ := setValueAt_wraps sampleIndexConstants sampleLeaf
    sampleRecords 0 (List.replicate (2 ^ 32) 65) { capacity := 16, payload := [0] } rfl hlen
    (by decide) (by decide)
  refine ⟨node1, rf1, h1, h2, ?_⟩
  rw [h3]
  have : (List.replicate (2 ^ 32) 65).getD 0 0 = 65 := by
    rw [List.getD_eq_getElem?_getD, List.getElem?_replicate]
    simp
  rw [this]

/-! ### The persisted flag of a node (C20) -/

/-- Where `setRecordData` succeeds, the record at the offset it returns holds
the bytes given. -/
theorem setRecordData_stored (C : IndexConstants) (rf : RecordFileIO) (data : Nat → Nat)
    (length : Nat) (h : (setRecordData C rf data length).2 ≠ C.NOT_FOUND) :
    ((setRecordData C rf data length).1.records (setRecordData C rf data length).2).map
        (fun r => r.payload) = some ((List.range length).map data) := by
  unfold setRecordData at h ⊢
  cases hr : rf.records rf.position with
  | none =>
    rw [hr] at h
    exact absurd rfl h
  | some r =>
    simp only
    by_cases hfit : length ≤ r.capacity
    · rw [if_pos hfit]
      simp
    · rw [if_neg hfit]
      simp

theorem Synced_of_not_persisted (L : NodeLayout) (st : Node × RecordFileIO)
    (h : st.1.isPersisted = false) : Synced L st := by
  intro hp
  rw [h] at hp
  cases hp

theorem applyNodeOp_setKeyAt (C : IndexConstants) (L : NodeLayout) (st : Node × RecordFileIO)
    (index key : Nat) :
    applyNodeOp C L st (NodeOp.setKeyAt index key) = (setKeyAt st.1 index key, st.2) := rfl

theorem applyNodeOp_setValueAt (C : IndexConstants) (L : NodeLayout)
    (st : Node × RecordFileIO) (index : Nat) (value : List Nat) :
    applyNodeOp C L st (NodeOp.setValueAt index value) =
      (setValueAt C st.1 st.2 index value).getD st := rfl

theorem applyNodeOp_persist (C : IndexConstants) (L : NodeLayout) (st : Node × RecordFileIO) :
    applyNodeOp C L st NodeOp.persist = (persist C L st.1 st.2).getD st := rfl

theorem setValueAt_some (C : IndexConstants) (node : LeafNode) (recordsFile : RecordFileIO)
    (index : Nat) (value : List Nat) (st1 : LeafNode × RecordFileIO)
    (h : setValueAt C node recordsFile index value = some st1) :
    st1.1.isPersisted = false := by
  unfold setValueAt at h
  simp only at h
  by_cases hn : (setRecordData C (setPosition recordsFile (node.data.values index))
      (c_str value) ((value.length + 1) % 2 ^ 32)).2 = C.NOT_FOUND
  · rw [if_pos hn] at h
    cases h
  · rw [if_neg hn] at h
    cases h
    rfl

theorem persist_some (C : IndexConstants) (L : NodeLayout) (node : Node)
    (recordsFile : RecordFileIO) (st1 : Node × RecordFileIO)
    (h : persist C L node recordsFile = some st1) :
    st1.1.data = node.data ∧ st1.1.isPersisted = true ∧
    (st1.2.records st1.1.position).map (fun r => r.payload) =
      some ((List.range L.sizeofNodeData).map (L.toBytes node.data)) := by
  unfold persist at h
  simp only at h
  by_cases hn : (setRecordData C (setPosition recordsFile node.position)
      (L.toBytes node.data) L.sizeofNodeData).2 = C.NOT_FOUND
  · rw [if_pos hn] at h
    cases h
  · rw [if_neg hn] at h
    cases h
    exact ⟨rfl, rfl, setRecordData_stored C _ _ _ hn⟩

/-- Each call keeps the node in step with its record. -/
theorem applyNodeOp_synced (C : IndexConstants) (L : NodeLayout) (st : Node × RecordFileIO)
    (op : NodeOp) (h : Synced L st) : Synced L (applyNodeOp C L st op) := by
  cases op with
  | setKeyAt index key =>
    rw [applyNodeOp_setKeyAt]
    unfold setKeyAt
    by_cases hi : index ≥ st.1.data.keysCount
    · rw [if_pos hi]
      exact h
    · rw [if_neg hi]
      exact Synced_of_not_persisted L _ rfl
  | setParent p => exact Synced_of_not_persisted L _ rfl
  | setLeftSibling p => exact Synced_of_not_persisted L _ rfl
  | setRightSibling p => exact Synced_of_not_persisted L _ rfl
  | setValueAt index value =>
    rw [applyNodeOp_setValueAt]
    cases hs : setValueAt C st.1 st.2 index value with
    | none => exact h
    | some st1 => exact Synced_of_not_persisted L _ (setValueAt_some C _ _ _ _ st1 hs)
  | persist =>
    rw [applyNodeOp_persist]
    cases hs : persist C L st.1 st.2 with
    | none => exact h
    | some st1 =>
      obtain ⟨h1, _, h3⟩ := persist_some C L _ _ st1 hs
      intro _
      simp only [Option.getD_some]
      rw [h1]
      exact h3

theorem applyNodeOps_synced (C : IndexConstants) (L : NodeLayout) (ops : List NodeOp)
    (st : Node × RecordFileIO) (h : Synced L st) : Synced L (applyNodeOps C L st ops) := by
  induction ops generalizing st with
  | nil => exact h
  | cons op ops ih => exact ih _ (applyNodeOp_synced C L st op h)

theorem nodeCreate_synced (C : IndexConstants) (L : NodeLayout) (recordFile : RecordFileIO)
    (type : NodeType) (st : Node × RecordFileIO)
    (h : nodeCreate C L recordFile type = some st) : Synced L st := by
  unfold nodeCreate at h
  simp only at h
  by_cases hn : (createRecord recordFile (L.toBytes (zeroNodeData type))
      L.sizeofNodeData).2 = C.NOT_FOUND
  · rw [if_pos hn] at h
    cases h
  · rw [if_neg hn] at h
    cases h
    intro _
    simp [createRecord]

theorem nodeLoad_synced (C : IndexConstants) (L : NodeLayout)
    (hL : ∀ d buf, (∀ j, j < L.sizeofNodeData → buf j = L.toBytes d j) →
      ∀ j, j < L.sizeofNodeData → L.toBytes (L.ofBytes buf) j = L.toBytes d j)
    (recordsFile : RecordFileIO) (memory : Nat → Nat) (offsetInFile : Nat) (d0 : NodeData)
    (r : StoredRecord) (st : Node × RecordFileIO)
    (hrec : recordsFile.records offsetInFile = some r)
    (hpay : r.payload = (List.range L.sizeofNodeData).map (L.toBytes d0))
    (h : nodeLoad C L recordsFile memory offsetInFile = some st) : Synced L st := by
  have hrec1 : (setPosition recordsFile offsetInFile).records
      (setPosition recordsFile offsetInFile).position = some r := hrec
  unfold nodeLoad at h
  simp only at h
  rw [getRecordData_eq C _ _ _ r hrec1] at h
  simp only at h
  by_cases hn : (setPosition recordsFile offsetInFile).position = C.NOT_FOUND
  · rw [if_pos hn] at h
    cases h
  · rw [if_neg hn] at h
    cases h
    intro _
    simp only [setPosition, hrec, Option.map_some']
    rw [hpay]
    congr 1
    apply List.map_congr_left
    intro j hj
    have hj' : j < L.sizeofNodeData := List.mem_range.mp hj
    symm
    apply hL d0 _ _ j hj'
    intro i hi
    have hlen : ((List.range L.sizeofNodeData).map (L.toBytes d0)).length =
        L.sizeofNodeData := by simp
    rw [hlen, if_pos (by omega), List.getD_eq_getElem?_getD,
      List.getElem?_eq_getElem (by rw [hlen]; exact hi)]
    simp

/-- C20: a node made by the constructor, or loaded from the record of a node,
and then taken through any sequence of `setKeyAt`, `setParent`,
`setLeftSibling`, `setRightSibling`, `setValueAt` and `persist` is, whenever
its flag `isPersisted` is true, exactly what the record at its position holds;
and a call that changes the node's data leaves the flag false. The memory
image of the node data is taken to be read back as written. -/
theorem node_synced (C : IndexConstants) (L : NodeLayout)
    (hL : ∀ d buf, (∀ j, j < L.sizeofNodeData → buf j = L.toBytes d j) →
      ∀ j, j < L.sizeofNodeData → L.toBytes (L.ofBytes buf) j = L.toBytes d j) :
    (∀ recordFile type st, nodeCreate C L recordFile type = some st →
      ∀ ops, Synced L (applyNodeOps C L st ops)) ∧
    (∀ recordsFile memory offsetInFile d0 r st,
      recordsFile.records offsetInFile = some r →
      r.payload = (List.range L.sizeofNodeData).map (L.toBytes d0) →
      nodeLoad C L recordsFile memory offsetInFile = some st →
      ∀ ops, Synced L (applyNodeOps C L st ops)) ∧
    (∀ st op, (applyNodeOp C L st op).1.data ≠ st.1.data →
      (applyNodeOp C L st op).1.isPersisted = false) := by
  refine ⟨fun recordFile type st h ops => ?_, fun recordsFile memory offsetInFile d0 r st
    hrec hpay h ops => ?_, fun st op hne => ?_⟩
  · exact applyNodeOps_synced C L ops st (nodeCreate_synced C L recordFile type st h)
  · exact applyNodeOps_synced C L ops st
      (nodeLoad_synced C L hL recordsFile memory offsetInFile d0 r st hrec hpay h)
  · cases op with
    | setKeyAt index key =>
      rw [applyNodeOp_setKeyAt] at hne ⊢
      unfold setKeyAt at hne ⊢
      by_cases hi : index ≥ st.1.data.keysCount
      · rw [if_pos hi] at hne
        exact absurd rfl hne
      · rw [if_neg hi]
    | setParent p => rfl
    | setLeftSibling p => rfl
    | setRightSibling p => rfl
    | setValueAt index value =>
      rw [applyNodeOp_setValueAt] at hne ⊢
      cases hs : setValueAt C st.1 st.2 index value with
      | none =>
        rw [hs] at hne
        exact absurd rfl hne
      | some st1 => exact setValueAt_some C _ _ _ _ st1 hs
    | persist =>
      exfalso
      apply hne
      rw [applyNodeOp_persist]
      cases hs : persist C L st.1 st.2 with
      | none => rfl
      | some st1 => exact (persist_some C L _ _ st1 hs).1

theorem sampleLayout_reads_back (d : NodeData) (buf : Nat → Nat)
    (h : ∀ j, j < sampleLayout.sizeofNodeData → buf j = sampleLayout.toBytes d j) (j : Nat)
    (hj : j < sampleLayout.sizeofNodeData) :
    sampleLayout.toBytes (sampleLayout.ofBytes buf) j = sampleLayout.toBytes d j := by
  have h0 := h 0 (by decide)
  have h1 := h 1 (by decide)
  have h2 := h 2 (by decide)
  have h3 := h 3 (by decide)
  have h4 := h 4 (by decide)
  have h5 := h 5 (by decide)
  have h6 := h 6 (by decide)
  have h7 := h 7 (by decide)
  have hj8 : j < 8 := hj
  simp only [sampleLayout] at h0 h1 h2 h3 h4 h5 h6 h7 ⊢
  interval_cases j
  · cases hd : d.nodeType <;> simp [hd] at h0 ⊢ <;> simp [h0]
  · simpa using h1
  · simpa using h2
  · simpa using h3
  · simpa using h4
  · simpa using h5
  · simpa using h6
  · simpa using h7

/-- C20 at a concrete input: a leaf created in `sampleRecords`, then
`setParent(7)`, which clears the flag, and `persist()`, after which the record
at the leaf's position holds the leaf's data with the parent 7. -/
theorem node_synced_witness :
    nodeCreate sampleIndexConstants sampleLayout sampleRecords NodeType.LEAF =
      some createdLeaf ∧
    Synced sampleLayout
      (applyNodeOps sampleIndexConstants sampleLayout createdLeaf
        [NodeOp.setParent 7, NodeOp.persist]) ∧
    (applyNodeOps sampleIndexConstants sampleLayout createdLeaf
      [NodeOp.setParent 7]).1.isPersisted = false ∧
    (applyNodeOps sampleIndexConstants sampleLayout createdLeaf
      [NodeOp.setParent 7, NodeOp.persist]).1.isPersisted = true ∧
    ((applyNodeOps sampleIndexConstants sampleLayout createdLeaf
      [NodeOp.setParent 7, NodeOp.persist]).2.records 400).map (fun r => r.payload) =
      some [1, 0, 0, 0, 0, 0, 7, 0] :=
  ⟨rfl,
    (node_synced sampleIndexConstants sampleLayout sampleLayout_reads_back).1 sampleRecords
      NodeType.LEAF createdLeaf rfl [NodeOp.setParent 7, NodeOp.persist],
    by decide, by decide, by decide⟩

/-! ### Properties of the slot descriptions kept by every operation -/

theorem freeCachePage_info (K : CacheConstants) (s : CachedFileIO) (m i : Nat) :
    (freeCachePage K s m).1.cachePagesInfo i = s.cachePagesInfo i ∨
    (freeCachePage K s m).1.cachePagesInfo i =
      { state := PageState.FREE, age := 0, filePageNo := K.PAGE_NOT_FOUND,
        availableDataLength := 0 } := by
  have hp := (persistCachePage_fields K s m).1
  unfold freeCachePage
  simp only
  by_cases hd : (s.cachePagesInfo m).state = PageState.DIRTY
  · rw [if_pos hd]
    by_cases hr : (persistCachePage K s m).2 = true
    · rw [if_pos hr]
      simp only [hp]
      by_cases hi : i = m
      · right
        rw [if_pos hi]
      · left
        rw [if_neg hi]
    · rw [if_neg hr]
      left
      rw [hp]
  · rw [if_neg hd]
    simp only
    by_cases hi : i = m
    · right
      rw [if_pos hi]
    · left
      rw [if_neg hi]

theorem getFreeCachePageIndex_info (K : CacheConstants) (s : CachedFileIO) (i : Nat) :
    (getFreeCachePageIndex K s).1.cachePagesInfo i = s.cachePagesInfo i ∨
    (getFreeCachePageIndex K s).1.cachePagesInfo i =
      { state := PageState.FREE, age := 0, filePageNo := K.PAGE_NOT_FOUND,
        availableDataLength := 0 } := by
  rcases getFreeCachePageIndex_cases K s with ⟨k, _, _, hk⟩ | ⟨_, m, hm, _⟩
  · rw [hk]
    exact Or.inl rfl
  · rw [hm]
    exact freeCachePage_info K s m i

/-- A property of slot descriptions that ageing keeps and that holds of a
freed and of a freshly loaded slot is kept by `loadPageToCache`. -/
theorem loadPageToCache_info (K : CacheConstants) (s : CachedFileIO) (p : Nat)
    (Q : CachePageInfo → Prop)
    (hage : ∀ c : CachePageInfo, Q c → Q { c with age := c.age + 1 })
    (hfree : Q
      { state := PageState.FREE, age := 0, filePageNo := K.PAGE_NOT_FOUND,
        availableDataLength := 0 })
    (hload : ∀ n, n ≤ K.DEFAULT_CACHE_PAGE_SIZE →
      Q { state := PageState.CLEAN, filePageNo := p, age := 0, availableDataLength := n })
    (h : ∀ i, Q (s.cachePagesInfo i)) :
    ∀ i, Q ((loadPageToCache K s p).1.cachePagesInfo i) := by
  have hA : ∀ i, Q ((ageCachePages s).cachePagesInfo i) := by
    intro i
    unfold ageCachePages
    simp only
    by_cases hi : i < s.cachePagesCount
    · rw [if_pos hi]
      exact hage _ (h i)
    · rw [if_neg hi]
      exact h i
  have hG : ∀ i, Q ((getFreeCachePageIndex K (ageCachePages s)).1.cachePagesInfo i) := by
    intro i
    rcases getFreeCachePageIndex_info K (ageCachePages s) i with e | e
    · rw [e]
      exact hA i
    · rw [e]
      exact hfree
  intro i
  cases hf : s.fileHandler with
  | none =>
    have : loadPageToCache K s p = (s, none) := by
      unfold loadPageToCache
      simp [hf]
    rw [this]
    exact h i
  | some f =>
    obtain ⟨f1, hf1⟩ := getFreeCachePageIndex_open K (ageCachePages s) f hf
    rw [loadPageToCache_eq K s p f f1 hf hf1]
    simp only
    by_cases hi : i = (getFreeCachePageIndex K (ageCachePages s)).2
    · rw [if_pos hi]
      apply hload
      unfold File.fread
      exact Nat.min_le_left _ _
    · rw [if_neg hi]
      exact hG i

theorem lookupOrLoad_info (K : CacheConstants) (s : CachedFileIO) (p : Nat)
    (Q : CachePageInfo → Prop)
    (hage : ∀ c : CachePageInfo, Q c → Q { c with age := c.age + 1 })
    (hfree : Q
      { state := PageState.FREE, age := 0, filePageNo := K.PAGE_NOT_FOUND,
        availableDataLength := 0 })
    (hload : ∀ n, n ≤ K.DEFAULT_CACHE_PAGE_SIZE →
      Q { state := PageState.CLEAN, filePageNo := p, age := 0, availableDataLength := n })
    (h : ∀ i, Q (s.cachePagesInfo i)) :
    ∀ i, Q ((lookupOrLoad K s p).1.cachePagesInfo i) := by
  cases hscan : scanSlots (holdsPage s p) s.cachePagesCount 0 with
  | some k =>
    rw [lookupOrLoad_hit K s p k hscan]
    exact h
  | none =>
    rw [lookupOrLoad_miss K s p hscan]
    exact loadPageToCache_info K _ p Q hage hfree hload h

theorem readLoop_info (K : CacheConstants) (position length firstPageNo lastPageNo : Nat)
    (Q : CachePageInfo → Prop)
    (hage : ∀ c : CachePageInfo, Q c → Q { c with age := c.age + 1 })
    (hfree : Q
      { state := PageState.FREE, age := 0, filePageNo := K.PAGE_NOT_FOUND,
        availableDataLength := 0 })
    (hload : ∀ p n, n ≤ K.DEFAULT_CACHE_PAGE_SIZE →
      Q { state := PageState.CLEAN, filePageNo := p, age := 0, availableDataLength := n })
    (n filePage : Nat) (s : CachedFileIO) (dst : Nat → Nat) (bytesRead : Nat)
    (h : ∀ i, Q (s.cachePagesInfo i)) :
    ∀ i, Q ((readLoop K position length firstPageNo lastPageNo n filePage s dst
      bytesRead).1.cachePagesInfo i) := by
  induction n generalizing filePage s dst bytesRead with
  | zero => exact h
  | succ n ih =>
    have hl := lookupOrLoad_info K s filePage Q hage hfree (hload filePage) h
    unfold readLoop
    cases hr : lookupOrLoad K s filePage with
    | mk s1 o =>
      rw [hr] at hl
      cases o with
      | none => exact hl
      | some idx => exact ih _ _ _ _ hl

theorem read_info (K : CacheConstants) (s : CachedFileIO) (position : Nat)
    (dataBuffer : Option (Nat → Nat)) (length : Nat)
    (Q : CachePageInfo → Prop)
    (hage : ∀ c : CachePageInfo, Q c → Q { c with age := c.age + 1 })
    (hfree : Q
      { state := PageState.FREE, age := 0, filePageNo := K.PAGE_NOT_FOUND,
        availableDataLength := 0 })
    (hload : ∀ p n, n ≤ K.DEFAULT_CACHE_PAGE_SIZE →
      Q { state := PageState.CLEAN, filePageNo := p, age := 0, availableDataLength := n })
    (h : ∀ i, Q (s.cachePagesInfo i)) :
    ∀ i, Q ((read K s position dataBuffer length).1.cachePagesInfo i) := by
  unfold read
  cases hf : s.fileHandler with
  | none => exact h
  | some f =>
    cases dataBuffer with
    | none => exact h
    | some dst =>
      simp only
      by_cases hz : length = 0
      · rw [if_pos hz]
        exact h
      · rw [if_neg hz]
        exact readLoop_info K position length _ _ Q hage hfree hload _ _ s dst 0 h

theorem flush_info (K : CacheConstants) (s : CachedFileIO) :
    (flush K s).1.cachePagesInfo = s.cachePagesInfo :=
  (flushLoop_fields K s.cachePagesCount 0 s 0).1



/-! ### No slot claims more valid bytes than a page holds -/

theorem lookupOrLoad_bounded (K : CacheConstants) (s : CachedFileIO) (p : Nat)
    (h : BoundedLengths K s) : BoundedLengths K (lookupOrLoad K s p).1 :=
  lookupOrLoad_info K s p (fun c => c.availableDataLength ≤ K.DEFAULT_CACHE_PAGE_SIZE)
    (fun _ hc => hc) (Nat.zero_le _) (fun _ hn => hn) h

theorem copyToCachePage_bounded (K : CacheConstants) (s : CachedFileIO)
    (cacheIndex dstOffset : Nat) (src : Nat → Nat) (srcOffset bytesToCopy : Nat)
    (h : BoundedLengths K s) (hc : bytesToCopy ≤ K.DEFAULT_CACHE_PAGE_SIZE) :
    BoundedLengths K (copyToCachePage s cacheIndex dstOffset src srcOffset bytesToCopy) := by
  intro i
  unfold copyToCachePage
  simp only
  by_cases hz : bytesToCopy > 0
  · rw [if_pos hz]
    simp only
    by_cases hi : i = cacheIndex
    · rw [if_pos hi]
      simp only
      exact Nat.max_le.mpr ⟨h cacheIndex, hc⟩
    · rw [if_neg hi]
      exact h i
  · rw [if_neg hz]
    exact h i

theorem writeLoop_bounded (K : CacheConstants) (position length : Nat) (src : Nat → Nat)
    (hP : 0 < K.DEFAULT_CACHE_PAGE_SIZE) (n filePage : Nat) (s : CachedFileIO)
    (bytesWritten : Nat) (hb : BoundedLengths K s)
    (hn : filePage + n = (position + length) / K.DEFAULT_CACHE_PAGE_SIZE + 1)
    (h1 : position / K.DEFAULT_CACHE_PAGE_SIZE ≤ filePage)
    (h3 : filePage = position / K.DEFAULT_CACHE_PAGE_SIZE → bytesWritten = 0)
    (h4 : position / K.DEFAULT_CACHE_PAGE_SIZE < filePage →
      filePage ≤ (position + length) / K.DEFAULT_CACHE_PAGE_SIZE →
      position + bytesWritten = filePage * K.DEFAULT_CACHE_PAGE_SIZE) :
    BoundedLengths K
      (writeLoop K position length (position / K.DEFAULT_CACHE_PAGE_SIZE)
        ((position + length) / K.DEFAULT_CACHE_PAGE_SIZE) src n filePage s bytesWritten).1 := by
  induction n generalizing filePage s bytesWritten with
  | zero => exact hb
  | succ n ih =>
    have hle : filePage ≤ (position + length) / K.DEFAULT_CACHE_PAGE_SIZE := by omega
    have hl := lookupOrLoad_bounded K s filePage hb
    obtain ⟨a1, _, a3, _⟩ := writeSpan_arith K position length filePage bytesWritten
      hP h1 hle h3 (fun hh => h4 hh hle)
    unfold writeLoop
    cases ho : (lookupOrLoad K s filePage).2 with
    | none =>
      rw [writePage_none K position length _ _ src filePage s bytesWritten ho]
      exact hl
    | some idx =>
      rw [writePage_of_lookup K position length _ _ src filePage s bytesWritten idx ho]
      simp only
      exact ih (filePage + 1) _ _
        (copyToCachePage_bounded K _ idx _ src bytesWritten _ hl (by omega))
        (by omega) (by omega) (fun hh => by omega) (fun _ hh => a3 (by omega))

theorem write_bounded (K : CacheConstants) (s : CachedFileIO) (position : Nat)
    (dataBuffer : Option (Nat → Nat)) (length : Nat) (hP : 0 < K.DEFAULT_CACHE_PAGE_SIZE)
    (h : BoundedLengths K s) : BoundedLengths K (write K s position dataBuffer length).1 := by
  unfold write
  cases hf : s.fileHandler with
  | none => exact h
  | some f =>
    cases dataBuffer with
    | none => exact h
    | some src =>
      simp only
      by_cases hl : s.readOnly = true ∨ length = 0
      · rw [if_pos hl]
        exact h
      · rw [if_neg hl]
        have hdiv : position / K.DEFAULT_CACHE_PAGE_SIZE ≤
            (position + length) / K.DEFAULT_CACHE_PAGE_SIZE :=
          Nat.div_le_div_right (Nat.le_add_right _ _)
        exact writeLoop_bounded K position length src hP _ _ s 0 h (by omega) (Nat.le_refl _)
          (fun _ => rfl) (fun hh => absurd hh (Nat.lt_irrefl _))

theorem read_bounded (K : CacheConstants) (s : CachedFileIO) (position : Nat)
    (dataBuffer : Option (Nat → Nat)) (length : Nat)
    (h : BoundedLengths K s) : BoundedLengths K (read K s position dataBuffer length).1 :=
  read_info K s position dataBuffer length
    (fun c => c.availableDataLength ≤ K.DEFAULT_CACHE_PAGE_SIZE)
    (fun _ hc => hc) (Nat.zero_le _) (fun _ _ hn => hn) h

theorem openFile_ok (K : CacheConstants) (s0 : CachedFileIO) (existing created : Option File)
    (cacheSize : Nat) (isReadOnly : Bool)
    (h : (openFile K s0 existing created cacheSize isReadOnly).2 = true) :
    (openFile K s0 existing created cacheSize isReadOnly).1.cachePagesInfo =
      (fun _ => zeroPageInfo) ∧
    (openFile K s0 existing created cacheSize isReadOnly).1.readOnly = isReadOnly ∧
    (openFile K s0 existing created cacheSize isReadOnly).1.fileHandler.isSome = true := by
  revert h
  unfold openFile
  cases existing with
  | some f0 => simp
  | none =>
    cases isReadOnly with
    | true => simp
    | false =>
      cases created with
      | none => simp
      | some f0 => simp

theorem reachable_bounded (K : CacheConstants) (s : CachedFileIO) (h : Reachable K s)
    (hP : 0 < K.DEFAULT_CACHE_PAGE_SIZE) : BoundedLengths K s := by
  induction h with
  | opened s0 existing created cacheSize isReadOnly hopen =>
    intro i
    rw [(openFile_ok K s0 existing created cacheSize isReadOnly hopen).1]
    exact Nat.zero_le _
  | read s position dataBuffer length _ ih => exact read_bounded K s position dataBuffer length ih
  | write s position dataBuffer length _ ih =>
    exact write_bounded K s position dataBuffer length hP ih
  | flush s _ ih =>
    intro i
    rw [flush_info]
    exact ih i

/-! ### The byte counts of read (C24) -/

theorem readSpan_arith (K : CacheConstants) (position length filePage bytesRead : Nat)
    (pageDataLength : Nat)
    (hP : 0 < K.DEFAULT_CACHE_PAGE_SIZE) (hpdl : pageDataLength ≤ K.DEFAULT_CACHE_PAGE_SIZE)
    (h1 : position / K.DEFAULT_CACHE_PAGE_SIZE ≤ filePage)
    (h2 : filePage ≤ (position + length) / K.DEFAULT_CACHE_PAGE_SIZE)
    (h3 : filePage = position / K.DEFAULT_CACHE_PAGE_SIZE → bytesRead = 0)
    (h4 : position / K.DEFAULT_CACHE_PAGE_SIZE < filePage →
      position + bytesRead ≤ filePage * K.DEFAULT_CACHE_PAGE_SIZE) :
    bytesRead +
      (readSpan K position length (position / K.DEFAULT_CACHE_PAGE_SIZE)
        ((position + length) / K.DEFAULT_CACHE_PAGE_SIZE) filePage pageDataLength).2 ≤
        length ∧
    (filePage < (position + length) / K.DEFAULT_CACHE_PAGE_SIZE →
      position + (bytesRead +
        (readSpan K position length (position / K.DEFAULT_CACHE_PAGE_SIZE)
          ((position + length) / K.DEFAULT_CACHE_PAGE_SIZE) filePage pageDataLength).2) ≤
        (filePage + 1) * K.DEFAULT_CACHE_PAGE_SIZE) := by
  have e1 := offset_split K.DEFAULT_CACHE_PAGE_SIZE position
  have e2 := offset_split K.DEFAULT_CACHE_PAGE_SIZE (position + length)
  have m1 := Nat.mod_lt position hP
  have m2 := Nat.mod_lt (position + length) hP
  have e3 : (filePage + 1) * K.DEFAULT_CACHE_PAGE_SIZE =
      filePage * K.DEFAULT_CACHE_PAGE_SIZE + K.DEFAULT_CACHE_PAGE_SIZE := Nat.succ_mul _ _
  have e4 : filePage < (position + length) / K.DEFAULT_CACHE_PAGE_SIZE →
      (filePage + 1) * K.DEFAULT_CACHE_PAGE_SIZE ≤
        (position + length) / K.DEFAULT_CACHE_PAGE_SIZE * K.DEFAULT_CACHE_PAGE_SIZE :=
    fun h => Nat.mul_le_mul_right _ h
  unfold readSpan
  by_cases hf : filePage = position / K.DEFAULT_CACHE_PAGE_SIZE
  · have hb := h3 hf
    rw [if_pos hf]
    simp only
    subst hf
    by_cases c1 : position % K.DEFAULT_CACHE_PAGE_SIZE < pageDataLength
    · rw [if_pos c1]
      by_cases c2 : position % K.DEFAULT_CACHE_PAGE_SIZE + length > pageDataLength
      · rw [if_pos c2]
        exact ⟨by omega, fun _ => by omega⟩
      · rw [if_neg c2]
        exact ⟨by omega, fun _ => by omega⟩
    · rw [if_neg c1]
      exact ⟨by omega, fun _ => by omega⟩
  · rw [if_neg hf]
    have hb := h4 (by omega)
    by_cases hl : filePage = (position + length) / K.DEFAULT_CACHE_PAGE_SIZE
    · rw [if_pos hl]
      simp only
      subst hl
      by_cases c1 : (position + length) % K.DEFAULT_CACHE_PAGE_SIZE < pageDataLength
      · rw [if_pos c1]
        exact ⟨by omega, fun hlt => by omega⟩
      · rw [if_neg c1]
        exact ⟨by omega, fun hlt => by omega⟩
    · rw [if_neg hl]
      simp only
      have := e4 (by omega)
      exact ⟨by omega, fun _ => by omega⟩

theorem readLoop_bound (K : CacheConstants) (position length : Nat)
    (hP : 0 < K.DEFAULT_CACHE_PAGE_SIZE) (n filePage : Nat) (s : CachedFileIO)
    (dst : Nat → Nat) (bytesRead : Nat) (hopen : s.fileHandler.isSome = true)
    (hb : BoundedLengths K s)
    (hn : filePage + n = (position + length) / K.DEFAULT_CACHE_PAGE_SIZE + 1)
    (h1 : position / K.DEFAULT_CACHE_PAGE_SIZE ≤ filePage)
    (h3 : filePage = position / K.DEFAULT_CACHE_PAGE_SIZE → bytesRead = 0)
    (h4 : position / K.DEFAULT_CACHE_PAGE_SIZE < filePage →
      filePage ≤ (position + length) / K.DEFAULT_CACHE_PAGE_SIZE →
      position + bytesRead ≤ filePage * K.DEFAULT_CACHE_PAGE_SIZE)
    (h5 : filePage = (position + length) / K.DEFAULT_CACHE_PAGE_SIZE + 1 →
      bytesRead ≤ length) :
    (readLoop K position length (position / K.DEFAULT_CACHE_PAGE_SIZE)
      ((position + length) / K.DEFAULT_CACHE_PAGE_SIZE) n filePage s dst bytesRead).2.2 ≤
      length ∧
    (readLoop K position length (position / K.DEFAULT_CACHE_PAGE_SIZE)
      ((position + length) / K.DEFAULT_CACHE_PAGE_SIZE) n filePage s dst bytesRead).2.2 =
      bytesRead +
        (readCountsLoop K position length (position / K.DEFAULT_CACHE_PAGE_SIZE)
          ((position + length) / K.DEFAULT_CACHE_PAGE_SIZE) n filePage s).sum ∧
    (∀ j,
      (readLoop K position length (position / K.DEFAULT_CACHE_PAGE_SIZE)
        ((position + length) / K.DEFAULT_CACHE_PAGE_SIZE) n filePage s dst bytesRead).2.2 ≤ j →
      (readLoop K position length (position / K.DEFAULT_CACHE_PAGE_SIZE)
        ((position + length) / K.DEFAULT_CACHE_PAGE_SIZE) n filePage s dst bytesRead).2.1 j =
        dst j) := by
  induction n generalizing filePage s dst bytesRead with
  | zero =>
    have hb := h5 (by omega)
    exact ⟨hb, by simp [readLoop, readCountsLoop], fun _ _ => rfl⟩
  | succ n ih =>
    have hle : filePage ≤ (position + length) / K.DEFAULT_CACHE_PAGE_SIZE := by omega
    obtain ⟨⟨idx, hl⟩, hopen1⟩ := lookupOrLoad_open K s filePage hopen
    have hb1 := lookupOrLoad_bounded K s filePage hb
    unfold readLoop readCountsLoop
    cases hr : lookupOrLoad K s filePage with
    | mk s1 o =>
      rw [hr] at hl hopen1 hb1
      simp only at hl hopen1 hb1
      subst hl
      simp only
      obtain ⟨a1, a2⟩ := readSpan_arith K position length filePage bytesRead
        (s1.cachePagesInfo idx).availableDataLength hP (hb1 idx) h1 hle h3
        (fun hh => h4 hh hle)
      obtain ⟨r1, r2, r3⟩ := ih (filePage + 1) s1
        (fun j =>
          if bytesRead ≤ j ∧ j < bytesRead +
              (readSpan K position length (position / K.DEFAULT_CACHE_PAGE_SIZE)
                ((position + length) / K.DEFAULT_CACHE_PAGE_SIZE) filePage
                (s1.cachePagesInfo idx).availableDataLength).2 then
            s1.cachePagesData idx
              ((readSpan K position length (position / K.DEFAULT_CACHE_PAGE_SIZE)
                ((position + length) / K.DEFAULT_CACHE_PAGE_SIZE) filePage
                (s1.cachePagesInfo idx).availableDataLength).1 + (j - bytesRead))
          else dst j)
        (bytesRead +
          (readSpan K position length (position / K.DEFAULT_CACHE_PAGE_SIZE)
            ((position + length) / K.DEFAULT_CACHE_PAGE_SIZE) filePage
            (s1.cachePagesInfo idx).availableDataLength).2)
        hopen1 hb1 (by omega) (by omega) (fun hh => by omega) (fun _ hh => a2 (by omega))
        (fun _ => a1)
      refine ⟨r1, ?_, fun j hj => ?_⟩
      · rw [r2, List.sum_cons]
        omega
      · rw [r3 j hj]
        have hge : bytesRead +
            (readSpan K position length (position / K.DEFAULT_CACHE_PAGE_SIZE)
              ((position + length) / K.DEFAULT_CACHE_PAGE_SIZE) filePage
              (s1.cachePagesInfo idx).availableDataLength).2 ≤ j := by
          rw [r2] at hj
          omega
        rw [if_neg (by omega)]



/-- C24: in every state of the cache reachable from a successful `open` (page
size positive), for every call `read(position, dataBuffer, length)` the value
returned is at most `length`, it is the sum of the byte counts `bytesToCopy` the
page loop copies into the caller's buffer, and the buffer is left as it was at
every index from the returned value on; so a buffer of `length` bytes is never
written past its end. -/
theorem read_within_buffer (K : CacheConstants) (s : CachedFileIO) (h : Reachable K s)
    (hP : 0 < K.DEFAULT_CACHE_PAGE_SIZE) (position : Nat) (dataBuffer : Option (Nat → Nat))
    (length : Nat) :
    (read K s position dataBuffer length).2.2 ≤ length ∧
    (read K s position dataBuffer length).2.2 =
      (readCounts K s position dataBuffer length).sum ∧
    (∀ dst, dataBuffer = some dst →
      ∃ out, (read K s position dataBuffer length).2.1 = some out ∧
        ∀ j, (read K s position dataBuffer length).2.2 ≤ j → out j = dst j) := by
  have hb := reachable_bounded K s h hP
  unfold read readCounts
  cases hf : s.fileHandler with
  | none =>
    refine ⟨Nat.zero_le _, rfl, fun dst hd => ⟨dst, hd, fun _ _ => rfl⟩⟩
  | some f =>
    cases dataBuffer with
    | none =>
      refine ⟨Nat.zero_le _, rfl, fun dst hd => ?_⟩
      cases hd
    | some dst0 =>
      simp only
      by_cases hz : length = 0
      · rw [if_pos hz, if_pos hz]
        refine ⟨Nat.zero_le _, rfl, fun dst hd => ⟨dst, hd, fun _ _ => rfl⟩⟩
      · rw [if_neg hz, if_neg hz]
        have hdiv : position / K.DEFAULT_CACHE_PAGE_SIZE ≤
            (position + length) / K.DEFAULT_CACHE_PAGE_SIZE :=
          Nat.div_le_div_right (Nat.le_add_right _ _)
        obtain ⟨r1, r2, r3⟩ := readLoop_bound K position length hP
          ((position + length) / K.DEFAULT_CACHE_PAGE_SIZE + 1 -
            position / K.DEFAULT_CACHE_PAGE_SIZE)
          (position / K.DEFAULT_CACHE_PAGE_SIZE) s dst0 0 (by rw [hf]; rfl) hb
          (by omega) (Nat.le_refl _) (fun _ => rfl)
          (fun hh => absurd hh (Nat.lt_irrefl _)) (fun hh => by omega)
        refine ⟨r1, ?_, fun dst hd => ?_⟩
        · rw [r2]
          omega
        · cases hd
          exact ⟨_, rfl, r3⟩

/-- C24 at a concrete input: on the cache just opened over the four-byte file,
`read(1, out, 8)` returns 3, copied in one piece, which is at most 8. -/
theorem read_within_buffer_witness :
    (Reachable sampleConstants openedCache ∧ 0 < sampleConstants.DEFAULT_CACHE_PAGE_SIZE) ∧
    (read sampleConstants openedCache 1 (some (fun _ => 0)) 8).2.2 = 3 ∧
    readCounts sampleConstants openedCache 1 (some (fun _ => 0)) 8 = [3] ∧
    (read sampleConstants openedCache 1 (some (fun _ => 0)) 8).2.2 ≤ 8 :=
  ⟨⟨Reachable.opened newCachedFile (some sampleFile) none 0 false (by decide), by decide⟩,
    by decide, by decide,
    (read_within_buffer sampleConstants openedCache
      (Reachable.opened newCachedFile (some sampleFile) none 0 false (by decide)) (by decide)
      1 (some (fun _ => 0)) 8).1⟩

/-! ### Ageing at a load (C21) -/

/-- C21: `loadPageToCache(p)` on a cache whose file is open returns a slot;
afterwards that slot holds page `p` with state `CLEAN` and age 0, and every
other slot of the cache is as before the call except that its age is greater
by exactly one. -/
theorem loadPageToCache_ages (K : CacheConstants) (s : CachedFileIO) (p : Nat)
    (hopen : s.fileHandler.isSome = true) :
    ∃ idx, (loadPageToCache K s p).2 = some idx ∧
      ((loadPageToCache K s p).1.cachePagesInfo idx).filePageNo = p ∧
      ((loadPageToCache K s p).1.cachePagesInfo idx).state = PageState.CLEAN ∧
      ((loadPageToCache K s p).1.cachePagesInfo idx).age = 0 ∧
      ∀ i, i < s.cachePagesCount → i ≠ idx →
        (loadPageToCache K s p).1.cachePagesInfo i =
          { s.cachePagesInfo i with age := (s.cachePagesInfo i).age + 1 } := by
  cases hf : s.fileHandler with
  | none =>
    rw [hf] at hopen
    cases hopen
  | some f =>
    obtain ⟨f1, hf1⟩ := getFreeCachePageIndex_open K (ageCachePages s) f hf
    rw [loadPageToCache_eq K s p f f1 hf hf1]
    refine ⟨(getFreeCachePageIndex K (ageCachePages s)).2, rfl, ?_, ?_, ?_, ?_⟩
    · simp only [if_true]
    · simp only [if_true]
    · simp only [if_true]
    · intro i hi hne
      simp only
      rw [if_neg hne, (getFreeCachePageIndex_fields K (ageCachePages s)).2.2.2.1 i hne]
      unfold ageCachePages
      simp only
      rw [if_pos hi]

/-- C21 at a concrete input: with pages 0 and 1 in the slots 0 and 1, of ages 1
and 0, loading page 5 returns slot 2 and leaves the ages 2, 1 and 0. -/
theorem loadPageToCache_ages_witness :
    twoPagesCache.fileHandler.isSome = true ∧
    (loadPageToCache sampleConstants twoPagesCache 5).2 = some 2 ∧
    ((twoPagesCache.cachePagesInfo 0).age = 1 ∧ (twoPagesCache.cachePagesInfo 1).age = 0) ∧
    (((loadPageToCache sampleConstants twoPagesCache 5).1.cachePagesInfo 0).age = 2 ∧
      ((loadPageToCache sampleConstants twoPagesCache 5).1.cachePagesInfo 1).age = 1 ∧
      ((loadPageToCache sampleConstants twoPagesCache 5).1.cachePagesInfo 2).age = 0) ∧
    ∃ idx, (loadPageToCache sampleConstants twoPagesCache 5).2 = some idx ∧
      ((loadPageToCache sampleConstants twoPagesCache 5).1.cachePagesInfo idx).filePageNo = 5 ∧
      ((loadPageToCache sampleConstants twoPagesCache 5).1.cachePagesInfo idx).state =
        PageState.CLEAN ∧
      ((loadPageToCache sampleConstants twoPagesCache 5).1.cachePagesInfo idx).age = 0 ∧
      ∀ i, i < twoPagesCache.cachePagesCount → i ≠ idx →
        (loadPageToCache sampleConstants twoPagesCache 5).1.cachePagesInfo i =
          { twoPagesCache.cachePagesInfo i with
              age := (twoPagesCache.cachePagesInfo i).age + 1 } :=
  ⟨by decide, by decide, by decide, by decide,
    loadPageToCache_ages sampleConstants twoPagesCache 5 (by decide)⟩

/-! ### A read-only cache (C26) -/

theorem getFreeCachePageIndex_clean_file (K : CacheConstants) (s : CachedFileIO)
    (hnd : ∀ i, (s.cachePagesInfo i).state ≠ PageState.DIRTY) :
    (getFreeCachePageIndex K s).1.fileHandler = s.fileHandler := by
  rcases getFreeCachePageIndex_cases K s with ⟨k, _, _, hk⟩ | ⟨_, m, hm, _⟩
  · rw [hk]
  · rw [hm]
    exact (freeCachePage_file K s m).1 (hnd m)

theorem loadPageToCache_clean_file (K : CacheConstants) (s : CachedFileIO) (p : Nat)
    (hnd : ∀ i, (s.cachePagesInfo i).state ≠ PageState.DIRTY) :
    (loadPageToCache K s p).1.fileHandler = s.fileHandler := by
  have hA : ∀ i, ((ageCachePages s).cachePagesInfo i).state ≠ PageState.DIRTY := by
    intro i
    rw [(ageCachePages_fields s).2.2.2.2.1 i]
    exact hnd i
  have hG := getFreeCachePageIndex_clean_file K (ageCachePages s) hA
  have hAf : (ageCachePages s).fileHandler = s.fileHandler := rfl
  rw [hAf] at hG
  cases hf : s.fileHandler with
  | none =>
    have : loadPageToCache K s p = (s, none) := by
      unfold loadPageToCache
      simp [hf]
    rw [this]
    exact hf
  | some f =>
    rw [hf] at hG
    rw [loadPageToCache_eq K s p f f hf hG]
    exact hG

/-- With no slot `DIRTY`, the lookup of a page leaves the file as it is, makes
no slot `DIRTY` and keeps the flag `readOnly`. -/
theorem lookupOrLoad_clean (K : CacheConstants) (s : CachedFileIO) (p : Nat)
    (hnd : ∀ i, (s.cachePagesInfo i).state ≠ PageState.DIRTY) :
    (lookupOrLoad K s p).1.fileHandler = s.fileHandler ∧
    (∀ i, ((lookupOrLoad K s p).1.cachePagesInfo i).state ≠ PageState.DIRTY) ∧
    (lookupOrLoad K s p).1.readOnly = s.readOnly := by
  refine ⟨?_, ?_, lookupOrLoad_readOnly K s p⟩
  · cases hscan : scanSlots (holdsPage s p) s.cachePagesCount 0 with
    | some k => rw [lookupOrLoad_hit K s p k hscan]
    | none =>
      rw [lookupOrLoad_miss K s p hscan]
      exact loadPageToCache_clean_file K _ p hnd
  · exact lookupOrLoad_info K s p (fun c => c.state ≠ PageState.DIRTY)
      (fun _ hc => hc) (by simp) (fun _ _ => by simp) hnd

theorem readLoop_clean (K : CacheConstants) (position length firstPageNo lastPageNo : Nat)
    (n filePage : Nat) (s : CachedFileIO) (dst : Nat → Nat) (bytesRead : Nat)
    (hnd : ∀ i, (s.cachePagesInfo i).state ≠ PageState.DIRTY) :
    (readLoop K position length firstPageNo lastPageNo n filePage s dst
      bytesRead).1.fileHandler = s.fileHandler ∧
    (∀ i, ((readLoop K position length firstPageNo lastPageNo n filePage s dst
      bytesRead).1.cachePagesInfo i).state ≠ PageState.DIRTY) ∧
    (readLoop K position length firstPageNo lastPageNo n filePage s dst
      bytesRead).1.readOnly = s.readOnly := by
  induction n generalizing filePage s dst bytesRead with
  | zero => exact ⟨rfl, hnd, rfl⟩
  | succ n ih =>
    have hl := lookupOrLoad_clean K s filePage hnd
    unfold readLoop
    cases hr : lookupOrLoad K s filePage with
    | mk s1 o =>
      rw [hr] at hl
      cases o with
      | none => exact hl
      | some idx =>
        simp only
        obtain ⟨r1, r2, r3⟩ := ih (filePage + 1) s1
          (fun j =>
            if bytesRead ≤ j ∧ j < bytesRead +
                (readSpan K position length firstPageNo lastPageNo filePage
                  (s1.cachePagesInfo idx).availableDataLength).2 then
              s1.cachePagesData idx
                ((readSpan K position length firstPageNo lastPageNo filePage
                  (s1.cachePagesInfo idx).availableDataLength).1 + (j - bytesRead))
            else dst j)
          (bytesRead +
            (readSpan K position length firstPageNo lastPageNo filePage
              (s1.cachePagesInfo idx).availableDataLength).2) hl.2.1
        exact ⟨r1.trans hl.1, r2, r3.trans hl.2.2⟩

theorem read_clean (K : CacheConstants) (s : CachedFileIO) (position : Nat)
    (dataBuffer : Option (Nat → Nat)) (length : Nat)
    (hnd : ∀ i, (s.cachePagesInfo i).state ≠ PageState.DIRTY) :
    (read K s position dataBuffer length).1.fileHandler = s.fileHandler ∧
    (∀ i, ((read K s position dataBuffer length).1.cachePagesInfo i).state ≠
      PageState.DIRTY) ∧
    (read K s position dataBuffer length).1.readOnly = s.readOnly := by
  unfold read
  cases hf : s.fileHandler with
  | none => exact ⟨hf.symm ▸ rfl, hnd, rfl⟩
  | some f =>
    cases dataBuffer with
    | none => exact ⟨hf.symm ▸ rfl, hnd, rfl⟩
    | some dst =>
      simp only
      by_cases hz : length = 0
      · rw [if_pos hz]
        exact ⟨hf.symm ▸ rfl, hnd, rfl⟩
      · rw [if_neg hz, ← hf]
        exact readLoop_clean K position length _ _ _ _ s dst 0 hnd

theorem flushLoop_clean (K : CacheConstants) (n cacheIndex : Nat) (s : CachedFileIO)
    (bytesWritten : Nat) (hnd : ∀ i, (s.cachePagesInfo i).state ≠ PageState.DIRTY) :
    flushLoop K n cacheIndex s bytesWritten = (s, bytesWritten) := by
  induction n generalizing cacheIndex with
  | zero => rfl
  | succ n ih =>
    unfold flushLoop
    rw [if_neg (hnd cacheIndex)]
    exact ih (cacheIndex + 1)

theorem write_readOnly (K : CacheConstants) (s : CachedFileIO) (position : Nat)
    (dataBuffer : Option (Nat → Nat)) (length : Nat) (hro : s.readOnly = true) :
    write K s position dataBuffer length = (s, 0) := by
  unfold write
  cases s.fileHandler with
  | none => rfl
  | some f =>
    cases dataBuffer with
    | none => rfl
    | some src =>
      simp only
      rw [if_pos (Or.inl hro)]

/-- The states reachable from a read-only state without `DIRTY` slot are
read-only, have no `DIRTY` slot, and hold the file of the first state. -/
theorem reachableFrom_clean (K : CacheConstants) (s0 s : CachedFileIO)
    (h : ReachableFrom K s0 s) (hro : s0.readOnly = true)
    (hnd : ∀ i, (s0.cachePagesInfo i).state ≠ PageState.DIRTY) :
    s.readOnly = true ∧ (∀ i, (s.cachePagesInfo i).state ≠ PageState.DIRTY) ∧
    s.fileHandler = s0.fileHandler := by
  induction h with
  | start => exact ⟨hro, hnd, rfl⟩
  | read s position dataBuffer length _ ih =>
    obtain ⟨i1, i2, i3⟩ := ih
    obtain ⟨r1, r2, r3⟩ := read_clean K s position dataBuffer length i2
    exact ⟨r3.trans i1, r2, r1.trans i3⟩
  | write s position dataBuffer length _ ih =>
    rw [write_readOnly K s position dataBuffer length ih.1]
    exact ih
  | flush s _ ih =>
    unfold flush
    rw [flushLoop_clean K _ _ s 0 ih.2.1]
    exact ih

/-- C26: in every state reachable by `read`, `write` and `flush` from a cache
opened with `readOnly = true`, every `write` call returns 0 and leaves the whole
state (slots and statistics counters) as it is, no slot is `DIRTY`, the file is
the one the cache was opened on, and `read`, `flush` and the eviction at a page
load leave the file untouched (`flush` returns 0 bytes written). -/
theorem readOnly_cache_never_writes (K : CacheConstants) (s0 : CachedFileIO)
    (existing created : Option File) (cacheSize : Nat)
    (hopen : (openFile K s0 existing created cacheSize true).2 = true) (s : CachedFileIO)
    (h : ReachableFrom K (openFile K s0 existing created cacheSize true).1 s) :
    s.readOnly = true ∧
    (∀ position dataBuffer length, write K s position dataBuffer length = (s, 0)) ∧
    (∀ i, (s.cachePagesInfo i).state ≠ PageState.DIRTY) ∧
    s.fileHandler = (openFile K s0 existing created cacheSize true).1.fileHandler ∧
    (∀ position dataBuffer length,
      (read K s position dataBuffer length).1.fileHandler = s.fileHandler) ∧
    flush K s = (s, 0) ∧
    (∀ p, (loadPageToCache K s p).1.fileHandler = s.fileHandler) ∧
    (getFreeCachePageIndex K s).1.fileHandler = s.fileHandler := by
  obtain ⟨o1, o2, _⟩ := openFile_ok K s0 existing created cacheSize true hopen
  have hnd0 : ∀ i, ((openFile K s0 existing created cacheSize true).1.cachePagesInfo i).state ≠
      PageState.DIRTY := by
    intro i
    rw [o1]
    simp [zeroPageInfo]
  obtain ⟨i1, i2, i3⟩ := reachableFrom_clean K _ s h o2 hnd0
  refine ⟨i1, fun position dataBuffer length => write_readOnly K s position dataBuffer length i1,
    i2, i3, fun position dataBuffer length => (read_clean K s position dataBuffer length i2).1,
    ?_, fun p => loadPageToCache_clean_file K s p i2, getFreeCachePageIndex_clean_file K s i2⟩
  unfold flush
  exact flushLoop_clean K _ _ s 0 i2

/-- C26 at a concrete input: the four-byte file opened read-only, then
`read(0, out, 2)`; a `write(0, buffer, 2)` in that state returns 0 and the slot
of page 0 is `CLEAN`. -/
theorem readOnly_cache_never_writes_witness :
    ((openFile sampleConstants newCachedFile (some sampleFile) none 0 true).2 = true ∧
      ReachableFrom sampleConstants
        (openFile sampleConstants newCachedFile (some sampleFile) none 0 true).1
        (read sampleConstants readOnlyCache 0 (some (fun _ => 0)) 2).1) ∧
    (write sampleConstants (read sampleConstants readOnlyCache 0 (some (fun _ => 0)) 2).1 0
      (some (fun _ => 7)) 2).2 = 0 ∧
    ((read sampleConstants readOnlyCache 0 (some (fun _ => 0)) 2).1.cachePagesInfo 0).state =
      PageState.CLEAN ∧
    (read sampleConstants readOnlyCache 0 (some (fun _ => 0)) 2).1.readOnly = true :=
  ⟨⟨by decide, ReachableFrom.read _ 0 (some (fun _ => 0)) 2 ReachableFrom.start⟩,
    by decide, by decide,
    (readOnly_cache_never_writes sampleConstants newCachedFile (some sampleFile) none 0
      (by decide) _ (ReachableFrom.read _ 0 (some (fun _ => 0)) 2 ReachableFrom.start)).1⟩

/-! ### A read that hits the cache (C22) -/

/-- C22 (the code at the failing input): `read` leaves the age of a slot it hits as it is.
In general, a `read` confined to one resident page changes no slot description
at all. Concretely, on the four-byte file, after `read(0, out, 2)` (page 0 loaded
into slot 0) and `read(8192, out, 2)` (page 1 loaded, slot 0 aged to 1), the call
`read(0, out, 2)` returns 2 without a cache miss and slot 0, which holds page 0,
still has age 1 when it returns. -/
theorem read_hit_keeps_age :
    (∀ (K : CacheConstants) (s : CachedFileIO) (position length k : Nat) (dst : Nat → Nat),
      s.fileHandler.isSome = true → 0 < length →
      (position + length) / K.DEFAULT_CACHE_PAGE_SIZE = position / K.DEFAULT_CACHE_PAGE_SIZE →
      residentSlot s (position / K.DEFAULT_CACHE_PAGE_SIZE) = some k →
      (read K s position (some dst) length).1.cachePagesInfo = s.cachePagesInfo) ∧
    residentSlot twoPagesCache 0 = some 0 ∧
    (twoPagesCache.cachePagesInfo 0).age = 1 ∧
    (read sampleConstants twoPagesCache 0 (some (fun _ => 0)) 2).2.2 = 2 ∧
    (read sampleConstants twoPagesCache 0 (some (fun _ => 0)) 2).1.cacheMisses =
      twoPagesCache.cacheMisses ∧
    residentSlot (read sampleConstants twoPagesCache 0 (some (fun _ => 0)) 2).1 0 = some 0 ∧
    ((read sampleConstants twoPagesCache 0 (some (fun _ => 0)) 2).1.cachePagesInfo 0).age =
      1 := by
  refine ⟨?_, by decide, by decide, by decide, by decide, by decide, by decide⟩
  intro K s position length k dst hopen hlen hpage hres
  unfold read
  cases hf : s.fileHandler with
  | none => exact absurd hopen (by simp [hf])
  | some f =>
    simp only
    rw [if_neg (by omega), hpage]
    have h1 : position / K.DEFAULT_CACHE_PAGE_SIZE + 1 - position / K.DEFAULT_CACHE_PAGE_SIZE =
        1 := by omega
    rw [h1]
    unfold readLoop
    rw [lookupOrLoad_hit K s _ k hres]
    simp only
    unfold readLoop
    rfl

/-! ### Reading back what was written (C23) -/

/-- C23 (the code at the failing input): on the cache opened over a new, empty file,
`write(10, buffer, 5)` with a buffer of sevens returns 5 and leaves the slot of
page 0 with five valid bytes; the `read(10, out, 5)` that follows returns 0 and
copies nothing, so `out` keeps its zeros. -/
theorem write_then_read_short :
    (write sampleConstants freshCache 10 (some (fun _ => 7)) 5).2 = 5 ∧
    (writtenCache.cachePagesInfo 0).availableDataLength = 5 ∧
    (read sampleConstants writtenCache 10 (some (fun _ => 0)) 5).2.2 = 0 ∧
    (read sampleConstants writtenCache 10 (some (fun _ => 0)) 5).2.1.map
      (fun out => (List.range 5).map out) = some [0, 0, 0, 0, 0] := by
  decide

/-! ### The pages a call looks up (C25) -/

/-- C25 (the code at the failing input): with pages of 8192 bytes the byte range of
`write(0, buffer, 8192)` and of `read(0, out, 8192)` lies in page 0 alone (its
last byte, 8191, is in page 0), yet each call counts two cache requests and two
misses and leaves page 1 loaded in slot 1. -/
theorem page_aligned_end_looks_up_next_page :
    (0 + 8192 - 1) / sampleConstants.DEFAULT_CACHE_PAGE_SIZE = 0 ∧
    (write sampleConstants freshCache 0 (some (fun _ => 7)) 8192).2 = 8192 ∧
    (write sampleConstants freshCache 0 (some (fun _ => 7)) 8192).1.cacheRequests = 2 ∧
    (write sampleConstants freshCache 0 (some (fun _ => 7)) 8192).1.cacheMisses = 2 ∧
    residentSlot (write sampleConstants freshCache 0 (some (fun _ => 7)) 8192).1 1 = some 1 ∧
    (read sampleConstants openedCache 0 (some (fun _ => 0)) 8192).1.cacheRequests = 2 ∧
    (read sampleConstants openedCache 0 (some (fun _ => 0)) 8192).1.cacheMisses = 2 ∧
    residentSlot (read sampleConstants openedCache 0 (some (fun _ => 0)) 8192).1 1 =
      some 1 := by
  decide

/-! ### The buffer of getValueAt (C27) -/

/-- C27 (the code at the failing input): the buffer of `getValueAt` is the single `char`
that `std::make_unique<char>(valueLength)` allocates. For every record with a
payload of at least one byte (every value `setValueAt` stores has its
terminator), `valueLength` is the payload length plus one, which exceeds the one
byte allocated, and the terminator is written at index `valueLength - 1`, beyond
index 0. Concretely, after `setValueAt(0, "a")` the buffer has 1 byte,
`valueLength` is 3, the record delivers 2 bytes and the terminator goes to
index 2. -/
theorem getValueAt_buffer_is_one_char :
    (∀ (node : LeafNode) (rf : RecordFileIO) (index : Nat) (r : StoredRecord),
      rf.records (node.data.values index) = some r → 0 < r.payload.length →
      r.payload.length + 1 < 2 ^ 32 →
      (getValueAtBuffer node rf index).1 = 1 ∧
      (getValueAtBuffer node rf index).2.1 = r.payload.length + 1 ∧
      (getValueAtBuffer node rf index).2.2.1 = r.payload.length ∧
      (getValueAtBuffer node rf index).2.2.2 = r.payload.length ∧
      (getValueAtBuffer node rf index).1 < (getValueAtBuffer node rf index).2.1 ∧
      (getValueAtBuffer node rf index).1 ≤ (getValueAtBuffer node rf index).2.2.2) ∧
    (setValueAt sampleIndexConstants sampleLeaf sampleRecords 0 [97]).map
      (fun st => getValueAtBuffer st.1 st.2 0) = some (1, 3, 2, 2) := by
  refine ⟨?_, by decide⟩
  intro node rf index r hrec hpos hlen
  have hrec1 : (setPosition rf (node.data.values index)).records
      (setPosition rf (node.data.values index)).position = some r := hrec
  have hl := getDataLength_eq _ _ hrec1
  unfold getValueAtBuffer makeUniqueChar
  simp only
  rw [hl]
  have e1 : (r.payload.length + 1) % 2 ^ 32 = r.payload.length + 1 := by
    apply Nat.mod_eq_of_lt
    omega
  have e2 : (r.payload.length + 1 + 2 ^ 32 - 1) % 2 ^ 32 = r.payload.length := by
    omega
  rw [e1, e2]
  refine ⟨trivial, rfl, by omega, rfl, by omega, by omega⟩

/-! ### The call of write in 64-bit arithmetic (C16) -/

theorem write64_eq_write (K : CacheConstants) (s : CachedFileIO) (position : Nat)
    (dataBuffer : Option (Nat → Nat)) (length : Nat) (h : position + length < 2 ^ 64) :
    write64 K s position dataBuffer length = write K s position dataBuffer length := by
  unfold write64 write
  rw [Nat.mod_eq_of_lt h]

theorem loadPageToCache_holds (K : CacheConstants) (s : CachedFileIO) (p idx : Nat)
    (h : (loadPageToCache K s p).2 = some idx) :
    ((loadPageToCache K s p).1.cachePagesInfo idx).filePageNo = p := by
  cases hf : s.fileHandler with
  | none =>
    have : loadPageToCache K s p = (s, none) := by
      unfold loadPageToCache
      simp [hf]
    rw [this] at h
    cases h
  | some f =>
    obtain ⟨f1, hf1⟩ := getFreeCachePageIndex_open K (ageCachePages s) f hf
    rw [loadPageToCache_eq K s p f f1 hf hf1] at h ⊢
    simp only [Option.some.injEq] at h
    subst h
    simp only [if_true]

theorem lookupOrLoad_holds (K : CacheConstants) (s : CachedFileIO) (p idx : Nat)
    (h : (lookupOrLoad K s p).2 = some idx) :
    ((lookupOrLoad K s p).1.cachePagesInfo idx).filePageNo = p := by
  cases hscan : scanSlots (holdsPage s p) s.cachePagesCount 0 with
  | some k =>
    rw [lookupOrLoad_hit K s p k hscan] at h ⊢
    simp only [Option.some.injEq] at h
    subst h
    have := (scanSlots_some hscan).2.2.1
    unfold holdsPage at this
    simp only [Bool.and_eq_true, decide_eq_true_eq] at this
    exact this.2
  | none =>
    rw [lookupOrLoad_miss K s p hscan] at h ⊢
    exact loadPageToCache_holds K _ p idx h

theorem getLast?_cons_getD {α β : Type} (f : α → β) (c : α) (rest : List α) (d : β) :
    ((c :: rest).getLast?.map f).getD d = (rest.getLast?.map f).getD (f c) := by
  cases rest with
  | nil => rfl
  | cons x xs => rw [List.getLast?_cons_cons]; rfl

theorem writeLoopCopies_spec (K : CacheConstants) (position length : Nat) (src : Nat → Nat)
    (hP : 0 < K.DEFAULT_CACHE_PAGE_SIZE) (n filePage : Nat) (s : CachedFileIO)
    (bytesWritten : Nat) (hopen : s.fileHandler.isSome = true)
    (hn : filePage + n = (position + length) / K.DEFAULT_CACHE_PAGE_SIZE + 1)
    (h1 : position / K.DEFAULT_CACHE_PAGE_SIZE ≤ filePage)
    (h3 : filePage = position / K.DEFAULT_CACHE_PAGE_SIZE → bytesWritten = 0)
    (h4 : position / K.DEFAULT_CACHE_PAGE_SIZE < filePage →
      filePage ≤ (position + length) / K.DEFAULT_CACHE_PAGE_SIZE →
      position + bytesWritten = filePage * K.DEFAULT_CACHE_PAGE_SIZE) :
    (writeLoopCopies K position length (position / K.DEFAULT_CACHE_PAGE_SIZE)
        ((position + length) / K.DEFAULT_CACHE_PAGE_SIZE) src n filePage s bytesWritten).map
      PageCopy.filePage = List.range' filePage n ∧
    (writeLoopCopies K position length (position / K.DEFAULT_CACHE_PAGE_SIZE)
        ((position + length) / K.DEFAULT_CACHE_PAGE_SIZE) src n filePage s bytesWritten).map
      PageCopy.bytesToCopy =
      writeCountsLoop K position length (position / K.DEFAULT_CACHE_PAGE_SIZE)
        ((position + length) / K.DEFAULT_CACHE_PAGE_SIZE) n filePage bytesWritten ∧
    (∀ c, c ∈ writeLoopCopies K position length (position / K.DEFAULT_CACHE_PAGE_SIZE)
        ((position + length) / K.DEFAULT_CACHE_PAGE_SIZE) src n filePage s bytesWritten →
      c.dstOffset + c.bytesToCopy ≤ K.DEFAULT_CACHE_PAGE_SIZE ∧
      c.filePage * K.DEFAULT_CACHE_PAGE_SIZE + c.dstOffset = position + c.srcOffset ∧
      c.bytesToCopy =
        (writeSpan K position length (position / K.DEFAULT_CACHE_PAGE_SIZE)
          ((position + length) / K.DEFAULT_CACHE_PAGE_SIZE) c.filePage c.srcOffset).2 ∧
      (c.after.cachePagesInfo c.cacheIndex).filePageNo = c.filePage ∧
      ∀ j, j < c.bytesToCopy →
        c.after.cachePagesData c.cacheIndex (c.dstOffset + j) = src (c.srcOffset + j)) ∧
    (writeLoop K position length (position / K.DEFAULT_CACHE_PAGE_SIZE)
        ((position + length) / K.DEFAULT_CACHE_PAGE_SIZE) src n filePage s bytesWritten).1 =
      ((writeLoopCopies K position length (position / K.DEFAULT_CACHE_PAGE_SIZE)
        ((position + length) / K.DEFAULT_CACHE_PAGE_SIZE) src n filePage s
        bytesWritten).getLast?.map PageCopy.after).getD s := by
  induction n generalizing filePage s bytesWritten with
  | zero =>
    refine ⟨rfl, rfl, fun c hc => ?_, rfl⟩
    simp [writeLoopCopies] at hc
  | succ n ih =>
    have hle : filePage ≤ (position + length) / K.DEFAULT_CACHE_PAGE_SIZE := by omega
    obtain ⟨⟨idx, hl⟩, hopen1⟩ := lookupOrLoad_open K s filePage hopen
    have hholds := lookupOrLoad_holds K s filePage idx hl
    obtain ⟨a1, a2, a3, _⟩ := writeSpan_arith K position length filePage bytesWritten
      hP h1 hle h3 (fun hh => h4 hh hle)
    obtain ⟨r1, r2, r3, r4⟩ := ih (filePage + 1)
      (copyToCachePage (lookupOrLoad K s filePage).1 idx
        (writeSpan K position length (position / K.DEFAULT_CACHE_PAGE_SIZE)
          ((position + length) / K.DEFAULT_CACHE_PAGE_SIZE) filePage bytesWritten).1 src
        bytesWritten
        (writeSpan K position length (position / K.DEFAULT_CACHE_PAGE_SIZE)
          ((position + length) / K.DEFAULT_CACHE_PAGE_SIZE) filePage bytesWritten).2)
      (bytesWritten +
        (writeSpan K position length (position / K.DEFAULT_CACHE_PAGE_SIZE)
          ((position + length) / K.DEFAULT_CACHE_PAGE_SIZE) filePage bytesWritten).2)
      (by rw [(copyToCachePage_fields _ _ _ _ _ _).2.1]; exact hopen1)
      (by omega) (by omega) (fun hh => by omega) (fun _ hh => a3 (by omega))
    have hcopies : writeLoopCopies K position length (position / K.DEFAULT_CACHE_PAGE_SIZE)
        ((position + length) / K.DEFAULT_CACHE_PAGE_SIZE) src (n + 1) filePage s bytesWritten =
        { filePage := filePage, cacheIndex := idx,
          dstOffset := (writeSpan K position length (position / K.DEFAULT_CACHE_PAGE_SIZE)
            ((position + length) / K.DEFAULT_CACHE_PAGE_SIZE) filePage bytesWritten).1,
          srcOffset := bytesWritten,
          bytesToCopy := (writeSpan K position length (position / K.DEFAULT_CACHE_PAGE_SIZE)
            ((position + length) / K.DEFAULT_CACHE_PAGE_SIZE) filePage bytesWritten).2,
          after := copyToCachePage (lookupOrLoad K s filePage).1 idx
            (writeSpan K position length (position / K.DEFAULT_CACHE_PAGE_SIZE)
              ((position + length) / K.DEFAULT_CACHE_PAGE_SIZE) filePage bytesWritten).1 src
            bytesWritten
            (writeSpan K position length (position / K.DEFAULT_CACHE_PAGE_SIZE)
              ((position + length) / K.DEFAULT_CACHE_PAGE_SIZE) filePage bytesWritten).2 } ::
          writeLoopCopies K position length (position / K.DEFAULT_CACHE_PAGE_SIZE)
            ((position + length) / K.DEFAULT_CACHE_PAGE_SIZE) src n (filePage + 1)
            (copyToCachePage (lookupOrLoad K s filePage).1 idx
              (writeSpan K position length (position / K.DEFAULT_CACHE_PAGE_SIZE)
                ((position + length) / K.DEFAULT_CACHE_PAGE_SIZE) filePage bytesWritten).1 src
              bytesWritten
              (writeSpan K position length (position / K.DEFAULT_CACHE_PAGE_SIZE)
                ((position + length) / K.DEFAULT_CACHE_PAGE_SIZE) filePage bytesWritten).2)
            (bytesWritten +
              (writeSpan K position length (position / K.DEFAULT_CACHE_PAGE_SIZE)
                ((position + length) / K.DEFAULT_CACHE_PAGE_SIZE) filePage bytesWritten).2) := by
      conv => lhs; unfold writeLoopCopies
      cases hr : lookupOrLoad K s filePage with
      | mk s1 o =>
        rw [hr] at hl
        simp only at hl
        subst hl
        rfl
    have hloop : writeLoop K position length (position / K.DEFAULT_CACHE_PAGE_SIZE)
        ((position + length) / K.DEFAULT_CACHE_PAGE_SIZE) src (n + 1) filePage s bytesWritten =
        writeLoop K position length (position / K.DEFAULT_CACHE_PAGE_SIZE)
          ((position + length) / K.DEFAULT_CACHE_PAGE_SIZE) src n (filePage + 1)
          (copyToCachePage (lookupOrLoad K s filePage).1 idx
            (writeSpan K position length (position / K.DEFAULT_CACHE_PAGE_SIZE)
              ((position + length) / K.DEFAULT_CACHE_PAGE_SIZE) filePage bytesWritten).1 src
            bytesWritten
            (writeSpan K position length (position / K.DEFAULT_CACHE_PAGE_SIZE)
              ((position + length) / K.DEFAULT_CACHE_PAGE_SIZE) filePage bytesWritten).2)
          (bytesWritten +
            (writeSpan K position length (position / K.DEFAULT_CACHE_PAGE_SIZE)
              ((position + length) / K.DEFAULT_CACHE_PAGE_SIZE) filePage bytesWritten).2) := by
      conv => lhs; unfold writeLoop
      rw [writePage_of_lookup K position length _ _ src filePage s bytesWritten idx hl]
    rw [hcopies, hloop]
    refine ⟨?_, ?_, fun c hc => ?_, ?_⟩
    · rw [List.map_cons, r1, List.range'_succ]
    · rw [List.map_cons, r2]
      conv => rhs; unfold writeCountsLoop
    · rcases List.mem_cons.mp hc with hc | hc
      · subst hc
        refine ⟨a1, a2, rfl, ?_, fun j hj => ?_⟩
        · simp only
          rw [(copyToCachePage_fields _ _ _ _ _ _).2.2.2.2.1]
          exact hholds
        · simp only at hj ⊢
          rw [copyToCachePage_data, if_pos ⟨rfl, by omega, by omega⟩]
          congr 1
          omega
      · exact r3 c hc
    · rw [r4, getLast?_cons_getD]



/-- C16 (counterexample): on the cache just opened on a new file, open and
writable, the call `write(2^64 - 1, buffer, 2)` has `length > 0`, yet the sum
`position + length` wraps to 1, the last page number 0 lies below the first,
the loop makes no pass and the call returns 0, not 2. -/
theorem write64_wraps_to_zero :
    (0 < 2 ∧ freshCache.fileHandler.isSome = true ∧ freshCache.readOnly = false) ∧
    (2 ^ 64 - 1 + 2) % 2 ^ 64 = 1 ∧
    (write64 sampleConstants freshCache (2 ^ 64 - 1) (some (fun _ => 7)) 2).2 = 0 ∧
    (writeCopies sampleConstants freshCache (2 ^ 64 - 1) (some (fun _ => 7)) 2).length = 0 ∧
    (write64 sampleConstants freshCache (2 ^ 64 - 1) (some (fun _ => 7)) 2).2 ≠ 2 := by
  decide

/-- C16 (amended): for every position and every `length > 0` whose sum
`position + length` stays below `2 ^ 64`, `write` on a cache whose file is open
(so that every page load succeeds) and writable, with a buffer that is not
null, returns exactly `length`. Its loop makes one pass for each page from
`position / P` to `(position + length) / P`, and the byte counts of the passes
add up to `length`: the first is `min(length, P - position % P)` and every page
strictly between the first and the last receives a full page. Each pass copies
its bytes: they lie within the page, at the file offset that corresponds to
their place in the buffer, and right after the pass the slot of that page holds
them. The state returned is the one after the last pass. -/
theorem write64_returns_length (K : CacheConstants) (s : CachedFileIO) (position : Nat)
    (src : Nat → Nat) (length : Nat) (hP : 0 < K.DEFAULT_CACHE_PAGE_SIZE)
    (hopen : s.fileHandler.isSome = true) (hwritable : s.readOnly = false)
    (hlen : 0 < length) (hsum : position + length < 2 ^ 64) :
    (write64 K s position (some src) length).2 = length ∧
    ((writeCopies K s position (some src) length).map PageCopy.bytesToCopy).sum = length ∧
    (writeCopies K s position (some src) length).map PageCopy.filePage =
      List.range' (position / K.DEFAULT_CACHE_PAGE_SIZE)
        ((position + length) / K.DEFAULT_CACHE_PAGE_SIZE + 1 -
          position / K.DEFAULT_CACHE_PAGE_SIZE) ∧
    ((writeCopies K s position (some src) length).map PageCopy.bytesToCopy).head? =
      some (min length
        (K.DEFAULT_CACHE_PAGE_SIZE - position % K.DEFAULT_CACHE_PAGE_SIZE)) ∧
    (∀ c, c ∈ writeCopies K s position (some src) length →
      (position / K.DEFAULT_CACHE_PAGE_SIZE < c.filePage →
        c.filePage < (position + length) / K.DEFAULT_CACHE_PAGE_SIZE →
        c.bytesToCopy = K.DEFAULT_CACHE_PAGE_SIZE) ∧
      c.dstOffset + c.bytesToCopy ≤ K.DEFAULT_CACHE_PAGE_SIZE ∧
      c.filePage * K.DEFAULT_CACHE_PAGE_SIZE + c.dstOffset = position + c.srcOffset ∧
      (c.after.cachePagesInfo c.cacheIndex).filePageNo = c.filePage ∧
      ∀ j, j < c.bytesToCopy →
        c.after.cachePagesData c.cacheIndex (c.dstOffset + j) = src (c.srcOffset + j)) ∧
    (write64 K s position (some src) length).1 =
      ((writeCopies K s position (some src) length).getLast?.map PageCopy.after).getD s := by
  have hfl : position / K.DEFAULT_CACHE_PAGE_SIZE ≤
      (position + length) / K.DEFAULT_CACHE_PAGE_SIZE :=
    Nat.div_le_div_right (Nat.le_add_right _ _)
  obtain ⟨f, hf⟩ := Option.isSome_iff_exists.mp hopen
  have hw : write64 K s position (some src) length =
      writeLoop K position length (position / K.DEFAULT_CACHE_PAGE_SIZE)
        ((position + length) / K.DEFAULT_CACHE_PAGE_SIZE) src
        ((position + length) / K.DEFAULT_CACHE_PAGE_SIZE + 1 -
          position / K.DEFAULT_CACHE_PAGE_SIZE)
        (position / K.DEFAULT_CACHE_PAGE_SIZE) s 0 := by
    unfold write64
    rw [hf, Nat.mod_eq_of_lt hsum]
    simp only [hwritable, Bool.false_eq_true, false_or]
    rw [if_neg (by omega)]
  have hc : writeCopies K s position (some src) length =
      writeLoopCopies K position length (position / K.DEFAULT_CACHE_PAGE_SIZE)
        ((position + length) / K.DEFAULT_CACHE_PAGE_SIZE) src
        ((position + length) / K.DEFAULT_CACHE_PAGE_SIZE + 1 -
          position / K.DEFAULT_CACHE_PAGE_SIZE)
        (position / K.DEFAULT_CACHE_PAGE_SIZE) s 0 := by
    unfold writeCopies
    rw [hf, Nat.mod_eq_of_lt hsum]
    simp only [hwritable, Bool.false_eq_true, false_or]
    rw [if_neg (by omega)]
  obtain ⟨r1, r2⟩ := writeLoop_count K position length src hP
    ((position + length) / K.DEFAULT_CACHE_PAGE_SIZE + 1 -
      position / K.DEFAULT_CACHE_PAGE_SIZE)
    (position / K.DEFAULT_CACHE_PAGE_SIZE) s 0 hopen (by omega) (le_refl _) (fun _ => rfl)
    (fun hh => absurd hh (lt_irrefl _)) (fun hh => by omega)
  obtain ⟨c1, c2, c3, c4⟩ := writeLoopCopies_spec K position length src hP
    ((position + length) / K.DEFAULT_CACHE_PAGE_SIZE + 1 -
      position / K.DEFAULT_CACHE_PAGE_SIZE)
    (position / K.DEFAULT_CACHE_PAGE_SIZE) s 0 hopen (by omega) (le_refl _) (fun _ => rfl)
    (fun hh => absurd hh (lt_irrefl _))
  rw [hw, hc]
  refine ⟨r1, ?_, c1, ?_, fun c hm => ?_, c4⟩
  · rw [c2]
    omega
  · rw [c2]
    obtain ⟨n, hn⟩ : ∃ n, (position + length) / K.DEFAULT_CACHE_PAGE_SIZE + 1 -
        position / K.DEFAULT_CACHE_PAGE_SIZE = n + 1 :=
      ⟨(position + length) / K.DEFAULT_CACHE_PAGE_SIZE -
        position / K.DEFAULT_CACHE_PAGE_SIZE, by omega⟩
    rw [hn]
    unfold writeCountsLoop
    simp [writeSpan]
  · obtain ⟨d1, d2, d3, d4, d5⟩ := c3 c hm
    refine ⟨fun hlo hhi => ?_, d1, d2, d4, d5⟩
    rw [d3]
    unfold writeSpan
    rw [if_neg (by omega), if_neg (by omega)]

/-- C16 (amended) at a concrete input: `write(8000, buffer, 20000)` with pages
of 8192 bytes returns 20000, copied into the pages 0 to 3 as 192 bytes, two
full pages and 3424 bytes. -/
theorem write64_returns_length_witness :
    (0 < sampleConstants.DEFAULT_CACHE_PAGE_SIZE ∧ freshCache.fileHandler.isSome = true ∧
      freshCache.readOnly = false ∧ 0 < 20000 ∧ 8000 + 20000 < 2 ^ 64) ∧
    (write64 sampleConstants freshCache 8000 (some (fun _ => 7)) 20000).2 = 20000 ∧
    (writeCopies sampleConstants freshCache 8000 (some (fun _ => 7)) 20000).map
      PageCopy.filePage = [0, 1, 2, 3] ∧
    (writeCopies sampleConstants freshCache 8000 (some (fun _ => 7)) 20000).map
      PageCopy.bytesToCopy = [192, 8192, 8192, 3424] :=
  ⟨⟨by decide, by decide, by decide, by decide, by decide⟩,
    (write64_returns_length sampleConstants freshCache 8000 (fun _ => 7) 20000 (by decide)
      (by decide) (by decide) (by decide) (by decide)).1,
    by decide, by decide⟩

/-! ### The valid length across a whole call of write (C3) -/

/-- C3 (the code at the failing input): on a device that accepts no write, with
page 33 in slot 0 holding five valid bytes and every other slot taken, the call
`write(262144, buffer, 8194)` touches the pages 32 and 33 and returns 8194. The
load of page 32 evicts page 33, whose bytes cannot be written and are dropped;
page 33 is then loaded again from the file, which has none of it, and receives
two bytes: after the call the slot of page 33 has two valid bytes where it had
five before. -/
theorem write_shrinks_valid_length :
    lossyCache.fileHandler.map File.diskFull = some true ∧
    262144 / sampleConstants.DEFAULT_CACHE_PAGE_SIZE = 32 ∧
    (262144 + 8194) / sampleConstants.DEFAULT_CACHE_PAGE_SIZE = 33 ∧
    residentSlot lossyCache 33 = some 0 ∧
    (lossyCache.cachePagesInfo 0).availableDataLength = 5 ∧
    (write sampleConstants lossyCache 262144 (some (fun _ => 9)) 8194).2 = 8194 ∧
    residentSlot (write sampleConstants lossyCache 262144 (some (fun _ => 9)) 8194).1 33 =
      some 1 ∧
    ((write sampleConstants lossyCache 262144 (some (fun _ => 9)) 8194).1.cachePagesInfo
      1).availableDataLength = 2 := by
  decide

end Boson
